import Mathlib

/-!
# core-alljoyn: permission-management proxy, lock checker, listener dispatch

A shallow embedding of

* `alljoyn_core/src/PermissionMgmtProxy.cc` (namespace `ajn`),
* `common/src/LockChecker.cc` (namespace `qcc`),
* `alljoyn_core/src/ProtectedAuthListener.cc` (namespace `ajn`), and
* the application state machine and the claiming protocol, of which the sources
  hold the declarations only (`PermissionConfigurator.h`, `SecurityManager.h`),

followed by theorems about the embedded functions.

Conventions.  A `uint8_t` is a `Nat`, a byte buffer is a `List Nat`, a C pointer
that may be `NULL` is an `Option`, a `uint32_t` is a `Nat` with explicit
reduction modulo `2 ^ 32` where the source can wrap.  Functions of other
translation units (the bus, the certificate decoders, the key-info helper) are
fields of an environment structure passed to the embedded function.
-/

/-! ## Status codes and wire values -/

/-- Modelled from the spec: the `QStatus` codes of `alljoyn/Status.h` (not among
the sources) that the embedded functions name, plus `other` for every further
code. -/
inductive QStatus where
  | ER_OK
  | ER_FAIL
  | ER_INVALID_DATA
  | ER_NOT_IMPLEMENTED
  | ER_PERMISSION_DENIED
  | ER_BUS_REPLY_IS_ERROR_MESSAGE
  | ER_BUS_SIGNATURE_MISMATCH
  | ER_TIMEOUT
  | ER_OS_ERROR
  | ER_INVALID_APPLICATION_STATE
  | other (code : Nat)
  deriving DecidableEq, Repr

namespace ajn

open QStatus

/-- Modelled from the spec: the tagged-union wire argument `MsgArg` of
`alljoyn/MsgArg.h` (not among the sources), restricted to the shapes the proxy
builds and decodes: `y`, `ay`, `s`, `(...)`, `v` and `a...` (with the element
signature). -/
inductive MsgArg where
  | invalid
  | byte (v : Nat)
  | string (s : String)
  | byteArray (bytes : List Nat)
  | struct (members : List MsgArg)
  | variant (val : MsgArg)
  | array (elemSig : String) (elems : List MsgArg)

namespace MsgArg

/-- Modelled from the spec: `MsgArg::Get("(yv)", &y, &v)`; a shape other than a
two-member struct of a byte and a variant is a signature mismatch. -/
def Get_yv : MsgArg → Except QStatus (Nat × MsgArg)
  | .struct [.byte y, .variant v] => .ok (y, v)
  | _ => .error ER_BUS_SIGNATURE_MISMATCH

/-- Modelled from the spec: `MsgArg::Get("(ayyyv)", &len, &ay, &y1, &y2, &v)`. -/
def Get_ayyyv : MsgArg → Except QStatus (List Nat × Nat × Nat × MsgArg)
  | .struct [.byteArray kid, .byte y1, .byte y2, .variant v] => .ok (kid, y1, y2, v)
  | _ => .error ER_BUS_SIGNATURE_MISMATCH

/-- Modelled from the spec: `MsgArg::Get("(yyv)", &y1, &y2, &v)`. -/
def Get_yyv : MsgArg → Except QStatus (Nat × Nat × MsgArg)
  | .struct [.byte y1, .byte y2, .variant v] => .ok (y1, y2, v)
  | _ => .error ER_BUS_SIGNATURE_MISMATCH

/-- Modelled from the spec: `MsgArg::Get("(ayay)", &xLen, &x, &yLen, &y)`; the
length of each array is the length of the list. -/
def Get_ayay : MsgArg → Except QStatus (List Nat × List Nat)
  | .struct [.byteArray x, .byteArray y] => .ok (x, y)
  | _ => .error ER_BUS_SIGNATURE_MISMATCH

/-- Modelled from the spec: `MsgArg::Get("(yay)", &y, &len, &ay)`. -/
def Get_yay : MsgArg → Except QStatus (Nat × List Nat)
  | .struct [.byte y, .byteArray bytes] => .ok (y, bytes)
  | _ => .error ER_BUS_SIGNATURE_MISMATCH

/-- Modelled from the spec: `MsgArg::Set("ay", n, p)`, the byte array made of
the first `n` bytes at `p`. -/
def Set_ay (n : Nat) (p : List Nat) : QStatus × MsgArg :=
  (ER_OK, .byteArray (p.take n))

/-- Modelled from the spec: `MsgArg::Set("(yay)", y, n, p)`. -/
def Set_yay (y : Nat) (n : Nat) (p : List Nat) : QStatus × MsgArg :=
  (ER_OK, .struct [.byte y, .byteArray (p.take n)])

/-- Modelled from the spec: `MsgArg::Set("a<sig>", n, elems)`, the array of the
first `n` elements at `elems` (`NULL` with `n = 0` is the empty array). -/
def Set_array (elemSig : String) (n : Nat) (elems : Option (List MsgArg)) : QStatus × MsgArg :=
  (ER_OK, .array elemSig ((elems.getD []).take n))

end MsgArg

/-- Modelled from the spec: the part of a reply `Message` (`alljoyn/Message.h`
is not among the sources) the proxy reads: what `GetErrorName(&errorMsg)`
returns (`none` is `NULL`) and stores in `errorMsg`, and the reply arguments. -/
structure Message where
  errorName : Option String
  errorMsg : String
  args : List MsgArg

namespace Message

/-- Modelled from the spec: `Message::GetArg(0)`, `NULL` when the reply carries
no argument. -/
def GetArg0 (msg : Message) : Option MsgArg := msg.args.head?

end Message

namespace PermissionMgmtProxy

/-- `PermissionMgmtProxy::IsPermissionDeniedError` (PermissionMgmtProxy.cc:329). -/
def IsPermissionDeniedError (msg : Message) : Bool :=
  match msg.errorName with
  | none => false
  | some errorName =>
    if errorName = "org.alljoyn.Bus.ER_PERMISSION_DENIED" then
      true
    else if errorName ≠ "org.alljoyn.Bus.ErStatus" then
      false
    else if msg.errorMsg = "ER_PERMISSION_DENIED" then
      true
    else
      false

end PermissionMgmtProxy

end ajn

namespace qcc

/-- Constants of headers that are not among the sources (`qcc/KeyInfo.h`,
`qcc/KeyInfoECC.h`, `qcc/CryptoECC.h`, `qcc/CertificateECC.h`, `qcc/GUID.h`),
taken as parameters of the embedded functions. -/
structure Constants where
  FORMAT_ALLJOYN : Nat
  USAGE_SIGNING : Nat
  USAGE_ENCRYPTION : Nat
  KEY_TYPE : Nat
  ECC_NIST_P256 : Nat
  ECC_COORDINATE_SZ : Nat
  ENCODING_X509_DER : Nat
  ENCODING_X509_DER_PEM : Nat
  GUID128_SIZE : Nat

/-- A concrete choice of the constants, on which the definitions are
evaluated. -/
def alljoynConstants : Constants where
  FORMAT_ALLJOYN := 0
  USAGE_SIGNING := 0
  USAGE_ENCRYPTION := 1
  KEY_TYPE := 0
  ECC_NIST_P256 := 0
  ECC_COORDINATE_SZ := 32
  ENCODING_X509_DER := 0
  ENCODING_X509_DER_PEM := 1
  GUID128_SIZE := 16

/-- `qcc::ECCPublicKey`: the two affine coordinates, `ECC_COORDINATE_SZ` bytes
each. -/
structure ECCPublicKey where
  x : List Nat
  y : List Nat
  deriving DecidableEq, Repr

/-- `qcc::KeyInfoNISTP256`: a key id and a public key. -/
structure KeyInfoNISTP256 where
  keyId : List Nat
  publicKey : ECCPublicKey
  deriving DecidableEq, Repr

namespace KeyInfoNISTP256

/-- `KeyInfo::GetKeyIdLen`. -/
def GetKeyIdLen (k : KeyInfoNISTP256) : Nat := k.keyId.length

/-- `KeyInfoNISTP256::SetXCoord`: copies `ECC_COORDINATE_SZ` bytes from the
argument into the X coordinate. -/
def SetXCoord (K : Constants) (k : KeyInfoNISTP256) (xCoord : List Nat) : KeyInfoNISTP256 :=
  { k with publicKey := { k.publicKey with x := xCoord.take K.ECC_COORDINATE_SZ } }

/-- `KeyInfoNISTP256::SetYCoord`: copies `ECC_COORDINATE_SZ` bytes from the
argument into the Y coordinate. -/
def SetYCoord (K : Constants) (k : KeyInfoNISTP256) (yCoord : List Nat) : KeyInfoNISTP256 :=
  { k with publicKey := { k.publicKey with y := yCoord.take K.ECC_COORDINATE_SZ } }

/-- The default-constructed `KeyInfoNISTP256`. -/
def default : KeyInfoNISTP256 := { keyId := [], publicKey := { x := [], y := [] } }

end KeyInfoNISTP256

/-- `qcc::GUID128`: its bytes. -/
structure GUID128 where
  bytes : List Nat
  deriving DecidableEq, Repr

/-- `qcc::IdentityCertificate`, as far as the proxy reads it: the encoded
certificate (`GetEncoded`, `GetEncodedLen`). -/
structure IdentityCertificate where
  encoded : List Nat
  deriving DecidableEq, Repr

namespace IdentityCertificate

/-- `CertificateX509::GetEncodedLen`. -/
def GetEncodedLen (c : IdentityCertificate) : Nat := c.encoded.length

end IdentityCertificate

end qcc

namespace ajn

open QStatus

/-- `PermissionPolicy::Rule`, in the wire shape `(ssa(syy))`. -/
structure Rule where
  objPath : String
  interfaceName : String
  members : List (String × Nat × Nat)
  deriving DecidableEq, Repr

/-- The bus side of the proxy (`ProxyBusObject`, not among the sources): the
permission-management interface name and the remote method call, which returns
a status and the reply message. -/
structure ProxyBusObject where
  InterfaceName : String
  MethodCall : (iface : String) → (method : String) → (args : List MsgArg) → QStatus × Message

/-- The static rule codec of `PermissionPolicy` (not among the sources). -/
structure PermissionPolicyOps where
  GenerateRules : List Rule → QStatus × MsgArg
  ParseRules : MsgArg → QStatus × Option (List Rule)

/-- The certificate decoders of `qcc::CertificateX509` (not among the sources):
each takes the encoded bytes and the certificate object it is invoked on. -/
structure CertificateOps where
  DecodeCertificateDER : List Nat → qcc.IdentityCertificate → QStatus × qcc.IdentityCertificate
  DecodeCertificatePEM : List Nat → qcc.IdentityCertificate → QStatus × qcc.IdentityCertificate

/-- The functions of `KeyInfoHelper` (not among the sources). -/
structure KeyInfoHelper where
  GenerateKeyId : qcc.KeyInfoNISTP256 → qcc.KeyInfoNISTP256
  KeyInfoNISTP256PubKeyToMsgArg : qcc.KeyInfoNISTP256 → MsgArg
  KeyInfoKeyIdToMsgArg : qcc.KeyInfoNISTP256 → MsgArg

/-- What a call does: it returns a status together with the state of its output
parameter, or it dereferences the `NULL` that `GetArg(0)` returned. -/
inductive Outcome (α : Type) where
  | returned (status : QStatus) (out : α)
  | nullDereference

namespace PermissionMgmtProxy

/-- `PermissionMgmtProxy::RetrieveECCPublicKeyFromMsgArg`
(PermissionMgmtProxy.cc:348).  The second component is the caller's `*pubKey`
after the call. -/
def RetrieveECCPublicKeyFromMsgArg (K : qcc.Constants) (arg : MsgArg)
    (pubKey : qcc.ECCPublicKey) : QStatus × qcc.ECCPublicKey :=
  match arg.Get_yv with
  | .error status => (status, pubKey)
  | .ok (keyFormat, variantArg) =>
    let status := ER_OK
    if keyFormat ≠ K.FORMAT_ALLJOYN then (status, pubKey) else
    match variantArg.Get_ayyyv with
    | .error status => (status, pubKey)
    | .ok (_kid, keyUsageType, keyType, keyVariantArg) =>
      let status := ER_OK
      if keyUsageType ≠ K.USAGE_SIGNING ∧ keyUsageType ≠ K.USAGE_ENCRYPTION then
        (status, pubKey)
      else if keyType ≠ K.KEY_TYPE then (status, pubKey) else
      match keyVariantArg.Get_yyv with
      | .error status => (status, pubKey)
      | .ok (_algorithm, curve, curveVariant) =>
        let status := ER_OK
        if curve ≠ K.ECC_NIST_P256 then (status, pubKey) else
        match curveVariant.Get_ayay with
        | .error status => (status, pubKey)
        | .ok (xCoord, yCoord) =>
          let status := ER_OK
          if xCoord.length ≠ K.ECC_COORDINATE_SZ ∨ yCoord.length ≠ K.ECC_COORDINATE_SZ then
            (status, pubKey)
          else
            let keyInfo := qcc.KeyInfoNISTP256.default
            let keyInfo := keyInfo.SetXCoord K xCoord
            let keyInfo := keyInfo.SetYCoord K yCoord
            (ER_OK, keyInfo.publicKey)

/-- `PermissionMgmtProxy::RemovePolicy` (PermissionMgmtProxy.cc:151). -/
def RemovePolicy (bus : ProxyBusObject) : QStatus :=
  let r := bus.MethodCall bus.InterfaceName "RemovePolicy" []
  let status := r.1
  let reply := r.2
  if status = ER_BUS_REPLY_IS_ERROR_MESSAGE then
    if IsPermissionDeniedError reply then ER_PERMISSION_DENIED else status
  else status

/-- `PermissionMgmtProxy::InstallMembership` (PermissionMgmtProxy.cc:164). -/
def InstallMembership (bus : ProxyBusObject) (certChainArg : MsgArg) : QStatus :=
  let r := bus.MethodCall bus.InterfaceName "InstallMembership" [certChainArg]
  let status := r.1
  let reply := r.2
  if status = ER_BUS_REPLY_IS_ERROR_MESSAGE then
    if IsPermissionDeniedError reply then ER_PERMISSION_DENIED else status
  else status

/-- `PermissionMgmtProxy::RemoveMembership` (PermissionMgmtProxy.cc:196). -/
def RemoveMembership (bus : ProxyBusObject) (serialNum : String) (issuerAki : List Nat) :
    QStatus :=
  let inputs0 := MsgArg.string serialNum
  let inputs1 := (MsgArg.Set_ay issuerAki.length issuerAki).2
  let r := bus.MethodCall bus.InterfaceName "RemoveMembership" [inputs0, inputs1]
  let status := r.1
  let reply := r.2
  if status = ER_BUS_REPLY_IS_ERROR_MESSAGE then
    if IsPermissionDeniedError reply then ER_PERMISSION_DENIED else status
  else status

/-- `PermissionMgmtProxy::InstallIdentity` (PermissionMgmtProxy.cc:213). -/
def InstallIdentity (bus : ProxyBusObject) (certArg : MsgArg) : QStatus :=
  let r := bus.MethodCall bus.InterfaceName "InstallIdentity" [certArg]
  let status := r.1
  let reply := r.2
  if status = ER_BUS_REPLY_IS_ERROR_MESSAGE then
    if IsPermissionDeniedError reply then ER_PERMISSION_DENIED else status
  else status

/-- `PermissionMgmtProxy::Reset` (PermissionMgmtProxy.cc:284). -/
def Reset (bus : ProxyBusObject) : QStatus :=
  let r := bus.MethodCall bus.InterfaceName "Reset" []
  let status := r.1
  let reply := r.2
  if status = ER_BUS_REPLY_IS_ERROR_MESSAGE then
    if IsPermissionDeniedError reply then ER_PERMISSION_DENIED else status
  else status

/-- `PermissionMgmtProxy::GetManifest` (PermissionMgmtProxy.cc:262).  The output
is the caller's rule array after the call (`none`: untouched).  The status of
the method call, normalised or not, is overwritten by the status of the decode
of the reply's first argument. -/
def GetManifest (P : PermissionPolicyOps) (bus : ProxyBusObject) :
    Outcome (Option (List Rule)) :=
  let r := bus.MethodCall bus.InterfaceName "GetManifest" []
  let status := r.1
  let reply := r.2
  let _status :=
    if status = ER_BUS_REPLY_IS_ERROR_MESSAGE then
      if IsPermissionDeniedError reply then ER_PERMISSION_DENIED else status
    else status
  match reply.GetArg0 with
  | none => .nullDereference
  | some arg0 =>
    match arg0.Get_yv with
    | .error status => .returned status none
    | .ok (_type, variant) =>
      let p := P.ParseRules variant
      .returned p.1 p.2

/-- Which decoder `GetIdentity` invoked, and on which bytes. -/
inductive DecoderCall where
  | DER (bytes : List Nat)
  | PEM (bytes : List Nat)
  deriving DecidableEq, Repr

/-- `PermissionMgmtProxy::GetIdentity` (PermissionMgmtProxy.cc:227).  The output
is the caller's `*cert` after the call and the decoder invocations made. -/
def GetIdentity (K : qcc.Constants) (C : CertificateOps) (bus : ProxyBusObject)
    (cert : qcc.IdentityCertificate) : Outcome (qcc.IdentityCertificate × List DecoderCall) :=
  let r := bus.MethodCall bus.InterfaceName "GetIdentity" []
  let status := r.1
  let reply := r.2
  let status :=
    if status = ER_BUS_REPLY_IS_ERROR_MESSAGE then
      if IsPermissionDeniedError reply then ER_PERMISSION_DENIED else status
    else status
  if status ≠ ER_OK then .returned status (cert, []) else
  match reply.GetArg0 with
  | none => .nullDereference
  | some arg0 =>
    match arg0.Get_yay with
    | .error status => .returned status (cert, [])
    | .ok (encoding, encoded) =>
      if encoding = K.ENCODING_X509_DER then
        let d := C.DecodeCertificateDER encoded cert
        .returned d.1 (d.2, [.DER encoded])
      else if encoding = K.ENCODING_X509_DER_PEM then
        let d := C.DecodeCertificatePEM encoded cert
        .returned d.1 (d.2, [.PEM encoded])
      else
        .returned ER_NOT_IMPLEMENTED (cert, [])

/-- The by-reference key info arguments of `Claim`. -/
inductive ClaimKeyArg where
  | certificateAuthority
  | adminGroup
  deriving DecidableEq, Repr

/-- What `Claim` does besides returning: key-id generations and remote method
calls, in the order they happen. -/
inductive ClaimEvent where
  | generateKeyId (arg : ClaimKeyArg)
  | methodCall (iface : String) (method : String) (args : List MsgArg)

/-- The state after `Claim`: the returned status, the two by-reference key
infos, and the events in order. -/
structure ClaimResult where
  status : QStatus
  certificateAuthority : qcc.KeyInfoNISTP256
  adminGroup : qcc.KeyInfoNISTP256
  trace : List ClaimEvent

/-- `PermissionMgmtProxy::Claim` (PermissionMgmtProxy.cc:40).  A pointer with
its element count is an optional list: `none` is `NULL`, and
`identityCertChainSize` and `manifestSize` are the lengths of the lists. -/
def Claim (K : qcc.Constants) (H : KeyInfoHelper) (P : PermissionPolicyOps)
    (bus : ProxyBusObject) (certificateAuthority : qcc.KeyInfoNISTP256)
    (adminGroupId : qcc.GUID128) (adminGroup : qcc.KeyInfoNISTP256)
    (identityCertChain : Option (List qcc.IdentityCertificate))
    (manifest : Option (List Rule)) : ClaimResult :=
  match identityCertChain, manifest with
  | some chain, some rules =>
    let identityCertChainSize := chain.length
    let manifestSize := rules.length
    let genCA : Bool := certificateAuthority.GetKeyIdLen = 0
    let trace := if genCA then [ClaimEvent.generateKeyId .certificateAuthority] else []
    let certificateAuthority :=
      if genCA then H.GenerateKeyId certificateAuthority else certificateAuthority
    let inputs0 := H.KeyInfoNISTP256PubKeyToMsgArg certificateAuthority
    let inputs1 := H.KeyInfoKeyIdToMsgArg certificateAuthority
    let s2 := MsgArg.Set_ay K.GUID128_SIZE adminGroupId.bytes
    if s2.1 ≠ ER_OK then
      { status := s2.1, certificateAuthority := certificateAuthority,
        adminGroup := adminGroup, trace := trace }
    else
    let inputs2 := s2.2
    let genGroup : Bool := adminGroup.GetKeyIdLen = 0
    let trace := if genGroup then trace ++ [ClaimEvent.generateKeyId .adminGroup] else trace
    let adminGroup := if genGroup then H.GenerateKeyId adminGroup else adminGroup
    let inputs3 := H.KeyInfoNISTP256PubKeyToMsgArg adminGroup
    let inputs4 := H.KeyInfoKeyIdToMsgArg adminGroup
    let s5 :=
      if identityCertChainSize = 0 then
        MsgArg.Set_array "(yay)" 0 none
      else
        let identityArgs := chain.map fun c =>
          (MsgArg.Set_yay K.ENCODING_X509_DER c.GetEncodedLen c.encoded).2
        MsgArg.Set_array "(yay)" identityCertChainSize (some identityArgs)
    if s5.1 ≠ ER_OK then
      { status := s5.1, certificateAuthority := certificateAuthority,
        adminGroup := adminGroup, trace := trace }
    else
    let inputs5 := s5.2
    let s6 :=
      if manifestSize = 0 then
        MsgArg.Set_array "(ssa(syy))" 0 none
      else
        P.GenerateRules rules
    if s6.1 ≠ ER_OK then
      { status := s6.1, certificateAuthority := certificateAuthority,
        adminGroup := adminGroup, trace := trace }
    else
    let inputs6 := s6.2
    let inputs := [inputs0, inputs1, inputs2, inputs3, inputs4, inputs5, inputs6]
    let r := bus.MethodCall bus.InterfaceName "Claim" inputs
    let status := r.1
    let reply := r.2
    let status :=
      if status = ER_BUS_REPLY_IS_ERROR_MESSAGE then
        if IsPermissionDeniedError reply then ER_PERMISSION_DENIED else status
      else status
    { status := status, certificateAuthority := certificateAuthority,
      adminGroup := adminGroup,
      trace := trace ++ [ClaimEvent.methodCall bus.InterfaceName "Claim" inputs] }
  | _, _ =>
    { status := ER_INVALID_DATA, certificateAuthority := certificateAuthority,
      adminGroup := adminGroup, trace := [] }

/-- The status the spec asks of every binding: the single permission-denied
condition when the call returned an error reply that denotes permission denied,
and the raw status of the call otherwise. -/
def specNormalizedStatus (callStatus : QStatus) (reply : Message) : QStatus :=
  if callStatus = ER_BUS_REPLY_IS_ERROR_MESSAGE ∧ IsPermissionDeniedError reply = true then
    ER_PERMISSION_DENIED
  else
    callStatus

/-- A `GetPublicKey` reply payload that parses structurally: the nested
tagged shape `(yv)` / `(ayyyv)` / `(yyv)` / `(ayay)` with the given tags and
coordinates. -/
def publicKeyPayload (keyFormat : Nat) (kid : List Nat) (keyUsageType keyType : Nat)
    (algorithm curve : Nat) (xCoord yCoord : List Nat) : MsgArg :=
  .struct [.byte keyFormat, .variant (.struct [.byteArray kid, .byte keyUsageType,
    .byte keyType, .variant (.struct [.byte algorithm, .byte curve,
      .variant (.struct [.byteArray xCoord, .byteArray yCoord])])])]

/-- A bus whose every method call returns the given status and reply. -/
def constantBus (status : QStatus) (reply : Message) : ProxyBusObject where
  InterfaceName := "org.allseen.Security.PermissionMgmt"
  MethodCall := fun _ _ _ => (status, reply)

/-- An error reply with the given error name, whose only argument is its
description string. -/
def errorReply (name : String) (description : String) : Message where
  errorName := some name
  errorMsg := description
  args := [.string description]

/-- The method calls among the events of `Claim`, as (method name, arguments). -/
def methodCalls : List ClaimEvent → List (String × List MsgArg)
  | [] => []
  | .methodCall _ method args :: rest => (method, args) :: methodCalls rest
  | .generateKeyId _ :: rest => methodCalls rest

/-- The key-id generations among the events of `Claim`. -/
def keyIdGenerations : List ClaimEvent → List ClaimKeyArg
  | [] => []
  | .methodCall _ _ _ :: rest => keyIdGenerations rest
  | .generateKeyId arg :: rest => arg :: keyIdGenerations rest

/-- Test decoders: the DER decoder stores the bytes and succeeds, the PEM
decoder stores the bytes and fails. -/
def sampleCertificateOps : CertificateOps where
  DecodeCertificateDER := fun bytes _ => (ER_OK, { encoded := bytes })
  DecodeCertificatePEM := fun bytes _ => (ER_FAIL, { encoded := bytes })

/-- A test key-info helper: the generated key id is the X coordinate, and the
two wire arguments are the coordinates and the key id. -/
def sampleKeyInfoHelper : KeyInfoHelper where
  GenerateKeyId := fun k => { k with keyId := k.publicKey.x }
  KeyInfoNISTP256PubKeyToMsgArg := fun k =>
    .struct [.byteArray k.publicKey.x, .byteArray k.publicKey.y]
  KeyInfoKeyIdToMsgArg := fun k => .byteArray k.keyId

/-- A test rule codec: a rule is sent as its two strings, nothing is parsed. -/
def samplePermissionPolicyOps : PermissionPolicyOps where
  GenerateRules := fun rules =>
    (ER_OK, .array "(ssa(syy))"
      (rules.map fun r => .struct [.string r.objPath, .string r.interfaceName]))
  ParseRules := fun _ => (ER_FAIL, none)

/-- A test rule codec whose rule generation fails. -/
def failingPermissionPolicyOps : PermissionPolicyOps where
  GenerateRules := fun _ => (ER_FAIL, .invalid)
  ParseRules := fun _ => (ER_FAIL, none)

/-- The key info the spec has `Claim` send: the caller's key info, with the
key-id populated if missing. -/
def specKeyInfoAsSent (H : KeyInfoHelper) (k : qcc.KeyInfoNISTP256) : qcc.KeyInfoNISTP256 :=
  if k.GetKeyIdLen = 0 then H.GenerateKeyId k else k

/-- The request shape the spec gives for `Claim`: CA key, CA key-id, group id,
group key, group key-id, identity certificate chain (each certificate tagged as
DER, in the caller's order), manifest rules (a zero-length array when empty). -/
def specClaimArguments (K : qcc.Constants) (H : KeyInfoHelper) (P : PermissionPolicyOps)
    (caAsSent : qcc.KeyInfoNISTP256) (adminGroupId : qcc.GUID128)
    (groupAsSent : qcc.KeyInfoNISTP256) (chain : List qcc.IdentityCertificate)
    (rules : List Rule) : List MsgArg :=
  [H.KeyInfoNISTP256PubKeyToMsgArg caAsSent,
   H.KeyInfoKeyIdToMsgArg caAsSent,
   .byteArray (adminGroupId.bytes.take K.GUID128_SIZE),
   H.KeyInfoNISTP256PubKeyToMsgArg groupAsSent,
   H.KeyInfoKeyIdToMsgArg groupAsSent,
   .array "(yay)" (chain.map fun c => .struct [.byte K.ENCODING_X509_DER, .byteArray c.encoded]),
   if rules = [] then .array "(ssa(syy))" [] else (P.GenerateRules rules).2]

end PermissionMgmtProxy

end ajn

/-! ## The lock checker -/

namespace qcc

/-- `LockCheckerLevel`: the level tag of a lock, an enumeration value. -/
abbrev LockCheckerLevel := Int

/-- Constants of headers that are not among the sources (`qcc/LockLevel.h`,
`qcc/LockCheckerLevel.h`, `qcc/LockChecker.h`): the two special levels and the
option flags, taken as parameters of the embedded functions. -/
structure LockCheckerConstants where
  LOCK_LEVEL_NOT_SPECIFIED : LockCheckerLevel
  LOCK_LEVEL_CHECKING_DISABLED : LockCheckerLevel
  LOCKCHECKER_OPTION_LOCK_ORDERING_ASSERT : Nat
  LOCKCHECKER_OPTION_MISSING_LEVEL_ASSERT : Nat
  LOCKCHECKER_OPTION_RECURSIVE_ACQUIRE_ASSERT : Nat
  LOCKCHECKER_OPTION_RECURSIVE_ACQUIRE_LOGERROR : Nat

/-- A concrete choice of the constants, on which the definitions are
evaluated. -/
def sampleLockCheckerConstants : LockCheckerConstants where
  LOCK_LEVEL_NOT_SPECIFIED := -1
  LOCK_LEVEL_CHECKING_DISABLED := -2
  LOCKCHECKER_OPTION_LOCK_ORDERING_ASSERT := 1
  LOCKCHECKER_OPTION_MISSING_LEVEL_ASSERT := 2
  LOCKCHECKER_OPTION_RECURSIVE_ACQUIRE_ASSERT := 4
  LOCKCHECKER_OPTION_RECURSIVE_ACQUIRE_LOGERROR := 8

/-- A `Mutex` as the checker sees it: its address and the fields of
`lock->internal` that the checker reads and writes. -/
structure Mutex where
  address : Nat
  m_level : LockCheckerLevel
  m_maximumRecursionCount : Nat
  deriving DecidableEq, Repr

namespace LockChecker

/-- `LockChecker::LockTrace` (LockChecker.cc:50); `m_lock` is the address of the
lock, `none` for `nullptr`. -/
structure LockTrace where
  m_lock : Option Nat
  m_level : LockCheckerLevel
  m_recursionCount : Nat
  deriving DecidableEq, Repr

/-- The `assert` sites of LockChecker.cc. -/
inductive Assertion where
  | levelCheckingDisabled
  | missingLevel
  | outOfOrder
  | levelMismatch
  | recursionCountZero
  | recursiveAcquire
  | depthOverMaximum
  | lockNotOwned
  deriving DecidableEq, Repr

/-- How a checker call can end other than by returning: a failed `assert`, or
an access outside the allocated lock stack (at the given index). -/
inductive Fault where
  | assertion (a : Assertion)
  | outOfBounds (index : Nat)
  deriving DecidableEq, Repr

end LockChecker

/-- The per-thread state of `LockChecker`: the depth in use, the allocated
capacity and the lock stack. -/
structure LockChecker where
  m_currentDepth : Nat
  m_maximumDepth : Nat
  m_lockStack : List LockChecker.LockTrace
  deriving DecidableEq, Repr

namespace LockChecker

/-- `LockChecker::enabledOptions` as initialised (LockChecker.cc:47). -/
def enabledOptions (K : LockCheckerConstants) : Nat :=
  K.LOCKCHECKER_OPTION_LOCK_ORDERING_ASSERT ||| K.LOCKCHECKER_OPTION_MISSING_LEVEL_ASSERT

/-- The first loop of `AcquiringLock` (LockChecker.cc:109-119), with the number
of iterations left and the current `recentEntry`; it yields `foundRecentEntry`
and `recentEntry`.  The decrement of the `uint32_t` wraps. -/
def findRecentEntry (K : LockCheckerConstants) (m_lockStack : List LockTrace) :
    (iterations : Nat) → (recentEntry : Nat) → Except Fault (Bool × Nat)
  | 0, recentEntry => .ok (false, recentEntry)
  | n + 1, recentEntry =>
    match m_lockStack[recentEntry]? with
    | none => .error (.outOfBounds recentEntry)
    | some trace =>
      let previousLevel := trace.m_level
      if previousLevel = K.LOCK_LEVEL_CHECKING_DISABLED then
        .error (.assertion .levelCheckingDisabled)
      else if previousLevel ≠ K.LOCK_LEVEL_NOT_SPECIFIED then
        .ok (true, recentEntry)
      else
        findRecentEntry K m_lockStack n ((recentEntry + 4294967296 - 1) % 4294967296)

/-- The second loop of `AcquiringLock` (LockChecker.cc:154-161), with the number
of iterations left and the current `stackEntry`; it yields `previouslyLocked`. -/
def previouslyLockedBelow (K : LockCheckerConstants) (m_lockStack : List LockTrace)
    (lock : Mutex) : (iterations : Nat) → (stackEntry : Nat) → Except Fault Bool
  | 0, _ => .ok false
  | n + 1, stackEntry =>
    match m_lockStack[stackEntry]? with
    | none => .error (.outOfBounds stackEntry)
    | some trace =>
      if trace.m_level = K.LOCK_LEVEL_CHECKING_DISABLED then
        .error (.assertion .levelCheckingDisabled)
      else if trace.m_lock = some lock.address then
        .ok true
      else
        previouslyLockedBelow K m_lockStack lock n (stackEntry + 1)

/-- `LockChecker::AcquiringLock` (LockChecker.cc:103), under the given value of
`enabledOptions`: `none` when it returns, the fault otherwise.  It changes
nothing in the checker. -/
def AcquiringLock (K : LockCheckerConstants) (options : Nat) (self : LockChecker)
    (lock : Mutex) : Option Fault :=
  match findRecentEntry K self.m_lockStack self.m_currentDepth
      ((self.m_currentDepth + 4294967296 - 1) % 4294967296) with
  | .error fault => some fault
  | .ok (false, _) => none
  | .ok (true, recentEntry) =>
    match self.m_lockStack[recentEntry]? with
    | none => some (.outOfBounds recentEntry)
    | some previousTrace =>
      let previousLevel := previousTrace.m_level
      let lockLevel := lock.m_level
      if lockLevel = K.LOCK_LEVEL_CHECKING_DISABLED then
        some (.assertion .levelCheckingDisabled)
      else if lockLevel = K.LOCK_LEVEL_NOT_SPECIFIED then
        if options &&& K.LOCKCHECKER_OPTION_MISSING_LEVEL_ASSERT ≠ 0 then
          some (.assertion .missingLevel)
        else
          none
      else if lockLevel ≥ previousLevel then
        none
      else
        match previouslyLockedBelow K self.m_lockStack lock recentEntry 0 with
        | .error fault => some fault
        | .ok previouslyLocked =>
          if !previouslyLocked ∧ options &&& K.LOCKCHECKER_OPTION_LOCK_ORDERING_ASSERT ≠ 0 then
            some (.assertion .outOfOrder)
          else
            none

/-- The entries in use, bottom first: the locks the thread holds, in the order
it first acquired them. -/
def heldLocks (self : LockChecker) : List LockTrace :=
  self.m_lockStack.take self.m_currentDepth

/-- The spec's "most recently acquired level-specified lock": the topmost held
entry whose level is specified. -/
def specMostRecentSpecified (K : LockCheckerConstants) (self : LockChecker) :
    Option LockTrace :=
  (heldLocks self).reverse.find? fun trace => trace.m_level ≠ K.LOCK_LEVEL_NOT_SPECIFIED

end LockChecker

end qcc

namespace qcc.LockChecker

/-- `LockChecker::defaultMaximumStackDepth` (LockChecker.cc:39). -/
def defaultMaximumStackDepth : Nat := 4

/-- The default-constructed `LockTrace` (LockChecker.cc:53). -/
def LockTrace.default (K : LockCheckerConstants) : LockTrace :=
  ⟨none, K.LOCK_LEVEL_NOT_SPECIFIED, 0⟩

/-- `LockChecker::LockChecker` (LockChecker.cc:86): the empty stack of a new
checker. -/
def construct (K : LockCheckerConstants) : LockChecker where
  m_currentDepth := 0
  m_maximumDepth := defaultMaximumStackDepth
  m_lockStack := List.replicate defaultMaximumStackDepth (LockTrace.default K)

/-- What `LockAcquired` leaves behind: the checker, the lock (whose
`m_maximumRecursionCount` it may raise), the fault if it does not return, and
the recursion counts reported through `QCC_LogError`. -/
structure LockAcquiredResult where
  checker : LockChecker
  lock : Mutex
  fault : Option Fault
  logged : List Nat
  deriving DecidableEq, Repr

/-- The search loop of `LockAcquired` (LockChecker.cc:185-216), with the number
of iterations left and the current `stackEntry`; `none` when the loop ends with
`previouslyLocked = false`. -/
def acquiredLoop (K : LockCheckerConstants) (options : Nat) (self : LockChecker)
    (lock : Mutex) : (iterations : Nat) → (stackEntry : Nat) → Option LockAcquiredResult
  | 0, _ => none
  | n + 1, stackEntry =>
    match self.m_lockStack[stackEntry]? with
    | none => some ⟨self, lock, some (.outOfBounds stackEntry), []⟩
    | some trace =>
      if trace.m_level = K.LOCK_LEVEL_CHECKING_DISABLED then
        some ⟨self, lock, some (.assertion .levelCheckingDisabled), []⟩
      else if trace.m_lock = some lock.address then
        if trace.m_level ≠ lock.m_level then
          some ⟨self, lock, some (.assertion .levelMismatch), []⟩
        else if ¬ trace.m_recursionCount > 0 then
          some ⟨self, lock, some (.assertion .recursionCountZero), []⟩
        else
          let newRecursionCount := (trace.m_recursionCount + 1) % 4294967296
          let checker : LockChecker :=
            { self with
              m_lockStack := self.m_lockStack.set stackEntry
                { trace with m_recursionCount := newRecursionCount } }
          if newRecursionCount > lock.m_maximumRecursionCount then
            let lock : Mutex := { lock with m_maximumRecursionCount := newRecursionCount }
            if options &&& K.LOCKCHECKER_OPTION_RECURSIVE_ACQUIRE_LOGERROR ≠ 0 then
              if options &&& K.LOCKCHECKER_OPTION_RECURSIVE_ACQUIRE_ASSERT ≠ 0 then
                some ⟨checker, lock, some (.assertion .recursiveAcquire), [newRecursionCount]⟩
              else
                some ⟨checker, lock, none, [newRecursionCount]⟩
            else
              some ⟨checker, lock, none, []⟩
          else
            some ⟨checker, lock, none, []⟩
      else
        acquiredLoop K options self lock n (stackEntry + 1)

/-- The copy loop of the stack growth (LockChecker.cc:232-234), with the number
of iterations left, the current `stackEntry` and the new stack. -/
def copyStack (m_lockStack : List LockTrace) :
    (iterations : Nat) → (stackEntry : Nat) → (newStack : List LockTrace) →
      Except Fault (List LockTrace)
  | 0, _, newStack => .ok newStack
  | n + 1, stackEntry, newStack =>
    match m_lockStack[stackEntry]? with
    | none => .error (.outOfBounds stackEntry)
    | some trace =>
      if stackEntry < newStack.length then
        copyStack m_lockStack n (stackEntry + 1) (newStack.set stackEntry trace)
      else
        .error (.outOfBounds stackEntry)

/-- The tail of `LockAcquired` (LockChecker.cc:223-244): add the lock to the
stack, growing the stack by one entry when it is full. -/
def pushLock (K : LockCheckerConstants) (self : LockChecker) (lock : Mutex) :
    LockAcquiredResult :=
  if ¬ self.m_currentDepth ≤ self.m_maximumDepth then
    ⟨self, lock, some (.assertion .depthOverMaximum), []⟩
  else
    let grown : Except Fault LockChecker :=
      if self.m_currentDepth = self.m_maximumDepth then
        let newDepth := (self.m_maximumDepth + 1) % 4294967296
        let newStack := List.replicate newDepth (LockTrace.default K)
        match copyStack self.m_lockStack self.m_maximumDepth 0 newStack with
        | .error fault => .error fault
        | .ok newStack => .ok { self with m_lockStack := newStack, m_maximumDepth := newDepth }
      else
        .ok self
    match grown with
    | .error fault => ⟨self, lock, some fault, []⟩
    | .ok self =>
      if self.m_currentDepth < self.m_lockStack.length then
        ⟨{ self with
            m_lockStack := self.m_lockStack.set self.m_currentDepth
              ⟨some lock.address, lock.m_level, 1⟩
            m_currentDepth := (self.m_currentDepth + 1) % 4294967296 },
          lock, none, []⟩
      else
        ⟨self, lock, some (.outOfBounds self.m_currentDepth), []⟩

/-- `LockChecker::LockAcquired` (LockChecker.cc:178), under the given value of
`enabledOptions`. -/
def LockAcquired (K : LockCheckerConstants) (options : Nat) (self : LockChecker)
    (lock : Mutex) : LockAcquiredResult :=
  let lockLevel := lock.m_level
  if lockLevel = K.LOCK_LEVEL_CHECKING_DISABLED then
    ⟨self, lock, some (.assertion .levelCheckingDisabled), []⟩
  else
    match acquiredLoop K options self lock self.m_currentDepth 0 with
    | some result => result
    | none => pushLock K self lock

/-- The removal loop of `ReleasingLock` (LockChecker.cc:268-270), with the
number of iterations left, the current `stackEntry2` and the stack. -/
def shiftDown : (iterations : Nat) → (stackEntry2 : Nat) → (m_lockStack : List LockTrace) →
    Except Fault (List LockTrace)
  | 0, _, m_lockStack => .ok m_lockStack
  | n + 1, stackEntry2, m_lockStack =>
    match m_lockStack[stackEntry2 + 1]? with
    | none => .error (.outOfBounds (stackEntry2 + 1))
    | some trace => shiftDown n (stackEntry2 + 1) (m_lockStack.set stackEntry2 trace)

/-- The search loop of `ReleasingLock` (LockChecker.cc:259-277), with the number
of iterations left and the current `stackEntry1`; `none` when the loop ends with
`previouslyLocked = false`, the updated checker otherwise. -/
def releasingLoop (K : LockCheckerConstants) (self : LockChecker) (lock : Mutex) :
    (iterations : Nat) → (stackEntry1 : Nat) → Except Fault (Option LockChecker)
  | 0, _ => .ok none
  | n + 1, stackEntry1 =>
    match self.m_lockStack[stackEntry1]? with
    | none => .error (.outOfBounds stackEntry1)
    | some trace =>
      if trace.m_level = K.LOCK_LEVEL_CHECKING_DISABLED then
        .error (.assertion .levelCheckingDisabled)
      else if trace.m_lock = some lock.address then
        if ¬ trace.m_recursionCount > 0 then
          .error (.assertion .recursionCountZero)
        else
          let m_recursionCount := trace.m_recursionCount - 1
          let m_lockStack := self.m_lockStack.set stackEntry1
            { trace with m_recursionCount := m_recursionCount }
          if m_recursionCount = 0 then
            let last := (self.m_currentDepth + 4294967296 - 1) % 4294967296
            match shiftDown (last - stackEntry1) stackEntry1 m_lockStack with
            | .error fault => .error fault
            | .ok m_lockStack =>
              .ok (some { self with m_lockStack := m_lockStack, m_currentDepth := last })
          else
            .ok (some { self with m_lockStack := m_lockStack })
      else
        releasingLoop K self lock n (stackEntry1 + 1)

/-- `LockChecker::ReleasingLock` (LockChecker.cc:252): the checker after the
call, and the fault if it does not return (the checker is then as it was). -/
def ReleasingLock (K : LockCheckerConstants) (self : LockChecker) (lock : Mutex) :
    LockChecker × Option Fault :=
  let lockLevel := lock.m_level
  if lockLevel = K.LOCK_LEVEL_CHECKING_DISABLED then
    (self, some (.assertion .levelCheckingDisabled))
  else
    match releasingLoop K self lock self.m_currentDepth 0 with
    | .error fault => (self, some fault)
    | .ok none => (self, some (.assertion .lockNotOwned))
    | .ok (some released) => (released, none)

end qcc.LockChecker

/-! ## The protected listener dispatch -/

namespace ajn

open QStatus

/-- `ASYNC_AUTH_TIMEOUT` (ProtectedAuthListener.cc:52), a `uint32_t` number of
milliseconds. -/
def ASYNC_AUTH_TIMEOUT : Nat := (120 * 1000) % 4294967296

/-- `AuthListener::Credentials` (alljoyn/AuthListener.h is not among the
sources), as far as the samples set it. -/
structure Credentials where
  password : Option String
  userName : Option String
  certChain : Option String
  privateKey : Option String
  logonEntry : Option String
  expiration : Option Nat
  deriving DecidableEq, Repr

/-- `AuthContext` (ProtectedAuthListener.cc:54).  `listener` is the address of
the listener; `credentials` is the caller's output slot the context points to:
`none` for `NULL`, otherwise the present content of the slot; `event` tells
whether the event has been set. -/
structure AuthContext where
  listener : Nat
  accept : Bool
  credentials : Option Credentials
  event : Bool
  deriving DecidableEq, Repr

/-- `AsyncTracker` (ProtectedAuthListener.cc:64): the registry `contexts` of
context addresses in list order, and the context objects by address. -/
structure AsyncTracker where
  contexts : List Nat
  heap : Nat → AuthContext

namespace AsyncTracker

/-- `AsyncTracker::Allocate` (ProtectedAuthListener.cc:67); `context` is the
address `new AuthContext` returned. -/
def Allocate (self : AsyncTracker) (context : Nat) (listener : Nat)
    (credentials : Option Credentials) : AsyncTracker where
  contexts := self.contexts ++ [context]
  heap := Function.update self.heap context ⟨listener, false, credentials, false⟩

/-- The loop of `AsyncTracker::Trigger` (ProtectedAuthListener.cc:80-94) over the
rest of the list: `found`, the list after the loop, and the context objects. -/
def triggerLoop (context : Nat) (accept : Bool) (credentials : Option Credentials)
    (heap : Nat → AuthContext) : List Nat → Bool × List Nat × (Nat → AuthContext)
  | [] => (false, [], heap)
  | it :: rest =>
    if it = context then
      let c := heap context
      let c := { c with accept := accept }
      let c :=
        if accept ∧ credentials.isSome ∧ c.credentials.isSome then
          { c with credentials := credentials }
        else c
      let c := { c with event := true }
      (true, rest, Function.update heap context c)
    else
      let r := triggerLoop context accept credentials heap rest
      (r.1, it :: r.2.1, r.2.2)

/-- `AsyncTracker::Trigger` (ProtectedAuthListener.cc:76): `found` and the
tracker after the call. -/
def Trigger (self : AsyncTracker) (context : Nat) (accept : Bool)
    (credentials : Option Credentials) : Bool × AsyncTracker :=
  let r := triggerLoop context accept credentials self.heap self.contexts
  (r.1, ⟨r.2.1, r.2.2⟩)

/-- `AsyncTracker::Release` (ProtectedAuthListener.cc:99); the deleted context
object stays readable in the model. -/
def Release (self : AsyncTracker) (context : Nat) : AsyncTracker :=
  (Trigger self context false none).2

/-- The loop of `AsyncTracker::RemoveAll` (ProtectedAuthListener.cc:108-120) over
the rest of the list: the list after the loop and the context objects. -/
def removeAllLoop (listener : Nat) (heap : Nat → AuthContext) :
    List Nat → List Nat × (Nat → AuthContext)
  | [] => ([], heap)
  | context :: rest =>
    if (heap context).listener = listener then
      let c := heap context
      let c := { c with accept := false }
      let c := { c with event := true }
      removeAllLoop listener (Function.update heap context c) rest
    else
      let r := removeAllLoop listener heap rest
      (context :: r.1, r.2)

/-- `AsyncTracker::RemoveAll` (ProtectedAuthListener.cc:105). -/
def RemoveAll (self : AsyncTracker) (listener : Nat) : AsyncTracker :=
  let r := removeAllLoop listener self.heap self.contexts
  ⟨r.1, r.2⟩

end AsyncTracker

namespace AuthListener

/-- `AuthListener::RequestCredentialsResponse` (ProtectedAuthListener.cc:261). -/
def RequestCredentialsResponse (tracker : AsyncTracker) (context : Nat) (accept : Bool)
    (credentials : Credentials) : QStatus × AsyncTracker :=
  let r := AsyncTracker.Trigger tracker context accept (some credentials)
  (if r.1 then ER_OK else ER_TIMEOUT, r.2)

/-- `AuthListener::VerifyCredentialsResponse` (ProtectedAuthListener.cc:269). -/
def VerifyCredentialsResponse (tracker : AsyncTracker) (context : Nat) (accept : Bool) :
    QStatus × AsyncTracker :=
  let r := AsyncTracker.Trigger tracker context accept none
  (if r.1 then ER_OK else ER_TIMEOUT, r.2)

end AuthListener

/-- The arguments of a credentials request that the dispatch only passes on. -/
structure CredentialsRequest where
  authMechanism : String
  peerName : String
  authCount : Nat
  userName : String
  credMask : Nat
  deriving DecidableEq, Repr

/-- The surroundings of the dispatch: the virtual methods of the user-supplied
`AuthListener` at a given address (the asynchronous ones may complete the
request at once, so they yield the tracker they leave), `Event::Wait` on the
event of a context with a timeout in milliseconds (its status, and the tracker
as the other threads left it when the wait ended), and the address that
`new AuthContext` returns. -/
structure AuthListenerOps where
  RequestCredentialsAsync : (listener : Nat) → CredentialsRequest → (context : Nat) →
    AsyncTracker → QStatus × AsyncTracker
  RequestCredentials : (listener : Nat) → CredentialsRequest → Credentials → Bool × Credentials
  VerifyCredentialsAsync : (listener : Nat) → (authMechanism peerName : String) →
    Credentials → (context : Nat) → AsyncTracker → QStatus × AsyncTracker
  VerifyCredentials : (listener : Nat) → (authMechanism peerName : String) → Credentials → Bool
  Wait : (context : Nat) → (timeout : Nat) → AsyncTracker → QStatus × AsyncTracker
  newAuthContext : AsyncTracker → Nat

/-- `ProtectedAuthListener`: the active listener (`none` for `NULL`) and the
reference count. -/
structure ProtectedAuthListener where
  listener : Option Nat
  refCount : Nat
  deriving DecidableEq, Repr

namespace ProtectedAuthListener

/-- The first lock region of every dispatched call
(ProtectedAuthListener.cc:177-180, 205-208, 232-235, 246-249), as far as the
dispatcher goes: `++refCount` (the listener is read under the same lock). -/
def lockedIncrement (self : ProtectedAuthListener) : ProtectedAuthListener :=
  { self with refCount := self.refCount + 1 }

/-- The last lock region of every dispatched call
(ProtectedAuthListener.cc:196-198, 224-226, 239-241, 253-255): `--refCount`. -/
def lockedDecrement (self : ProtectedAuthListener) : ProtectedAuthListener :=
  { self with refCount := self.refCount - 1 }

/-- What a dispatched request does besides returning, in order. -/
inductive DispatchEvent where
  | asyncCall (listener : Nat) (context : Nat)
  | syncCall (listener : Nat)
  | wait (context : Nat) (timeout : Nat)
  deriving DecidableEq, Repr

/-- The state after a dispatched request: the returned `ok`, the caller's
credentials, the dispatcher, the tracker, the context allocated for the call
(if any) and the events in order. -/
structure RequestResult where
  ok : Bool
  credentials : Credentials
  self : ProtectedAuthListener
  tracker : AsyncTracker
  context : Option Nat
  events : List DispatchEvent

/-- `ProtectedAuthListener::RequestCredentials` (ProtectedAuthListener.cc:174). -/
def RequestCredentials (L : AuthListenerOps) (self : ProtectedAuthListener)
    (tracker : AsyncTracker) (request : CredentialsRequest) (credentials : Credentials) :
    RequestResult :=
  let authListener := self.listener
  let self := lockedIncrement self
  match authListener with
  | none =>
    { ok := false, credentials := credentials,
      self := lockedDecrement self,
      tracker := tracker, context := none, events := [] }
  | some authListener =>
    let context := L.newAuthContext tracker
    let tracker := AsyncTracker.Allocate tracker context authListener (some credentials)
    let a := L.RequestCredentialsAsync authListener request context tracker
    let status := a.1
    let tracker := a.2
    let events := [DispatchEvent.asyncCall authListener context]
    let r : Bool × AsyncTracker × List DispatchEvent :=
      if status ≠ ER_OK then
        if status = ER_NOT_IMPLEMENTED then
          let slot := ((tracker.heap context).credentials).getD credentials
          let sync := L.RequestCredentials authListener request slot
          let c := tracker.heap context
          (sync.1,
            { tracker with
              heap := Function.update tracker.heap context { c with credentials := some sync.2 } },
            events ++ [DispatchEvent.syncCall authListener])
        else
          (false, tracker, events)
      else
        let w := L.Wait context ASYNC_AUTH_TIMEOUT tracker
        (w.1 == ER_OK && (w.2.heap context).accept, w.2,
          events ++ [DispatchEvent.wait context ASYNC_AUTH_TIMEOUT])
    let tracker := AsyncTracker.Release r.2.1 context
    { ok := r.1, credentials := ((tracker.heap context).credentials).getD credentials,
      self := lockedDecrement self,
      tracker := tracker, context := some context, events := r.2.2 }

/-- `ProtectedAuthListener::VerifyCredentials` (ProtectedAuthListener.cc:202). -/
def VerifyCredentials (L : AuthListenerOps) (self : ProtectedAuthListener)
    (tracker : AsyncTracker) (authMechanism peerName : String) (credentials : Credentials) :
    RequestResult :=
  let authListener := self.listener
  let self := lockedIncrement self
  match authListener with
  | none =>
    { ok := false, credentials := credentials,
      self := lockedDecrement self,
      tracker := tracker, context := none, events := [] }
  | some authListener =>
    let context := L.newAuthContext tracker
    let tracker := AsyncTracker.Allocate tracker context authListener none
    let a := L.VerifyCredentialsAsync authListener authMechanism peerName credentials context
      tracker
    let status := a.1
    let tracker := a.2
    let events := [DispatchEvent.asyncCall authListener context]
    let r : Bool × AsyncTracker × List DispatchEvent :=
      if status ≠ ER_OK then
        if status = ER_NOT_IMPLEMENTED then
          (L.VerifyCredentials authListener authMechanism peerName credentials, tracker,
            events ++ [DispatchEvent.syncCall authListener])
        else
          (false, tracker, events)
      else
        let w := L.Wait context ASYNC_AUTH_TIMEOUT tracker
        (w.1 == ER_OK && (w.2.heap context).accept, w.2,
          events ++ [DispatchEvent.wait context ASYNC_AUTH_TIMEOUT])
    let tracker := AsyncTracker.Release r.2.1 context
    { ok := r.1, credentials := credentials,
      self := lockedDecrement self,
      tracker := tracker, context := some context, events := r.2.2 }

end ProtectedAuthListener

end ajn

namespace ajn

open QStatus

/-- A sample listener: its asynchronous credentials request is accepted by
another thread during the wait, its asynchronous verification is not
implemented and its synchronous verification accepts. -/
def sampleAuthListenerOps : AuthListenerOps where
  RequestCredentialsAsync := fun _ _ _ tracker => (ER_OK, tracker)
  RequestCredentials := fun _ _ c => (true, c)
  VerifyCredentialsAsync := fun _ _ _ _ _ tracker => (ER_NOT_IMPLEMENTED, tracker)
  VerifyCredentials := fun _ _ _ _ => true
  Wait := fun context _ tracker => (ER_OK, (AsyncTracker.Trigger tracker context true none).2)
  newAuthContext := fun tracker => tracker.contexts.foldl max 0 + 1

/-- A tracker with nothing registered. -/
def emptyTracker : AsyncTracker := ⟨[], fun _ => ⟨0, false, none, false⟩⟩

/-- Credentials with nothing set. -/
def emptyCredentials : Credentials := ⟨none, none, none, none, none, none⟩

namespace ProtectedAuthListener

/-- The shared state `Set` works on: the dispatcher and the tracker. -/
structure DispatchState where
  self : ProtectedAuthListener
  tracker : AsyncTracker

/-- Where the thread that runs `Set` stands (ProtectedAuthListener.cc:145):
before the first statement; after the listener has been cleared, `goner`
holding the previous one; at the test of the polling loop; after the
assignment. -/
inductive SetPc where
  | start
  | cleared (goner : Option Nat)
  | polling
  | done
  deriving DecidableEq, Repr

/-- The steps `Set` takes, with the reference count it read where it reads
one. -/
inductive SetEvent where
  | clear (goner : Option Nat)
  | removeAll (goner : Nat)
  | sleep (refCount : Nat)
  | assign (refCount : Nat) (listener : Option Nat)
  deriving DecidableEq, Repr

/-- One step of `ProtectedAuthListener::Set(authListener)`
(ProtectedAuthListener.cc:145-172); each step is one region that runs under a
lock: clearing the listener (151-152), `RemoveAll` (156-158), and one test of
`while (refCount)` followed either by the sleep with the lock released
(163-165) or, with the lock still held, by the assignment (170). -/
def SetStep (authListener : Option Nat) : SetPc → DispatchState →
    SetPc × DispatchState × List SetEvent
  | .start, s =>
    (.cleared s.self.listener, { s with self := { s.self with listener := none } },
      [.clear s.self.listener])
  | .cleared none, s => (.polling, s, [])
  | .cleared (some goner), s =>
    (.polling, { s with tracker := AsyncTracker.RemoveAll s.tracker goner },
      [.removeAll goner])
  | .polling, s =>
    if s.self.refCount ≠ 0 then
      (.polling, s, [.sleep s.self.refCount])
    else
      (.done, { s with self := { s.self with listener := authListener } },
        [.assign s.self.refCount authListener])
  | .done, s => (.done, s, [])

/-- The first `n` steps of `Set(authListener)` from the state `s`, the other
threads acting before each step: `others k` is what they do to the shared state
before step `k`.  It yields where `Set` stands, the shared state and the steps
taken. -/
def SetRun (authListener : Option Nat) (others : Nat → DispatchState → DispatchState) :
    Nat → DispatchState → SetPc × DispatchState × List SetEvent
  | 0, s => (.start, s, [])
  | n + 1, s =>
    let r := SetRun authListener others n s
    let step := SetStep authListener r.1 (others n r.2.1)
    (step.1, step.2.1, r.2.2 ++ step.2.2)

/-- The `RemoveAll` step `Set` takes for the previous listener `goner`. -/
def removeAllEvents : Option Nat → List SetEvent
  | none => []
  | some goner => [.removeAll goner]

end ProtectedAuthListener

end ajn

/-! ## The application state machine and the claiming protocol -/

namespace ajn

open QStatus

namespace PermissionConfigurator

/-- `PermissionConfigurator::ApplicationState` (PermissionConfigurator.h:45). -/
inductive ApplicationState where
  | NOT_CLAIMABLE
  | CLAIMABLE
  | CLAIMED
  | NEED_UPDATE
  deriving DecidableEq, Repr

/-- Modelled from the spec: `PermissionConfigurator::SetApplicationState`, of
which the sources hold the declaration only (PermissionConfigurator.h:138-147:
"The state can't be changed from CLAIMED to CLAIMABLE"; `ER_OK` if the action is
allowed, `ER_INVALID_APPLICATION_STATE` if the state can't be changed).  By the
spec, once CLAIMED the state can never directly revert to CLAIMABLE (only
NEED_UPDATE or stay CLAIMED), and NEED_UPDATE can only return to CLAIMED, never
to CLAIMABLE; every other change is allowed.  It yields the status and the
state after the call. -/
def SetApplicationState (current newState : ApplicationState) :
    QStatus × ApplicationState :=
  match current, newState with
  | .CLAIMED, .CLAIMED => (ER_OK, .CLAIMED)
  | .CLAIMED, .NEED_UPDATE => (ER_OK, .NEED_UPDATE)
  | .CLAIMED, _ => (ER_INVALID_APPLICATION_STATE, .CLAIMED)
  | .NEED_UPDATE, .CLAIMABLE => (ER_INVALID_APPLICATION_STATE, .NEED_UPDATE)
  | _, newState => (ER_OK, newState)

end PermissionConfigurator

namespace securitymgr

open PermissionConfigurator

/-- `ApplicationInfo`, as far as claiming reads it: the public key (the stable
identifier), the bus name (transient) and the claim state. -/
structure ApplicationInfo where
  publicKey : qcc.ECCPublicKey
  busName : String
  claimState : ApplicationState
  deriving DecidableEq, Repr

/-- `IdentityInfo`: a GUID and a name. -/
structure IdentityInfo where
  guid : qcc.GUID128
  name : String
  deriving DecidableEq, Repr

/-- The collaborators of `ClaimApplication` that the spec leaves outside: the
secured session to the target, the remote Claim operation and the retrieval of
the peer's manifest. -/
structure ClaimCollaborators where
  acquireSession : ApplicationInfo → QStatus
  remoteClaim : ApplicationInfo → IdentityInfo → QStatus
  getManifest : ApplicationInfo → QStatus × List Rule

/-- The spec's "already CLAIMED application": its state is CLAIMED, or the
persisted catalog of claimed applications holds its public key. -/
def alreadyClaimed (catalog : List ApplicationInfo) (app : ApplicationInfo) : Bool :=
  app.claimState = .CLAIMED || catalog.any fun a => a.publicKey = app.publicKey

/-- Modelled from the spec: `SecurityManager::ClaimApplication`, of which the
sources hold the declaration (SecurityManager.h:82-106) and a test only.  By the
spec: re-claiming an already CLAIMED application must fail without side
effects (the spec names no status; the model returns `ER_FAIL`); each of the
steps of section 4.2 aborts the whole operation with the underlying error: the
secured session, the remote Claim, the retrieval of the manifest; a rejection by
the accept callback aborts and nothing is persisted; on success the new
ApplicationInfo is persisted with state CLAIMED.  It yields the status and the
persisted catalog after the call. -/
def ClaimApplication (E : ClaimCollaborators) (catalog : List ApplicationInfo)
    (app : ApplicationInfo) (idInfo : IdentityInfo) (amcb : List Rule → Bool) :
    QStatus × List ApplicationInfo :=
  if alreadyClaimed catalog app then (ER_FAIL, catalog)
  else if E.acquireSession app ≠ ER_OK then (E.acquireSession app, catalog)
  else if E.remoteClaim app idInfo ≠ ER_OK then (E.remoteClaim app idInfo, catalog)
  else if (E.getManifest app).1 ≠ ER_OK then ((E.getManifest app).1, catalog)
  else if ¬ amcb (E.getManifest app).2 then (ER_FAIL, catalog)
  else (ER_OK, catalog ++ [⟨app.publicKey, app.busName, .CLAIMED⟩])

/-- Collaborators that all succeed, the peer declaring an empty manifest. -/
def sampleClaimCollaborators : ClaimCollaborators where
  acquireSession := fun _ => ER_OK
  remoteClaim := fun _ _ => ER_OK
  getManifest := fun _ => (ER_OK, [])

end securitymgr

end ajn

/-! ## The door sample and the condition variable -/

/-- The C library's `strcmp`: zero exactly when the strings are equal. -/
def strcmp (a b : String) : Int :=
  if a = b then 0 else if a < b then -1 else 1

namespace sample.securitymgr.door

/-- The mechanism names of `door_common.h` (not among the sources), taken as
parameters. -/
structure MechanismNames where
  KEYX_ECDHE_NULL : String
  KEYX_ECDHE_DSA : String

/-- A concrete choice of the mechanism names, on which the definitions are
evaluated. -/
def sampleMechanismNames : MechanismNames where
  KEYX_ECDHE_NULL := "ALLJOYN_ECDHE_NULL"
  KEYX_ECDHE_DSA := "ALLJOYN_ECDHE_ECDSA"

namespace DoorAuthListener

/-- `DoorAuthListener::RequestCredentials` (door_common.cc:32): the returned
value and the caller's credentials after the call.  A C condition holds when
its value is not zero. -/
def RequestCredentials (N : MechanismNames) (authMechanism : String)
    (creds : ajn.Credentials) : Bool × ajn.Credentials :=
  if strcmp authMechanism N.KEYX_ECDHE_NULL = 0 ∨ strcmp authMechanism N.KEYX_ECDHE_DSA ≠ 0 then
    (true, { creds with expiration := some 100 })
  else
    (false, creds)

end DoorAuthListener

end sample.securitymgr.door

namespace qcc

/-- The value a signed integer type of `bits` bits holds for the arithmetic
result `x`: the result reduced modulo `2^bits` into the range
`-2^(bits-1) .. 2^(bits-1) - 1` of the type (two's complement). -/
def wrapSigned (bits : Nat) (x : Int) : Int :=
  (x + ((2 ^ (bits - 1) : Nat) : Int)) % ((2 ^ bits : Nat) : Int) - ((2 ^ (bits - 1) : Nat) : Int)

/-- The widths in bits of the two signed integer types of `struct timespec`
(`time.h` is not among the sources): `time_t` and `long`. -/
structure TimeTypes where
  TIME_T_BITS : Nat
  LONG_BITS : Nat
  deriving DecidableEq, Repr

/-- The widths on 64-bit Linux, on which the definitions are evaluated. -/
def linux64TimeTypes : TimeTypes where
  TIME_T_BITS := 64
  LONG_BITS := 64

/-- The C `struct timespec`: `tv_sec` is a `time_t` and `tv_nsec` a `long`,
both signed integers of the widths given by `TimeTypes`. -/
structure timespec where
  tv_sec : Int
  tv_nsec : Int
  deriving DecidableEq, Repr

namespace Condition

/-- What `TimedWait` does: the returned status, the `tsTimeout` it passes to
`pthread_cond_timedwait`, and the value of `tsTimeout.tv_nsec` right after
`tsTimeout.tv_nsec += tsNow.tv_nsec`. -/
structure TimedWaitResult where
  status : QStatus
  tsTimeout : timespec
  nsecSum : Int
  deriving DecidableEq, Repr

/-- `Condition::TimedWait` (posix/Condition.cc:82).  `ETIMEDOUT` is the constant
of `errno.h`, `tsNow` what `clock_gettime` stores, `pthread_cond_timedwait` the
return code of the wait for a deadline, `ms` a `uint32_t`; the integer division
and remainder of C truncate, the product `(ms % 1000) * 1000000` is computed in
`uint32_t`, and every value stored in `tv_sec` or `tv_nsec` is reduced to the
width of its type.  The calls into the lock checker around the wait are left
out. -/
def TimedWait (T : TimeTypes) (ETIMEDOUT : Int) (tsNow : timespec)
    (pthread_cond_timedwait : timespec → Int) (ms : Nat) : TimedWaitResult :=
  let tv_sec : Int := wrapSigned T.TIME_T_BITS ((ms / 1000 : Nat) : Int)
  let tv_nsec : Int :=
    wrapSigned T.LONG_BITS (((ms % 1000) * 1000000 % 4294967296 : Nat) : Int)
  let tv_nsec := wrapSigned T.LONG_BITS (tv_nsec + tsNow.tv_nsec)
  let nsecSum := tv_nsec
  let tv_sec := wrapSigned T.TIME_T_BITS (tv_sec + Int.tdiv tv_nsec 1000000000)
  let tv_nsec := Int.tmod tv_nsec 1000000000
  let tv_sec := wrapSigned T.TIME_T_BITS (tv_sec + tsNow.tv_sec)
  let tsTimeout : timespec := ⟨tv_sec, tv_nsec⟩
  let ret := pthread_cond_timedwait tsTimeout
  let status :=
    if ret = 0 then QStatus.ER_OK
    else if ret = ETIMEDOUT then QStatus.ER_TIMEOUT
    else QStatus.ER_OS_ERROR
  ⟨status, tsTimeout, nsecSum⟩

end Condition

end qcc

/-! ## Traces of checker calls -/

namespace qcc.LockChecker

/-- The representation invariant of a checker: the allocated lock stack has
`m_maximumDepth` entries, the depth is at most that capacity, the capacity is a
value of `uint32_t`, and no held entry has level checking disabled. -/
def WellFormed (K : LockCheckerConstants) (self : LockChecker) : Prop :=
  self.m_lockStack.length = self.m_maximumDepth ∧
  self.m_currentDepth ≤ self.m_maximumDepth ∧
  self.m_maximumDepth < 4294967296 ∧
  ∀ u ∈ heldLocks self, u.m_level ≠ K.LOCK_LEVEL_CHECKING_DISABLED

instance (K : LockCheckerConstants) (self : LockChecker) : Decidable (WellFormed K self) := by
  unfold WellFormed
  infer_instance

/-- The spec's "the levels of the level-specified entries on the lock stack are
non-decreasing from bottom to top": of two held entries of specified level, the
lower one has the smaller or equal level. -/
def specLevelsNonDecreasing (K : LockCheckerConstants) (self : LockChecker) : Prop :=
  (heldLocks self).Pairwise fun below above =>
    below.m_level ≠ K.LOCK_LEVEL_NOT_SPECIFIED → above.m_level ≠ K.LOCK_LEVEL_NOT_SPECIFIED →
      below.m_level ≤ above.m_level

instance (K : LockCheckerConstants) (self : LockChecker) :
    Decidable (specLevelsNonDecreasing K self) := by
  unfold specLevelsNonDecreasing
  infer_instance

/-- A call of one of the three operations of the checker, with the lock as it is
at the time of the call. -/
inductive Call where
  | acquiringLock (lock : Mutex)
  | lockAcquired (lock : Mutex)
  | releasingLock (lock : Mutex)
  deriving DecidableEq, Repr

/-- The checker after one call that returns; `none` when the call does not
return (an `assert` fails, or an access is outside the lock stack). -/
def applyCall (K : LockCheckerConstants) (options : Nat) (self : LockChecker) :
    Call → Option LockChecker
  | .acquiringLock lock =>
    if AcquiringLock K options self lock = none then some self else none
  | .lockAcquired lock =>
    if (LockAcquired K options self lock).fault = none then
      some (LockAcquired K options self lock).checker
    else
      none
  | .releasingLock lock =>
    if (ReleasingLock K self lock).2 = none then some (ReleasingLock K self lock).1 else none

/-- The checker after a sequence of calls of one thread, each of which
returns. -/
def applyCalls (K : LockCheckerConstants) (options : Nat) :
    List Call → LockChecker → Option LockChecker
  | [], self => some self
  | call :: calls, self => (applyCall K options self call).bind (applyCalls K options calls)

/-- What a thread does with a lock: a checked acquisition (`AcquiringLock`, then
`LockAcquired`), or a release. -/
inductive Operation where
  | acquire (lock : Mutex)
  | release (lock : Mutex)
  deriving DecidableEq, Repr

/-- The checker calls of a sequence of operations. -/
def checkedCalls : List Operation → List Call
  | [] => []
  | .acquire lock :: operations =>
    .acquiringLock lock :: .lockAcquired lock :: checkedCalls operations
  | .release lock :: operations => .releasingLock lock :: checkedCalls operations

end qcc.LockChecker

/-! ## The dispatch component with its threads -/

namespace ajn

namespace ProtectedAuthListener

/-- The four calls the dispatcher passes on to the active listener
(ProtectedAuthListener.cc:174, 202, 230, 244); `requestCredentials` carries the
caller's credentials, which its context points to. -/
inductive DispatchedCall where
  | requestCredentials (credentials : Credentials)
  | verifyCredentials
  | securityViolation
  | authenticationComplete
  deriving DecidableEq, Repr

/-- Where a thread that runs a dispatched call stands: before its first
statement; after the lock region that reads the listener and does `++refCount`,
holding the listener it read; after `AsyncTracker::Allocate`, holding the
listener and the context; after `AsyncTracker::Release`; after the lock region
that does `--refCount`. -/
inductive RequestPc where
  | idle
  | entered (authListener : Option Nat)
  | allocated (authListener : Nat) (context : Nat)
  | released
  | returned
  deriving DecidableEq, Repr

/-- A thread that runs a dispatched call. -/
structure RequestThread where
  call : DispatchedCall
  pc : RequestPc
  deriving DecidableEq, Repr

namespace RequestThread

/-- Whether the call is in flight: the thread is between its `++refCount` and
its `--refCount`. -/
def inFlight (thread : RequestThread) : Bool :=
  match thread.pc with
  | .idle => false
  | .returned => false
  | _ => true

end RequestThread

/-- The number of calls in flight. -/
def inFlightCount (threads : List RequestThread) : Nat :=
  threads.countP RequestThread.inFlight

/-- The last lock region of a dispatched call (ProtectedAuthListener.cc:196-198,
224-226, 239-241, 253-255): `--refCount`. -/
def RequestLeave (thread : RequestThread) (s : DispatchState) : RequestThread × DispatchState :=
  ({ thread with pc := .returned }, { s with self := lockedDecrement s.self })

/-- One step of a dispatched call.  The steps are: the lock region that reads
the listener and does `++refCount` (ProtectedAuthListener.cc:177-180, 205-208,
232-235, 246-249); for `RequestCredentials` and `VerifyCredentials` with a
non-null listener, `AsyncTracker::Allocate` (182, 210), `context` being the
address that `new AuthContext` returns, and later `AsyncTracker::Release` (194,
222); and the lock region that does `--refCount`.  What the listener does
between `Allocate` and `Release`, and in the two calls without a context, is not
a step of the thread: it acts on the registry only through the responses of the
application. -/
def RequestStep (context : Nat) (thread : RequestThread) (s : DispatchState) :
    RequestThread × DispatchState :=
  match thread.pc with
  | .idle =>
    ({ thread with pc := .entered s.self.listener },
      { s with self := lockedIncrement s.self })
  | .entered none => RequestLeave thread s
  | .entered (some authListener) =>
    match thread.call with
    | .requestCredentials credentials =>
      ({ thread with pc := .allocated authListener context },
        { s with tracker :=
            AsyncTracker.Allocate s.tracker context authListener (some credentials) })
    | .verifyCredentials =>
      ({ thread with pc := .allocated authListener context },
        { s with tracker := AsyncTracker.Allocate s.tracker context authListener none })
    | .securityViolation => RequestLeave thread s
    | .authenticationComplete => RequestLeave thread s
  | .allocated _ allocated =>
    ({ thread with pc := .released },
      { s with tracker := AsyncTracker.Release s.tracker allocated })
  | .released => RequestLeave thread s
  | .returned => (thread, s)

/-- The dispatch component with its threads: the shared state, where the thread
that runs `Set` stands, the threads that run dispatched calls, and the steps
`Set` has taken. -/
structure DispatchSystem where
  shared : DispatchState
  setPc : SetPc
  threads : List RequestThread
  events : List SetEvent

/-- What can happen next in the dispatch component: the thread that runs `Set`
takes its next step; the thread with the given index takes the next step of its
dispatched call (`context` is the address a `new AuthContext` would return); or
the application answers a context through `RequestCredentialsResponse` or
`VerifyCredentialsResponse`, that is `AsyncTracker::Trigger`
(ProtectedAuthListener.cc:261, 269). -/
inductive SystemAction where
  | set
  | request (thread : Nat) (context : Nat)
  | respond (context : Nat) (accept : Bool) (credentials : Option Credentials)
  deriving DecidableEq, Repr

/-- One step of the dispatch component while a thread runs
`Set(authListener)`. -/
def SystemStep (authListener : Option Nat) (system : DispatchSystem) :
    SystemAction → DispatchSystem
  | .set =>
    { system with
      setPc := (SetStep authListener system.setPc system.shared).1
      shared := (SetStep authListener system.setPc system.shared).2.1
      events := system.events ++ (SetStep authListener system.setPc system.shared).2.2 }
  | .request index context =>
    match system.threads[index]? with
    | none => system
    | some thread =>
      { system with
        shared := (RequestStep context thread system.shared).2
        threads := system.threads.set index (RequestStep context thread system.shared).1 }
  | .respond context accept credentials =>
    { system with
      shared :=
        { system.shared with
          tracker := (AsyncTracker.Trigger system.shared.tracker context accept credentials).2 } }

/-- The dispatch component after the given steps, in order. -/
def SystemRun (authListener : Option Nat) : List SystemAction → DispatchSystem → DispatchSystem
  | [], system => system
  | action :: actions, system =>
    SystemRun authListener actions (SystemStep authListener system action)

/-- What is kept between the steps of the dispatch component: the reference
count is the number of calls in flight; the steps `Set` has taken have the shape
that belongs to where it stands; and from the clearing to the assignment the
listener is `NULL`. -/
def SystemInvariant (authListener : Option Nat) (system : DispatchSystem) : Prop :=
  system.shared.self.refCount = inFlightCount system.threads ∧
  (match system.setPc with
    | .start => system.events = []
    | .cleared goner => system.events = [.clear goner]
    | .polling => ∃ goner sleeps,
        system.events = .clear goner :: (removeAllEvents goner ++ sleeps) ∧
        ∀ e ∈ sleeps, ∃ k, k ≠ 0 ∧ e = .sleep k
    | .done => ∃ goner sleeps,
        system.events
          = .clear goner :: (removeAllEvents goner ++ sleeps ++ [.assign 0 authListener]) ∧
        ∀ e ∈ sleeps, ∃ k, k ≠ 0 ∧ e = .sleep k) ∧
  ((system.setPc = .polling ∨ ∃ goner, system.setPc = .cleared goner) →
    system.shared.self.listener = none)

end ProtectedAuthListener

end ajn

/-! ## Theorems -/

namespace ajn.PermissionMgmtProxy

open QStatus

/-- C1: `IsPermissionDeniedError` is true exactly when the error name is
"org.alljoyn.Bus.ER_PERMISSION_DENIED" (whatever the message), or the error name
is "org.alljoyn.Bus.ErStatus" and the message is "ER_PERMISSION_DENIED"; in
particular it is false for a reply without an error name. -/
theorem isPermissionDeniedError_iff (msg : Message) :
    (IsPermissionDeniedError msg = true ↔
      (msg.errorName = some "org.alljoyn.Bus.ER_PERMISSION_DENIED" ∨
        (msg.errorName = some "org.alljoyn.Bus.ErStatus" ∧
          msg.errorMsg = "ER_PERMISSION_DENIED"))) ∧
    (msg.errorName = none → IsPermissionDeniedError msg = false) := by
  unfold IsPermissionDeniedError
  constructor
  · cases h : msg.errorName with
    | none => simp
    | some n =>
      by_cases h1 : n = "org.alljoyn.Bus.ER_PERMISSION_DENIED"
      · simp [h1]
      · by_cases h2 : n = "org.alljoyn.Bus.ErStatus"
        · by_cases h3 : msg.errorMsg = "ER_PERMISSION_DENIED"
          · simp [h2, h3]
          · simp [h1, h2, h3]
        · simp [h1, h2]
  · intro h
    simp [h]

/-- C2 (the code fails open): on a payload that parses structurally and has one
tag mismatched, `RetrieveECCPublicKeyFromMsgArg` returns `ER_OK` (and leaves the
public key untouched), for each of the six mismatches: key format, key usage,
key type, curve, X length, Y length. -/
theorem retrieveECCPublicKey_mismatch_returns_ER_OK :
    RetrieveECCPublicKeyFromMsgArg qcc.alljoynConstants
        (publicKeyPayload 1 [] 0 0 0 0 (List.replicate 32 1) (List.replicate 32 2)) ⟨[], []⟩
      = (ER_OK, ⟨[], []⟩) ∧
    RetrieveECCPublicKeyFromMsgArg qcc.alljoynConstants
        (publicKeyPayload 0 [] 2 0 0 0 (List.replicate 32 1) (List.replicate 32 2)) ⟨[], []⟩
      = (ER_OK, ⟨[], []⟩) ∧
    RetrieveECCPublicKeyFromMsgArg qcc.alljoynConstants
        (publicKeyPayload 0 [] 0 1 0 0 (List.replicate 32 1) (List.replicate 32 2)) ⟨[], []⟩
      = (ER_OK, ⟨[], []⟩) ∧
    RetrieveECCPublicKeyFromMsgArg qcc.alljoynConstants
        (publicKeyPayload 0 [] 0 0 0 1 (List.replicate 32 1) (List.replicate 32 2)) ⟨[], []⟩
      = (ER_OK, ⟨[], []⟩) ∧
    RetrieveECCPublicKeyFromMsgArg qcc.alljoynConstants
        (publicKeyPayload 0 [] 0 0 0 0 (List.replicate 31 1) (List.replicate 32 2)) ⟨[], []⟩
      = (ER_OK, ⟨[], []⟩) ∧
    RetrieveECCPublicKeyFromMsgArg qcc.alljoynConstants
        (publicKeyPayload 0 [] 0 0 0 0 (List.replicate 32 1) (List.replicate 33 2)) ⟨[], []⟩
      = (ER_OK, ⟨[], []⟩) := by
  decide

/-- C3: on a well-formed payload (AllJoyn key format, usage signing or
encryption, ECC key type, NIST P-256 curve, X and Y of exactly
`ECC_COORDINATE_SZ` bytes) `RetrieveECCPublicKeyFromMsgArg` returns `ER_OK` and
the output public key has exactly the payload's X and Y. -/
theorem retrieveECCPublicKey_wellFormed (K : qcc.Constants) (kid : List Nat)
    (keyUsageType algorithm : Nat) (xCoord yCoord : List Nat) (pubKey : qcc.ECCPublicKey)
    (husage : keyUsageType = K.USAGE_SIGNING ∨ keyUsageType = K.USAGE_ENCRYPTION)
    (hx : xCoord.length = K.ECC_COORDINATE_SZ) (hy : yCoord.length = K.ECC_COORDINATE_SZ) :
    RetrieveECCPublicKeyFromMsgArg K
        (publicKeyPayload K.FORMAT_ALLJOYN kid keyUsageType K.KEY_TYPE algorithm
          K.ECC_NIST_P256 xCoord yCoord) pubKey
      = (ER_OK, { x := xCoord, y := yCoord }) := by
  have h1 : ¬ (keyUsageType ≠ K.USAGE_SIGNING ∧ keyUsageType ≠ K.USAGE_ENCRYPTION) := by
    rcases husage with h | h
    · exact fun hh => hh.1 h
    · exact fun hh => hh.2 h
  have hxt : List.take K.ECC_COORDINATE_SZ xCoord = xCoord := by
    rw [← hx]; exact List.take_length xCoord
  have hyt : List.take K.ECC_COORDINATE_SZ yCoord = yCoord := by
    rw [← hy]; exact List.take_length yCoord
  simp only [RetrieveECCPublicKeyFromMsgArg, publicKeyPayload, MsgArg.Get_yv, MsgArg.Get_ayyyv,
    MsgArg.Get_yyv, MsgArg.Get_ayay, ne_eq, not_true_eq_false, if_false, h1, hx, hy, or_self,
    qcc.KeyInfoNISTP256.SetXCoord, qcc.KeyInfoNISTP256.SetYCoord,
    qcc.KeyInfoNISTP256.default, hxt, hyt]

/-- Witness of C3: a 32-byte X and a 32-byte Y under the encryption usage. -/
theorem retrieveECCPublicKey_wellFormed_witness :
    RetrieveECCPublicKeyFromMsgArg qcc.alljoynConstants
        (publicKeyPayload 0 [9, 9] 1 0 5 0 (List.replicate 32 1) (List.range 32))
        { x := [], y := [] }
      = (ER_OK, { x := List.replicate 32 1, y := List.range 32 }) :=
  retrieveECCPublicKey_wellFormed qcc.alljoynConstants [9, 9] 1 5 (List.replicate 32 1)
    (List.range 32) { x := [], y := [] } (Or.inr rfl) (by decide) (by decide)

/-- C4: each of `RemovePolicy`, `InstallMembership`, `RemoveMembership`,
`InstallIdentity` and `Reset` returns `ER_PERMISSION_DENIED` when its method call
returned `ER_BUS_REPLY_IS_ERROR_MESSAGE` with a permission-denied reply, and
otherwise exactly the status its method call returned. -/
theorem bindings_return_normalized_status (bus : ProxyBusObject) (certChainArg certArg : MsgArg)
    (serialNum : String) (issuerAki : List Nat) :
    RemovePolicy bus
      = specNormalizedStatus (bus.MethodCall bus.InterfaceName "RemovePolicy" []).1
          (bus.MethodCall bus.InterfaceName "RemovePolicy" []).2 ∧
    InstallMembership bus certChainArg
      = specNormalizedStatus
          (bus.MethodCall bus.InterfaceName "InstallMembership" [certChainArg]).1
          (bus.MethodCall bus.InterfaceName "InstallMembership" [certChainArg]).2 ∧
    RemoveMembership bus serialNum issuerAki
      = specNormalizedStatus
          (bus.MethodCall bus.InterfaceName "RemoveMembership"
            [.string serialNum, .byteArray issuerAki]).1
          (bus.MethodCall bus.InterfaceName "RemoveMembership"
            [.string serialNum, .byteArray issuerAki]).2 ∧
    InstallIdentity bus certArg
      = specNormalizedStatus (bus.MethodCall bus.InterfaceName "InstallIdentity" [certArg]).1
          (bus.MethodCall bus.InterfaceName "InstallIdentity" [certArg]).2 ∧
    Reset bus
      = specNormalizedStatus (bus.MethodCall bus.InterfaceName "Reset" []).1
          (bus.MethodCall bus.InterfaceName "Reset" []).2 := by
  refine ⟨?_, ?_, ?_, ?_, ?_⟩
  · simp only [RemovePolicy, specNormalizedStatus]
    split_ifs <;> simp_all
  · simp only [InstallMembership, specNormalizedStatus]
    split_ifs <;> simp_all
  · simp only [RemoveMembership, specNormalizedStatus, MsgArg.Set_ay, List.take_length]
    split_ifs <;> simp_all
  · simp only [InstallIdentity, specNormalizedStatus]
    split_ifs <;> simp_all
  · simp only [Reset, specNormalizedStatus]
    split_ifs <;> simp_all

/-- C5 (the code loses the status of the call): when the `GetManifest` call
returns `ER_BUS_REPLY_IS_ERROR_MESSAGE` with a permission-denied reply carrying
its description string, `GetManifest` goes on to decode the reply and returns
the decode status `ER_BUS_SIGNATURE_MISMATCH`, not `ER_PERMISSION_DENIED`; when
the failed call left a reply without arguments it dereferences `NULL`. -/
theorem getManifest_ignores_call_status (P : PermissionPolicyOps) :
    GetManifest P (constantBus ER_BUS_REPLY_IS_ERROR_MESSAGE
        (errorReply "org.alljoyn.Bus.ER_PERMISSION_DENIED" "permission denied"))
      = .returned ER_BUS_SIGNATURE_MISMATCH none ∧
    IsPermissionDeniedError
        (errorReply "org.alljoyn.Bus.ER_PERMISSION_DENIED" "permission denied") = true ∧
    GetManifest P (constantBus ER_TIMEOUT { errorName := none, errorMsg := "", args := [] })
      = .nullDereference := by
  refine ⟨rfl, ?_, rfl⟩
  decide


/-- C6: on a successful reply whose first argument is (tag, bytes),
`GetIdentity` returns the result of the DER decoder on the bytes when the tag is
`ENCODING_X509_DER`, the result of the PEM decoder when the tag is
`ENCODING_X509_DER_PEM`, and for every other tag `ER_NOT_IMPLEMENTED` with no
decoder invoked and the certificate untouched. -/
theorem getIdentity_branches_on_encoding (K : qcc.Constants) (C : CertificateOps)
    (bus : ProxyBusObject) (cert : qcc.IdentityCertificate) (reply : Message)
    (tag : Nat) (bytes : List Nat)
    (hconst : K.ENCODING_X509_DER ≠ K.ENCODING_X509_DER_PEM)
    (hcall : bus.MethodCall bus.InterfaceName "GetIdentity" [] = (ER_OK, reply))
    (hshape : reply.GetArg0 = some (.struct [.byte tag, .byteArray bytes])) :
    (tag = K.ENCODING_X509_DER →
      GetIdentity K C bus cert
        = .returned (C.DecodeCertificateDER bytes cert).1
            ((C.DecodeCertificateDER bytes cert).2, [.DER bytes])) ∧
    (tag = K.ENCODING_X509_DER_PEM →
      GetIdentity K C bus cert
        = .returned (C.DecodeCertificatePEM bytes cert).1
            ((C.DecodeCertificatePEM bytes cert).2, [.PEM bytes])) ∧
    (tag ≠ K.ENCODING_X509_DER → tag ≠ K.ENCODING_X509_DER_PEM →
      GetIdentity K C bus cert = .returned ER_NOT_IMPLEMENTED (cert, [])) := by
  refine ⟨?_, ?_, ?_⟩
  · intro h
    simp [GetIdentity, hcall, hshape, MsgArg.Get_yay, h]
  · intro h
    have h' : ¬ K.ENCODING_X509_DER_PEM = K.ENCODING_X509_DER := fun e => hconst e.symm
    simp [GetIdentity, hcall, hshape, MsgArg.Get_yay, h, h']
  · intro h1 h2
    simp [GetIdentity, hcall, hshape, MsgArg.Get_yay, h1, h2]

/-- Witness of C6: a reply tagged 7, which is neither encoding. -/
theorem getIdentity_branches_on_encoding_witness :
    GetIdentity qcc.alljoynConstants sampleCertificateOps
        (constantBus ER_OK
          { errorName := none, errorMsg := "", args := [.struct [.byte 7, .byteArray [1, 2]]] })
        { encoded := [5] }
      = .returned ER_NOT_IMPLEMENTED ({ encoded := [5] }, []) :=
  (getIdentity_branches_on_encoding qcc.alljoynConstants sampleCertificateOps
    (constantBus ER_OK
      { errorName := none, errorMsg := "", args := [.struct [.byte 7, .byteArray [1, 2]]] })
    { encoded := [5] }
    { errorName := none, errorMsg := "", args := [.struct [.byte 7, .byteArray [1, 2]]] }
    7 [1, 2] (by decide) rfl rfl).2.2 (by decide) (by decide)

/-- C7: `Claim` with a null identity-certificate-chain pointer or a null manifest
pointer returns `ER_INVALID_DATA`, with no event at all (no remote method call,
no key-id generation) and both key infos as they were. -/
theorem claim_null_pointer (K : qcc.Constants) (H : KeyInfoHelper) (P : PermissionPolicyOps)
    (bus : ProxyBusObject) (certificateAuthority adminGroup : qcc.KeyInfoNISTP256)
    (adminGroupId : qcc.GUID128) (identityCertChain : Option (List qcc.IdentityCertificate))
    (manifest : Option (List Rule)) (hnull : identityCertChain = none ∨ manifest = none) :
    (Claim K H P bus certificateAuthority adminGroupId adminGroup identityCertChain
        manifest).status = ER_INVALID_DATA ∧
    (Claim K H P bus certificateAuthority adminGroupId adminGroup identityCertChain
        manifest).trace = [] ∧
    (Claim K H P bus certificateAuthority adminGroupId adminGroup identityCertChain
        manifest).certificateAuthority = certificateAuthority ∧
    (Claim K H P bus certificateAuthority adminGroupId adminGroup identityCertChain
        manifest).adminGroup = adminGroup := by
  rcases hnull with h | h
  · subst h
    simp [Claim]
  · subst h
    cases identityCertChain <;> simp [Claim]

/-- Witness of C7: a null manifest with a non-null chain and empty key ids. -/
theorem claim_null_pointer_witness :
    (Claim qcc.alljoynConstants sampleKeyInfoHelper samplePermissionPolicyOps
        (constantBus ER_OK { errorName := none, errorMsg := "", args := [] })
        qcc.KeyInfoNISTP256.default { bytes := List.replicate 16 0 }
        qcc.KeyInfoNISTP256.default (some []) none).status = ER_INVALID_DATA ∧
    (Claim qcc.alljoynConstants sampleKeyInfoHelper samplePermissionPolicyOps
        (constantBus ER_OK { errorName := none, errorMsg := "", args := [] })
        qcc.KeyInfoNISTP256.default { bytes := List.replicate 16 0 }
        qcc.KeyInfoNISTP256.default (some []) none).trace = [] ∧
    (Claim qcc.alljoynConstants sampleKeyInfoHelper samplePermissionPolicyOps
        (constantBus ER_OK { errorName := none, errorMsg := "", args := [] })
        qcc.KeyInfoNISTP256.default { bytes := List.replicate 16 0 }
        qcc.KeyInfoNISTP256.default (some []) none).certificateAuthority
      = qcc.KeyInfoNISTP256.default ∧
    (Claim qcc.alljoynConstants sampleKeyInfoHelper samplePermissionPolicyOps
        (constantBus ER_OK { errorName := none, errorMsg := "", args := [] })
        qcc.KeyInfoNISTP256.default { bytes := List.replicate 16 0 }
        qcc.KeyInfoNISTP256.default (some []) none).adminGroup
      = qcc.KeyInfoNISTP256.default :=
  claim_null_pointer qcc.alljoynConstants sampleKeyInfoHelper samplePermissionPolicyOps
    (constantBus ER_OK { errorName := none, errorMsg := "", args := [] })
    qcc.KeyInfoNISTP256.default qcc.KeyInfoNISTP256.default { bytes := List.replicate 16 0 }
    (some []) none (Or.inr rfl)


/-- The nested test of the source is the conjunction of the spec. -/
theorem specNormalizedStatus_eq (callStatus : QStatus) (reply : Message) :
    specNormalizedStatus callStatus reply
      = if callStatus = ER_BUS_REPLY_IS_ERROR_MESSAGE then
          if IsPermissionDeniedError reply = true then ER_PERMISSION_DENIED else callStatus
        else callStatus := by
  unfold specNormalizedStatus
  split_ifs <;> simp_all

/-- `Claim` with non-null pointers, in closed form: both key-ids are generated
if missing; then either rule generation for a non-empty manifest fails and its
status is returned, or the method call is issued on the seven arguments. -/
theorem claim_some_eq (K : qcc.Constants) (H : KeyInfoHelper)
    (P : PermissionPolicyOps) (bus : ProxyBusObject)
    (certificateAuthority adminGroup : qcc.KeyInfoNISTP256) (adminGroupId : qcc.GUID128)
    (chain : List qcc.IdentityCertificate) (rules : List Rule) :
    Claim K H P bus certificateAuthority adminGroupId adminGroup (some chain) (some rules)
      = if rules ≠ [] ∧ (P.GenerateRules rules).1 ≠ ER_OK then
          { status := (P.GenerateRules rules).1
            certificateAuthority := specKeyInfoAsSent H certificateAuthority
            adminGroup := specKeyInfoAsSent H adminGroup
            trace :=
              (if certificateAuthority.GetKeyIdLen = 0 then
                [ClaimEvent.generateKeyId .certificateAuthority] else []) ++
              (if adminGroup.GetKeyIdLen = 0 then
                [ClaimEvent.generateKeyId .adminGroup] else []) }
        else
          { status :=
              specNormalizedStatus
                (bus.MethodCall bus.InterfaceName "Claim"
                  (specClaimArguments K H P (specKeyInfoAsSent H certificateAuthority)
                    adminGroupId (specKeyInfoAsSent H adminGroup) chain rules)).1
                (bus.MethodCall bus.InterfaceName "Claim"
                  (specClaimArguments K H P (specKeyInfoAsSent H certificateAuthority)
                    adminGroupId (specKeyInfoAsSent H adminGroup) chain rules)).2
            certificateAuthority := specKeyInfoAsSent H certificateAuthority
            adminGroup := specKeyInfoAsSent H adminGroup
            trace :=
              (if certificateAuthority.GetKeyIdLen = 0 then
                [ClaimEvent.generateKeyId .certificateAuthority] else []) ++
              (if adminGroup.GetKeyIdLen = 0 then
                [ClaimEvent.generateKeyId .adminGroup] else []) ++
              [ClaimEvent.methodCall bus.InterfaceName "Claim"
                (specClaimArguments K H P (specKeyInfoAsSent H certificateAuthority)
                  adminGroupId (specKeyInfoAsSent H adminGroup) chain rules)] } := by
  have hmap : (chain.map fun c =>
      (MsgArg.Set_yay K.ENCODING_X509_DER c.GetEncodedLen c.encoded).2)
      = chain.map fun c => MsgArg.struct [.byte K.ENCODING_X509_DER, .byteArray c.encoded] := by
    apply List.map_congr_left
    intro c _
    simp [MsgArg.Set_yay, qcc.IdentityCertificate.GetEncodedLen]
  have htake : List.take chain.length
      (chain.map fun c => MsgArg.struct [.byte K.ENCODING_X509_DER, .byteArray c.encoded])
      = chain.map fun c => MsgArg.struct [.byte K.ENCODING_X509_DER, .byteArray c.encoded] := by
    conv_lhs => rw [← List.length_map chain
      (fun c => MsgArg.struct [.byte K.ENCODING_X509_DER, .byteArray c.encoded])]
    exact List.take_length _
  have hs5 : (if chain.length = 0 then MsgArg.Set_array "(yay)" 0 none
      else MsgArg.Set_array "(yay)" chain.length (some (chain.map fun c =>
        (MsgArg.Set_yay K.ENCODING_X509_DER c.GetEncodedLen c.encoded).2)))
      = (ER_OK, .array "(yay)"
          (chain.map fun c => .struct [.byte K.ENCODING_X509_DER, .byteArray c.encoded])) := by
    rw [hmap]
    by_cases hc : chain = []
    · subst hc
      simp [MsgArg.Set_array]
    · have hlen : chain.length ≠ 0 := fun h => hc (List.length_eq_zero.mp h)
      simp only [hlen, if_false, MsgArg.Set_array, Option.getD_some, htake]
  simp only [Claim, hs5]
  by_cases hca : certificateAuthority.GetKeyIdLen = 0 <;>
  by_cases hag : adminGroup.GetKeyIdLen = 0 <;>
  by_cases hr : rules = [] <;>
  by_cases hok : (P.GenerateRules rules).1 = ER_OK <;>
  simp [hca, hag, hr, hok, MsgArg.Set_ay, MsgArg.Set_array, specClaimArguments,
    specKeyInfoAsSent, specNormalizedStatus_eq]

/-- Counterexample to C8 as stated: with a non-null chain of one certificate
and a non-null manifest of one rule, when the rule generation fails, `Claim`
returns its status and issues no method call, so no argument is sent. -/
theorem claim_sends_nothing_when_rule_generation_fails :
    methodCalls (Claim qcc.alljoynConstants sampleKeyInfoHelper failingPermissionPolicyOps
        (constantBus ER_OK { errorName := none, errorMsg := "", args := [] })
        { keyId := [1], publicKey := { x := [2], y := [3] } } { bytes := List.replicate 16 0 }
        { keyId := [4], publicKey := { x := [5], y := [6] } }
        (some [{ encoded := [48, 130] }])
        (some [{ objPath := "/door", interfaceName := "sample.Door", members := [] }])).trace
      = [] ∧
    (Claim qcc.alljoynConstants sampleKeyInfoHelper failingPermissionPolicyOps
        (constantBus ER_OK { errorName := none, errorMsg := "", args := [] })
        { keyId := [1], publicKey := { x := [2], y := [3] } } { bytes := List.replicate 16 0 }
        { keyId := [4], publicKey := { x := [5], y := [6] } }
        (some [{ encoded := [48, 130] }])
        (some [{ objPath := "/door", interfaceName := "sample.Door", members := [] }])).status
      = ER_FAIL :=
  ⟨rfl, rfl⟩

/-- C8, amended: with a non-null chain of `n` certificates and a non-null
manifest whose rule generation succeeds (an empty manifest needs none), `Claim`
issues exactly one method call, "Claim", with exactly seven arguments in the
order CA key, CA key-id, admin group id, group key, group key-id, identity
chain, manifest rules; the identity chain is the array whose `i`-th entry is
(`ENCODING_X509_DER`, encoded bytes of the `i`-th certificate), so it has `n`
entries; an empty chain and an empty manifest are sent as zero-length arrays
with no local error, the returned status being the normalised status of the
call.  When the rule generation fails on a non-empty manifest, `Claim` issues no
method call and returns the status of the rule generation. -/
theorem claim_sends_seven_arguments (K : qcc.Constants) (H : KeyInfoHelper)
    (P : PermissionPolicyOps) (bus : ProxyBusObject)
    (certificateAuthority adminGroup : qcc.KeyInfoNISTP256) (adminGroupId : qcc.GUID128)
    (chain : List qcc.IdentityCertificate) (rules : List Rule) :
    ((rules = [] ∨ (P.GenerateRules rules).1 = ER_OK) →
      methodCalls (Claim K H P bus certificateAuthority adminGroupId adminGroup (some chain)
          (some rules)).trace
        = [("Claim",
            [H.KeyInfoNISTP256PubKeyToMsgArg (specKeyInfoAsSent H certificateAuthority),
             H.KeyInfoKeyIdToMsgArg (specKeyInfoAsSent H certificateAuthority),
             .byteArray (adminGroupId.bytes.take K.GUID128_SIZE),
             H.KeyInfoNISTP256PubKeyToMsgArg (specKeyInfoAsSent H adminGroup),
             H.KeyInfoKeyIdToMsgArg (specKeyInfoAsSent H adminGroup),
             .array "(yay)"
              (chain.map fun c => .struct [.byte K.ENCODING_X509_DER, .byteArray c.encoded]),
             if rules = [] then .array "(ssa(syy))" [] else (P.GenerateRules rules).2])] ∧
      (chain.map fun c =>
        MsgArg.struct [.byte K.ENCODING_X509_DER, .byteArray c.encoded]).length
          = chain.length ∧
      (Claim K H P bus certificateAuthority adminGroupId adminGroup (some chain)
          (some rules)).status
        = specNormalizedStatus
            (bus.MethodCall bus.InterfaceName "Claim"
              (specClaimArguments K H P (specKeyInfoAsSent H certificateAuthority) adminGroupId
                (specKeyInfoAsSent H adminGroup) chain rules)).1
            (bus.MethodCall bus.InterfaceName "Claim"
              (specClaimArguments K H P (specKeyInfoAsSent H certificateAuthority) adminGroupId
                (specKeyInfoAsSent H adminGroup) chain rules)).2) ∧
    ((rules ≠ [] ∧ (P.GenerateRules rules).1 ≠ ER_OK) →
      methodCalls (Claim K H P bus certificateAuthority adminGroupId adminGroup (some chain)
          (some rules)).trace = [] ∧
      (Claim K H P bus certificateAuthority adminGroupId adminGroup (some chain)
          (some rules)).status = (P.GenerateRules rules).1) := by
  constructor
  · intro hgen
    have hno : ¬ (rules ≠ [] ∧ (P.GenerateRules rules).1 ≠ ER_OK) := by
      rintro ⟨h1, h2⟩
      rcases hgen with h | h
      · exact h1 h
      · exact h2 h
    rw [claim_some_eq, if_neg hno]
    refine ⟨?_, List.length_map _ _, rfl⟩
    by_cases hca : certificateAuthority.GetKeyIdLen = 0 <;>
    by_cases hag : adminGroup.GetKeyIdLen = 0 <;>
    simp [hca, hag, methodCalls, specClaimArguments]
  · intro hfail
    rw [claim_some_eq, if_pos hfail]
    refine ⟨?_, rfl⟩
    by_cases hca : certificateAuthority.GetKeyIdLen = 0 <;>
    by_cases hag : adminGroup.GetKeyIdLen = 0 <;>
    simp [hca, hag, methodCalls]

/-- Witness of the amended C8: a chain of two certificates and a manifest of one
rule, with key ids present; the identity chain is sent as two entries in the
caller's order and the manifest as the generated rules. -/
theorem claim_sends_seven_arguments_witness :
    methodCalls (Claim qcc.alljoynConstants sampleKeyInfoHelper samplePermissionPolicyOps
        (constantBus ER_OK { errorName := none, errorMsg := "", args := [] })
        { keyId := [1], publicKey := { x := [2], y := [3] } } { bytes := List.replicate 16 0 }
        { keyId := [4], publicKey := { x := [5], y := [6] } }
        (some [{ encoded := [48, 130] }, { encoded := [48, 131, 7] }])
        (some [{ objPath := "/door", interfaceName := "sample.Door", members := [] }])).trace
      = [("Claim",
          [.struct [.byteArray [2], .byteArray [3]], .byteArray [1],
           .byteArray (List.replicate 16 0),
           .struct [.byteArray [5], .byteArray [6]], .byteArray [4],
           .array "(yay)"
            [.struct [.byte 0, .byteArray [48, 130]],
             .struct [.byte 0, .byteArray [48, 131, 7]]],
           .array "(ssa(syy))" [.struct [.string "/door", .string "sample.Door"]]])] :=
  ((claim_sends_seven_arguments qcc.alljoynConstants sampleKeyInfoHelper
    samplePermissionPolicyOps
    (constantBus ER_OK { errorName := none, errorMsg := "", args := [] })
    { keyId := [1], publicKey := { x := [2], y := [3] } }
    { keyId := [4], publicKey := { x := [5], y := [6] } } { bytes := List.replicate 16 0 }
    [{ encoded := [48, 130] }, { encoded := [48, 131, 7] }]
    [{ objPath := "/door", interfaceName := "sample.Door", members := [] }]).1
      (Or.inr rfl)).1

/-- C9: in `Claim` with non-null chain and manifest, a key-id is generated for
the certificate-authority key info exactly when its key-id length is zero, and
independently for the admin-group key info exactly when its key-id length is
zero; a key info with a non-empty key-id is left unchanged, and every method
call issued carries the key-ids of the resulting key infos as its second and
fifth arguments (one call is issued whenever rule generation raises no error). -/
theorem claim_generates_key_id_iff_missing (K : qcc.Constants) (H : KeyInfoHelper)
    (P : PermissionPolicyOps) (bus : ProxyBusObject)
    (certificateAuthority adminGroup : qcc.KeyInfoNISTP256) (adminGroupId : qcc.GUID128)
    (chain : List qcc.IdentityCertificate) (rules : List Rule) :
    keyIdGenerations (Claim K H P bus certificateAuthority adminGroupId adminGroup
        (some chain) (some rules)).trace
      = (if certificateAuthority.GetKeyIdLen = 0 then [ClaimKeyArg.certificateAuthority]
          else []) ++
        (if adminGroup.GetKeyIdLen = 0 then [ClaimKeyArg.adminGroup] else []) ∧
    (Claim K H P bus certificateAuthority adminGroupId adminGroup (some chain)
        (some rules)).certificateAuthority
      = (if certificateAuthority.GetKeyIdLen = 0 then H.GenerateKeyId certificateAuthority
          else certificateAuthority) ∧
    (Claim K H P bus certificateAuthority adminGroupId adminGroup (some chain)
        (some rules)).adminGroup
      = (if adminGroup.GetKeyIdLen = 0 then H.GenerateKeyId adminGroup else adminGroup) ∧
    (∀ method args,
      (method, args) ∈ methodCalls (Claim K H P bus certificateAuthority adminGroupId
          adminGroup (some chain) (some rules)).trace →
        args[1]? = some (H.KeyInfoKeyIdToMsgArg
          (if certificateAuthority.GetKeyIdLen = 0 then H.GenerateKeyId certificateAuthority
            else certificateAuthority)) ∧
        args[4]? = some (H.KeyInfoKeyIdToMsgArg
          (if adminGroup.GetKeyIdLen = 0 then H.GenerateKeyId adminGroup else adminGroup))) ∧
    ((rules = [] ∨ (P.GenerateRules rules).1 = ER_OK) →
      (methodCalls (Claim K H P bus certificateAuthority adminGroupId adminGroup (some chain)
        (some rules)).trace).length = 1) := by
  rw [claim_some_eq]
  by_cases hfail : rules ≠ [] ∧ (P.GenerateRules rules).1 ≠ ER_OK
  · rw [if_pos hfail]
    have h5 : ¬ (rules = [] ∨ (P.GenerateRules rules).1 = ER_OK) := by
      rintro (h | h)
      · exact hfail.1 h
      · exact hfail.2 h
    by_cases hca : certificateAuthority.GetKeyIdLen = 0 <;>
    by_cases hag : adminGroup.GetKeyIdLen = 0 <;>
    simp [hca, hag, h5, methodCalls, keyIdGenerations, specKeyInfoAsSent]
  · rw [if_neg hfail]
    by_cases hca : certificateAuthority.GetKeyIdLen = 0 <;>
    by_cases hag : adminGroup.GetKeyIdLen = 0 <;>
    simp [hca, hag, methodCalls, keyIdGenerations, specKeyInfoAsSent, specClaimArguments]


end ajn.PermissionMgmtProxy

namespace qcc.LockChecker

/-- With the ordering flag a real flag (non-zero), the default options have it
set. -/
theorem enabledOptions_ordering (K : LockCheckerConstants)
    (h : K.LOCKCHECKER_OPTION_LOCK_ORDERING_ASSERT ≠ 0) :
    enabledOptions K &&& K.LOCKCHECKER_OPTION_LOCK_ORDERING_ASSERT ≠ 0 := by
  have e : enabledOptions K &&& K.LOCKCHECKER_OPTION_LOCK_ORDERING_ASSERT
      = K.LOCKCHECKER_OPTION_LOCK_ORDERING_ASSERT := by
    apply Nat.eq_of_testBit_eq
    intro i
    simp only [enabledOptions, Nat.testBit_and, Nat.testBit_or]
    cases Nat.testBit K.LOCKCHECKER_OPTION_LOCK_ORDERING_ASSERT i <;> simp
  rw [e]
  exact h

/-- The first loop of `AcquiringLock`, started `j` entries above an entry `k`
with a specified level, every entry in between being of unspecified level, stops
at `k`. -/
theorem findRecentEntry_found (K : LockCheckerConstants) (s : List LockTrace) (t : LockTrace)
    (k : Nat) (hk : s[k]? = some t) (hcd : t.m_level ≠ K.LOCK_LEVEL_CHECKING_DISABLED)
    (hns : t.m_level ≠ K.LOCK_LEVEL_NOT_SPECIFIED) :
    ∀ j n : Nat,
      (∀ i, k < i → i ≤ k + j → ∃ u, s[i]? = some u ∧
        u.m_level = K.LOCK_LEVEL_NOT_SPECIFIED ∧ u.m_level ≠ K.LOCK_LEVEL_CHECKING_DISABLED) →
      j < n → k + j < 4294967296 →
      findRecentEntry K s n (k + j) = .ok (true, k) := by
  intro j
  induction j with
  | zero =>
    intro n _ hn _
    obtain ⟨m, rfl⟩ : ∃ m, n = m + 1 := ⟨n - 1, by omega⟩
    simp [findRecentEntry, hk, hcd, hns]
  | succ j ih =>
    intro n hall hn hlt
    obtain ⟨m, rfl⟩ : ∃ m, n = m + 1 := ⟨n - 1, by omega⟩
    obtain ⟨u, hu, huns, hucd⟩ := hall (k + (j + 1)) (by omega) (by omega)
    have hstep : (k + (j + 1) + 4294967296 - 1) % 4294967296 = k + j := by omega
    have hnc : ¬ K.LOCK_LEVEL_NOT_SPECIFIED = K.LOCK_LEVEL_CHECKING_DISABLED := by
      rw [← huns]; exact hucd
    simp only [findRecentEntry, hu, huns, hnc, if_false, ne_eq, not_true_eq_false, hstep]
    exact ih m (fun i h1 h2 => hall i h1 (by omega)) (by omega) (by omega)

/-- The second loop of `AcquiringLock` over entries none of which is the lock
yields `previouslyLocked = false`. -/
theorem previouslyLockedBelow_false (K : LockCheckerConstants) (s : List LockTrace)
    (lock : Mutex) :
    ∀ n i : Nat,
      (∀ m, i ≤ m → m < i + n → ∃ u, s[m]? = some u ∧
        u.m_level ≠ K.LOCK_LEVEL_CHECKING_DISABLED ∧ u.m_lock ≠ some lock.address) →
      previouslyLockedBelow K s lock n i = .ok false := by
  intro n
  induction n with
  | zero =>
    intro i _
    rfl
  | succ n ih =>
    intro i hall
    obtain ⟨u, hu, hucd, hul⟩ := hall i (le_refl i) (by omega)
    simp only [previouslyLockedBelow, hu, hucd, hul, if_false]
    exact ih (i + 1) (fun m h1 h2 => hall m (by omega) (by omega))

/-- An index below the depth reads a held entry. -/
theorem getElem?_of_lt_depth (self : LockChecker) (i : Nat)
    (hwf : self.m_currentDepth ≤ self.m_lockStack.length) (hi : i < self.m_currentDepth) :
    ∃ u, self.m_lockStack[i]? = some u ∧ (heldLocks self)[i]? = some u ∧
      u ∈ heldLocks self := by
  have hlen : i < self.m_lockStack.length := by omega
  have h1 : (heldLocks self)[i]? = self.m_lockStack[i]? := by
    unfold heldLocks
    exact List.getElem?_take_of_lt hi
  have h2 : self.m_lockStack[i]? = some (self.m_lockStack[i]) := List.getElem?_eq_getElem hlen
  refine ⟨self.m_lockStack[i], h2, h1.trans h2, ?_⟩
  exact List.getElem?_mem (h1.trans h2)

/-- C10: with the default enabled options (the ordering flag being a non-zero
flag), if the most recently acquired level-specified lock the thread holds has
level `L`, then `AcquiringLock` on a lock of specified level strictly lower than
`L` that is not on the thread's stack fails the out-of-order assertion. -/
theorem acquiringLock_descending_flags (K : LockCheckerConstants) (self : LockChecker)
    (lock : Mutex) (recent : LockTrace)
    (hflag : K.LOCKCHECKER_OPTION_LOCK_ORDERING_ASSERT ≠ 0)
    (hwf : self.m_currentDepth ≤ self.m_lockStack.length)
    (hu32 : self.m_currentDepth < 4294967296)
    (hchecked : ∀ u ∈ heldLocks self, u.m_level ≠ K.LOCK_LEVEL_CHECKING_DISABLED)
    (hrecent : specMostRecentSpecified K self = some recent)
    (hspecified : lock.m_level ≠ K.LOCK_LEVEL_NOT_SPECIFIED)
    (henabled : lock.m_level ≠ K.LOCK_LEVEL_CHECKING_DISABLED)
    (hlower : lock.m_level < recent.m_level)
    (hnotheld : ∀ u ∈ heldLocks self, u.m_lock ≠ some lock.address) :
    AcquiringLock K (enabledOptions K) self lock = some (.assertion .outOfOrder) := by
  unfold specMostRecentSpecified at hrecent
  rw [List.find?_eq_some] at hrecent
  obtain ⟨hpt, as, bs, hrev, has⟩ := hrecent
  have hheld : heldLocks self = bs.reverse ++ recent :: as.reverse := by
    have h := congrArg List.reverse hrev
    simpa using h
  have hlen : (heldLocks self).length = self.m_currentDepth := by
    simp [heldLocks, hwf]
  have hdepth : self.m_currentDepth = bs.length + 1 + as.length := by
    rw [← hlen, hheld]
    simp
    omega
  have hrecentmem : recent ∈ heldLocks self := by
    rw [hheld]; simp
  have hns : recent.m_level ≠ K.LOCK_LEVEL_NOT_SPECIFIED := by
    simpa using hpt
  have hk : self.m_lockStack[bs.length]? = some recent := by
    obtain ⟨u, hu, hu', _⟩ := getElem?_of_lt_depth self bs.length hwf (by omega)
    rw [hheld, List.getElem?_append_right (by simp)] at hu'
    simp at hu'
    rw [hu, hu']
  have habove : ∀ i, bs.length < i → i ≤ bs.length + as.length →
      ∃ u, self.m_lockStack[i]? = some u ∧ u.m_level = K.LOCK_LEVEL_NOT_SPECIFIED ∧
        u.m_level ≠ K.LOCK_LEVEL_CHECKING_DISABLED := by
    intro i h1 h2
    obtain ⟨u, hu, hu', hmem⟩ := getElem?_of_lt_depth self i hwf (by omega)
    refine ⟨u, hu, ?_, hchecked u hmem⟩
    rw [hheld, List.getElem?_append_right (by simp; omega)] at hu'
    obtain ⟨d, hd⟩ : ∃ d, i - bs.reverse.length = d + 1 := ⟨i - bs.length - 1, by simp; omega⟩
    rw [hd, List.getElem?_cons_succ] at hu'
    have hmem' : u ∈ as := List.mem_reverse.mp (List.getElem?_mem hu')
    simpa using has u hmem'
  have hbelow : ∀ m, 0 ≤ m → m < 0 + bs.length →
      ∃ u, self.m_lockStack[m]? = some u ∧ u.m_level ≠ K.LOCK_LEVEL_CHECKING_DISABLED ∧
        u.m_lock ≠ some lock.address := by
    intro m _ h2
    obtain ⟨u, hu, _, hmem⟩ := getElem?_of_lt_depth self m hwf (by omega)
    exact ⟨u, hu, hchecked u hmem, hnotheld u hmem⟩
  have h32 : bs.length + 1 + as.length < 4294967296 := hdepth ▸ hu32
  have hstart : (self.m_currentDepth + 4294967296 - 1) % 4294967296
      = bs.length + as.length := by
    rw [hdepth]
    omega
  have hfind := findRecentEntry_found K self.m_lockStack recent bs.length hk
    (hchecked recent hrecentmem) hns as.length self.m_currentDepth habove (by omega) (by omega)
  have hscan := previouslyLockedBelow_false K self.m_lockStack lock bs.length 0 hbelow
  have hge : ¬ lock.m_level ≥ recent.m_level := not_le.mpr hlower
  simp only [AcquiringLock, hstart, hfind, hk, henabled, hspecified, hge, hscan, if_false]
  simp [enabledOptions_ordering K hflag]

/-- Witness of C10: holding a lock of level 5 and, above it, a lock of
unspecified level, the thread attempts a lock of level 3 that it does not
hold. -/
theorem acquiringLock_descending_flags_witness :
    AcquiringLock sampleLockCheckerConstants (enabledOptions sampleLockCheckerConstants)
        { m_currentDepth := 2, m_maximumDepth := 4,
          m_lockStack := [⟨some 10, 5, 1⟩, ⟨some 11, -1, 1⟩, ⟨none, -1, 0⟩, ⟨none, -1, 0⟩] }
        ⟨12, 3, 0⟩
      = some (.assertion .outOfOrder) :=
  acquiringLock_descending_flags sampleLockCheckerConstants
    { m_currentDepth := 2, m_maximumDepth := 4,
      m_lockStack := [⟨some 10, 5, 1⟩, ⟨some 11, -1, 1⟩, ⟨none, -1, 0⟩, ⟨none, -1, 0⟩] }
    ⟨12, 3, 0⟩ ⟨some 10, 5, 1⟩ (by decide) (by decide) (by decide) (by decide) (by decide)
    (by decide) (by decide) (by decide) (by decide)

end qcc.LockChecker

namespace qcc.LockChecker

/-- The search loop of `ReleasingLock` passes over entries that are not the
lock. -/
theorem releasingLoop_skip (K : LockCheckerConstants) (self : LockChecker) (lock : Mutex)
    (k : Nat)
    (hskip : ∀ m, m < k → ∃ u, self.m_lockStack[m]? = some u ∧
      u.m_level ≠ K.LOCK_LEVEL_CHECKING_DISABLED ∧ u.m_lock ≠ some lock.address) :
    ∀ n i : Nat, i ≤ k → k < i + n →
      releasingLoop K self lock n i = releasingLoop K self lock (n - (k - i)) k := by
  intro n
  induction n with
  | zero =>
    intro i h1 h2
    omega
  | succ n ih =>
    intro i h1 h2
    by_cases h : i = k
    · subst h
      simp
    · obtain ⟨u, hu, hucd, hul⟩ := hskip i (by omega)
      have e : n + 1 - (k - i) = n - (k - (i + 1)) := by omega
      rw [e, ← ih (i + 1) (by omega) (by omega)]
      simp only [releasingLoop, hu, hucd, hul, if_false]

/-- The removal loop of `ReleasingLock` moves the entries above the removed one
down by one, keeping their order; the top entry stays where it was. -/
theorem shiftDown_append (post : List LockTrace) :
    ∀ (pre : List LockTrace) (x : LockTrace) (rest : List LockTrace),
      ∃ y, shiftDown post.length pre.length (pre ++ x :: (post ++ rest))
        = .ok (pre ++ (post ++ y :: rest)) := by
  induction post with
  | nil =>
    intro pre x rest
    exact ⟨x, by simp [shiftDown]⟩
  | cons p ps ih =>
    intro pre x rest
    obtain ⟨y, hy⟩ := ih (pre ++ [p]) p rest
    refine ⟨y, ?_⟩
    have h1 : (pre ++ x :: (p :: ps ++ rest))[pre.length + 1]? = some p := by
      rw [List.getElem?_append_right (by omega)]
      simp
    have h2 : (pre ++ x :: (p :: ps ++ rest)).set pre.length p
        = (pre ++ [p]) ++ p :: (ps ++ rest) := by
      rw [List.set_append_right _ _ (le_refl _)]
      simp
    have h3 : (pre ++ [p]).length = pre.length + 1 := by simp
    simp only [List.length_cons, shiftDown, h1, h2]
    rw [← h3, hy]
    simp

end qcc.LockChecker

namespace qcc.LockChecker

/-- C12: `ReleasingLock` on a lock the thread holds (the stack being
`pre ++ t :: post`, `t` the first entry for the lock, with a positive recursion
count) returns normally and keeps the capacity; if the count was greater than
one, the entry's count is one less and the depth and every other entry are
unchanged; if the count was one, the entry is removed, the entries above it move
down by one in the same order with the same contents, and the depth decreases by
exactly one. -/
theorem releasingLock_held (K : LockCheckerConstants) (self : LockChecker) (lock : Mutex)
    (pre post rest : List LockTrace) (t : LockTrace)
    (hstack : self.m_lockStack = pre ++ t :: (post ++ rest))
    (hdepth : self.m_currentDepth = pre.length + 1 + post.length)
    (hu32 : self.m_currentDepth < 4294967296)
    (henabled : lock.m_level ≠ K.LOCK_LEVEL_CHECKING_DISABLED)
    (hchecked : ∀ u ∈ pre ++ [t], u.m_level ≠ K.LOCK_LEVEL_CHECKING_DISABLED)
    (hfirst : ∀ u ∈ pre, u.m_lock ≠ some lock.address)
    (hlock : t.m_lock = some lock.address)
    (hcount : 0 < t.m_recursionCount) :
    (ReleasingLock K self lock).2 = none ∧
    (ReleasingLock K self lock).1.m_maximumDepth = self.m_maximumDepth ∧
    (1 < t.m_recursionCount →
      heldLocks (ReleasingLock K self lock).1
        = pre ++ ⟨t.m_lock, t.m_level, t.m_recursionCount - 1⟩ :: post ∧
      (ReleasingLock K self lock).1.m_currentDepth = self.m_currentDepth) ∧
    (t.m_recursionCount = 1 →
      heldLocks (ReleasingLock K self lock).1 = pre ++ post ∧
      (ReleasingLock K self lock).1.m_currentDepth + 1 = self.m_currentDepth) := by
  obtain ⟨depth, maxd, stack⟩ := self
  simp only at hstack hdepth hu32
  subst hstack hdepth
  have hskip : ∀ m, m < pre.length → ∃ u, (pre ++ t :: (post ++ rest))[m]? = some u ∧
      u.m_level ≠ K.LOCK_LEVEL_CHECKING_DISABLED ∧ u.m_lock ≠ some lock.address := by
    intro m hm
    refine ⟨pre[m], ?_, hchecked _ ?_, hfirst _ (List.getElem_mem hm)⟩
    · rw [List.getElem?_append_left hm, List.getElem?_eq_getElem hm]
    · exact List.mem_append_left _ (List.getElem_mem hm)
  have htcd : t.m_level ≠ K.LOCK_LEVEL_CHECKING_DISABLED := hchecked t (by simp)
  have hk : (pre ++ t :: (post ++ rest))[pre.length]? = some t := by
    rw [List.getElem?_append_right (le_refl _)]
    simp
  have hset : ∀ t' : LockTrace, (pre ++ t :: (post ++ rest)).set pre.length t'
      = pre ++ t' :: (post ++ rest) := by
    intro t'
    rw [List.set_append_right _ _ (le_refl _)]
    simp
  have hiter : pre.length + 1 + post.length - (pre.length - 0) = post.length + 1 := by omega
  have hlast : (pre.length + 1 + post.length + 4294967296 - 1) % 4294967296
      = pre.length + post.length := by omega
  have hloop := releasingLoop_skip K ⟨pre.length + 1 + post.length, maxd,
    pre ++ t :: (post ++ rest)⟩ lock pre.length hskip (pre.length + 1 + post.length) 0
    (Nat.zero_le _) (by omega)
  rw [hiter] at hloop
  have hpos : ¬ ¬ t.m_recursionCount > 0 := not_not.mpr hcount
  by_cases hone : t.m_recursionCount = 1
  · obtain ⟨y, hy⟩ := shiftDown_append post pre ⟨some lock.address, t.m_level, 0⟩ rest
    have hzero : t.m_recursionCount - 1 = 0 := by omega
    have hsub : pre.length + post.length - pre.length = post.length := by omega
    have hres : ReleasingLock K ⟨pre.length + 1 + post.length, maxd,
        pre ++ t :: (post ++ rest)⟩ lock
        = (⟨pre.length + post.length, maxd, pre ++ (post ++ y :: rest)⟩, none) := by
      simp only [ReleasingLock, henabled, if_false, hloop, releasingLoop, hk, htcd, hlock,
        hpos, hzero, if_true, hlast, hsub, hset, hy]
    rw [hres]
    refine ⟨rfl, rfl, fun h => by omega, fun _ => ⟨?_, by simp only; omega⟩⟩
    simp only [heldLocks]
    rw [← List.append_assoc, ← List.length_append]
    exact List.take_left _ _
  · have hnz : ¬ t.m_recursionCount - 1 = 0 := by omega
    have hres : ReleasingLock K ⟨pre.length + 1 + post.length, maxd,
        pre ++ t :: (post ++ rest)⟩ lock
        = (⟨pre.length + 1 + post.length, maxd,
            pre ++ ⟨some lock.address, t.m_level, t.m_recursionCount - 1⟩ :: (post ++ rest)⟩,
            none) := by
      simp only [ReleasingLock, henabled, if_false, hloop, releasingLoop, hk, htcd, hlock,
        hpos, hnz, if_true, hset]
    rw [hres, hlock]
    refine ⟨rfl, rfl, fun _ => ⟨?_, rfl⟩, fun h => absurd h hone⟩
    simp only [heldLocks]
    have e : pre ++ ⟨some lock.address, t.m_level, t.m_recursionCount - 1⟩ :: (post ++ rest)
        = (pre ++ ⟨some lock.address, t.m_level, t.m_recursionCount - 1⟩ :: post) ++ rest := by
      simp
    rw [e]
    exact List.take_left' (by simp; omega)

end qcc.LockChecker

namespace qcc.LockChecker

/-- The removal loop of `ReleasingLock` fails only by an access outside the
stack. -/
theorem shiftDown_error (n : Nat) :
    ∀ (j : Nat) (s : List LockTrace) (f : Fault),
      shiftDown n j s = .error f → ∃ i, f = .outOfBounds i := by
  induction n with
  | zero =>
    intro j s f h
    simp [shiftDown] at h
  | succ n ih =>
    intro j s f h
    simp only [shiftDown] at h
    cases hs : s[j + 1]? with
    | none =>
      simp only [hs, Except.error.injEq] at h
      exact ⟨_, h.symm⟩
    | some t =>
      simp only [hs] at h
      exact ih _ _ _ h

/-- What the search loop of `ReleasingLock` does at an entry for the lock never
ends with `previouslyLocked = false`, and fails only by the recursion-count
assertion or an access outside the stack. -/
theorem releasingLoop_at_lock (K : LockCheckerConstants) (self : LockChecker) (lock : Mutex)
    (n i : Nat) (u : LockTrace) (hu : self.m_lockStack[i]? = some u)
    (hucd : u.m_level ≠ K.LOCK_LEVEL_CHECKING_DISABLED) (hul : u.m_lock = some lock.address) :
    releasingLoop K self lock (n + 1) i ≠ .ok none ∧
    ∀ f, releasingLoop K self lock (n + 1) i = .error f →
      f ≠ .assertion .lockNotOwned := by
  simp only [releasingLoop, hu, hucd, hul, if_false, if_true]
  by_cases hc : u.m_recursionCount > 0
  · simp only [hc, not_true_eq_false, if_false]
    by_cases hz : u.m_recursionCount - 1 = 0
    · simp only [hz, if_true]
      cases hsd : shiftDown ((self.m_currentDepth + 4294967296 - 1) % 4294967296 - i) i
          (self.m_lockStack.set i ⟨some lock.address, u.m_level, 0⟩) with
      | error f' =>
        obtain ⟨j, hj⟩ := shiftDown_error _ _ _ _ hsd
        subst hj
        simp
      | ok s' => simp
    · simp [hz]
  · simp [hc]

/-- The search loop of `ReleasingLock` never fails by the not-owned
assertion. -/
theorem releasingLoop_error_ne (K : LockCheckerConstants) (self : LockChecker) (lock : Mutex) :
    ∀ (n i : Nat) (f : Fault),
      releasingLoop K self lock n i = .error f → f ≠ .assertion .lockNotOwned := by
  intro n
  induction n with
  | zero =>
    intro i f h
    simp [releasingLoop] at h
  | succ n ih =>
    intro i f h
    cases hu : self.m_lockStack[i]? with
    | none =>
      simp only [releasingLoop, hu, Except.error.injEq] at h
      subst h
      simp
    | some u =>
      by_cases hucd : u.m_level = K.LOCK_LEVEL_CHECKING_DISABLED
      · simp only [releasingLoop, hu, hucd, if_true, Except.error.injEq] at h
        subst h
        simp
      · by_cases hul : u.m_lock = some lock.address
        · exact (releasingLoop_at_lock K self lock n i u hu hucd hul).2 f h
        · simp only [releasingLoop, hu, hucd, hul, if_false] at h
          exact ih _ _ h

/-- Over checked entries, the search loop of `ReleasingLock` ends with
`previouslyLocked = false` exactly when no entry it scans refers to the lock. -/
theorem releasingLoop_none_iff (K : LockCheckerConstants) (self : LockChecker) (lock : Mutex) :
    ∀ n i : Nat,
      (∀ m, i ≤ m → m < i + n → ∃ u, self.m_lockStack[m]? = some u ∧
        u.m_level ≠ K.LOCK_LEVEL_CHECKING_DISABLED) →
      (releasingLoop K self lock n i = .ok none ↔
        ∀ m, i ≤ m → m < i + n → ∀ u, self.m_lockStack[m]? = some u →
          u.m_lock ≠ some lock.address) := by
  intro n
  induction n with
  | zero =>
    intro i _
    simp only [releasingLoop, true_iff]
    intro m h1 h2
    omega
  | succ n ih =>
    intro i hall
    obtain ⟨u, hu, hucd⟩ := hall i (le_refl i) (by omega)
    by_cases hul : u.m_lock = some lock.address
    · constructor
      · intro h
        exact absurd h (releasingLoop_at_lock K self lock n i u hu hucd hul).1
      · intro h
        exact absurd hul (h i (le_refl i) (by omega) u hu)
    · have hstep : releasingLoop K self lock (n + 1) i = releasingLoop K self lock n (i + 1) := by
        simp only [releasingLoop, hu, hucd, hul, if_false]
      rw [hstep, ih (i + 1) (fun m h1 h2 => hall m (by omega) (by omega))]
      constructor
      · intro h m h1 h2 v hv
        by_cases hm : m = i
        · subst hm
          rw [hu] at hv
          cases hv
          exact hul
        · exact h m (by omega) (by omega) v hv
      · intro h m h1 h2
        exact h m (by omega) (by omega)

/-- The held entries are the entries at the indices below the depth. -/
theorem forall_heldLocks_iff (self : LockChecker) (p : LockTrace → Prop) :
    (∀ u ∈ heldLocks self, p u) ↔
      ∀ m, m < self.m_currentDepth → ∀ u, self.m_lockStack[m]? = some u → p u := by
  constructor
  · intro h m hm u hu
    apply h
    apply List.getElem?_mem (n := m)
    unfold heldLocks
    rw [List.getElem?_take_of_lt hm]
    exact hu
  · intro h u hu
    obtain ⟨m, hm⟩ := List.mem_iff_getElem?.mp hu
    unfold heldLocks at hm
    rw [List.getElem?_take] at hm
    by_cases hlt : m < self.m_currentDepth
    · rw [if_pos hlt] at hm
      exact h m hlt u hm
    · rw [if_neg hlt] at hm
      cases hm

/-- C13: on a well-formed stack of checked locks, `ReleasingLock` fails the
"doesn't own the lock" assertion if and only if no stack entry refers to the
lock, and in that case the checker is left as it was. -/
theorem releasingLock_not_owned_iff (K : LockCheckerConstants) (self : LockChecker)
    (lock : Mutex)
    (hwf : self.m_currentDepth ≤ self.m_lockStack.length)
    (henabled : lock.m_level ≠ K.LOCK_LEVEL_CHECKING_DISABLED)
    (hchecked : ∀ u ∈ heldLocks self, u.m_level ≠ K.LOCK_LEVEL_CHECKING_DISABLED) :
    ((ReleasingLock K self lock).2 = some (.assertion .lockNotOwned) ↔
      ∀ u ∈ heldLocks self, u.m_lock ≠ some lock.address) ∧
    ((ReleasingLock K self lock).2 = some (.assertion .lockNotOwned) →
      (ReleasingLock K self lock).1 = self) := by
  have hall : ∀ m, 0 ≤ m → m < 0 + self.m_currentDepth →
      ∃ u, self.m_lockStack[m]? = some u ∧ u.m_level ≠ K.LOCK_LEVEL_CHECKING_DISABLED := by
    intro m _ hm
    obtain ⟨u, hu, _, hmem⟩ := getElem?_of_lt_depth self m hwf (by omega)
    exact ⟨u, hu, hchecked u hmem⟩
  have hiff := releasingLoop_none_iff K self lock self.m_currentDepth 0 hall
  have hheld : (∀ u ∈ heldLocks self, u.m_lock ≠ some lock.address) ↔
      ∀ m, 0 ≤ m → m < 0 + self.m_currentDepth → ∀ u, self.m_lockStack[m]? = some u →
        u.m_lock ≠ some lock.address := by
    rw [forall_heldLocks_iff]
    constructor
    · intro h m _ hm
      exact h m (by omega)
    · intro h m hm
      exact h m (Nat.zero_le m) (by omega)
  rw [hheld, ← hiff]
  cases hloop : releasingLoop K self lock self.m_currentDepth 0 with
  | error f =>
    have hne := releasingLoop_error_ne K self lock _ _ f hloop
    simp [ReleasingLock, henabled, hloop, hne]
  | ok o =>
    cases o with
    | none => simp [ReleasingLock, henabled, hloop]
    | some st => simp [ReleasingLock, henabled, hloop]

end qcc.LockChecker

namespace qcc.LockChecker

/-- When the first loop of `AcquiringLock` finds an entry, the entry has a
specified level and every entry it passed over has not. -/
theorem findRecentEntry_ok_true (K : LockCheckerConstants) (s : List LockTrace) :
    ∀ n r0 r : Nat, n ≤ r0 + 1 → r0 < 4294967296 →
      findRecentEntry K s n r0 = .ok (true, r) →
      r ≤ r0 ∧ r0 < r + n ∧
      (∃ t, s[r]? = some t ∧ t.m_level ≠ K.LOCK_LEVEL_NOT_SPECIFIED) ∧
      ∀ i, r < i → i ≤ r0 → ∃ u, s[i]? = some u ∧ u.m_level = K.LOCK_LEVEL_NOT_SPECIFIED := by
  intro n
  induction n with
  | zero =>
    intro r0 r _ _ h
    simp [findRecentEntry] at h
  | succ n ih =>
    intro r0 r hn hr0 h
    cases hu : s[r0]? with
    | none => simp [findRecentEntry, hu] at h
    | some u =>
      by_cases hucd : u.m_level = K.LOCK_LEVEL_CHECKING_DISABLED
      · simp [findRecentEntry, hu, hucd] at h
      · by_cases huns : u.m_level = K.LOCK_LEVEL_NOT_SPECIFIED
        · have hnc : ¬ K.LOCK_LEVEL_NOT_SPECIFIED = K.LOCK_LEVEL_CHECKING_DISABLED := by
            rw [← huns]; exact hucd
          simp only [findRecentEntry, hu, huns, hnc, if_false, ne_eq, not_true_eq_false] at h
          cases n with
          | zero => simp [findRecentEntry] at h
          | succ n =>
            have hstep : (r0 + 4294967296 - 1) % 4294967296 = r0 - 1 := by omega
            rw [hstep] at h
            obtain ⟨h1, h2, h3, h4⟩ := ih (r0 - 1) r (by omega) (by omega) h
            refine ⟨by omega, by omega, h3, ?_⟩
            intro i hi1 hi2
            by_cases hi : i = r0
            · subst hi
              exact ⟨u, hu, huns⟩
            · exact h4 i hi1 (by omega)
        · simp only [findRecentEntry, hu, hucd, huns, if_false, ne_eq, not_false_eq_true,
            if_true, Except.ok.injEq, Prod.mk.injEq, true_and] at h
          subst h
          exact ⟨le_refl _, by omega, ⟨u, hu, huns⟩, fun i h1 h2 => by omega⟩

/-- The first loop of `AcquiringLock` never fails by the out-of-order
assertion. -/
theorem findRecentEntry_error_ne (K : LockCheckerConstants) (s : List LockTrace) :
    ∀ (n r0 : Nat) (f : Fault),
      findRecentEntry K s n r0 = .error f → f ≠ .assertion .outOfOrder := by
  intro n
  induction n with
  | zero =>
    intro r0 f h
    simp [findRecentEntry] at h
  | succ n ih =>
    intro r0 f h
    cases hu : s[r0]? with
    | none =>
      simp only [findRecentEntry, hu, Except.error.injEq] at h
      subst h
      simp
    | some u =>
      by_cases hucd : u.m_level = K.LOCK_LEVEL_CHECKING_DISABLED
      · simp only [findRecentEntry, hu, hucd, if_true, Except.error.injEq] at h
        subst h
        simp
      · by_cases huns : u.m_level = K.LOCK_LEVEL_NOT_SPECIFIED
        · have hnc : ¬ K.LOCK_LEVEL_NOT_SPECIFIED = K.LOCK_LEVEL_CHECKING_DISABLED := by
            rw [← huns]; exact hucd
          simp only [findRecentEntry, hu, huns, hnc, if_false, ne_eq, not_true_eq_false] at h
          exact ih _ _ h
        · simp [findRecentEntry, hu, hucd, huns] at h

/-- The second loop of `AcquiringLock` never fails by the out-of-order
assertion. -/
theorem previouslyLockedBelow_error_ne (K : LockCheckerConstants) (s : List LockTrace)
    (lock : Mutex) :
    ∀ (n i : Nat) (f : Fault),
      previouslyLockedBelow K s lock n i = .error f → f ≠ .assertion .outOfOrder := by
  intro n
  induction n with
  | zero =>
    intro i f h
    simp [previouslyLockedBelow] at h
  | succ n ih =>
    intro i f h
    cases hu : s[i]? with
    | none =>
      simp only [previouslyLockedBelow, hu, Except.error.injEq] at h
      subst h
      simp
    | some u =>
      by_cases hucd : u.m_level = K.LOCK_LEVEL_CHECKING_DISABLED
      · simp only [previouslyLockedBelow, hu, hucd, if_true, Except.error.injEq] at h
        subst h
        simp
      · by_cases hul : u.m_lock = some lock.address
        · simp [previouslyLockedBelow, hu, hucd, hul] at h
        · simp only [previouslyLockedBelow, hu, hucd, hul, if_false] at h
          exact ih _ _ h

/-- The second loop of `AcquiringLock`, when one of the entries it scans is the
lock, does not end with `previouslyLocked = false`. -/
theorem previouslyLockedBelow_of_held (K : LockCheckerConstants) (s : List LockTrace)
    (lock : Mutex) :
    ∀ n i : Nat,
      (∃ m, i ≤ m ∧ m < i + n ∧ ∃ u, s[m]? = some u ∧ u.m_lock = some lock.address) →
      previouslyLockedBelow K s lock n i ≠ .ok false := by
  intro n
  induction n with
  | zero =>
    rintro i ⟨m, h1, h2, _⟩
    omega
  | succ n ih =>
    rintro i ⟨m, h1, h2, u, hu, hul⟩
    cases hv : s[i]? with
    | none => simp [previouslyLockedBelow, hv]
    | some v =>
      by_cases hvcd : v.m_level = K.LOCK_LEVEL_CHECKING_DISABLED
      · simp [previouslyLockedBelow, hv, hvcd]
      · by_cases hvl : v.m_lock = some lock.address
        · simp [previouslyLockedBelow, hv, hvcd, hvl]
        · simp only [previouslyLockedBelow, hv, hvcd, hvl, if_false]
          apply ih
          have hne : m ≠ i := by
            intro e
            subst e
            rw [hv] at hu
            cases hu
            exact hvl hul
          exact ⟨m, by omega, by omega, u, hu, hul⟩

end qcc.LockChecker

namespace qcc.LockChecker

/-- The entry at index `r`, of specified level, with only entries of unspecified
level above it up to the depth, is the most recently acquired level-specified
lock. -/
theorem specMostRecentSpecified_of_index (K : LockCheckerConstants) (self : LockChecker)
    (r : Nat) (t : LockTrace) (hr : r < self.m_currentDepth)
    (ht : self.m_lockStack[r]? = some t) (hns : t.m_level ≠ K.LOCK_LEVEL_NOT_SPECIFIED)
    (habove : ∀ i, r < i → i < self.m_currentDepth →
      ∃ u, self.m_lockStack[i]? = some u ∧ u.m_level = K.LOCK_LEVEL_NOT_SPECIFIED) :
    specMostRecentSpecified K self = some t := by
  have hheld : (heldLocks self)[r]? = some t := by
    unfold heldLocks
    rw [List.getElem?_take_of_lt hr]
    exact ht
  obtain ⟨hlen, hget⟩ := List.getElem?_eq_some.mp hheld
  unfold specMostRecentSpecified
  rw [List.find?_eq_some]
  refine ⟨by simpa using hns, ((heldLocks self).drop (r + 1)).reverse,
    ((heldLocks self).take r).reverse, ?_, ?_⟩
  · have h := List.take_append_drop r (heldLocks self)
    rw [List.drop_eq_getElem_cons hlen, hget] at h
    conv_lhs => rw [← h]
    simp
  · intro a ha
    rw [List.mem_reverse] at ha
    obtain ⟨j, hj⟩ := List.mem_iff_getElem?.mp ha
    rw [List.getElem?_drop] at hj
    unfold heldLocks at hj
    rw [List.getElem?_take] at hj
    by_cases hlt : r + 1 + j < self.m_currentDepth
    · rw [if_pos hlt] at hj
      obtain ⟨u, hu, huns⟩ := habove (r + 1 + j) (by omega) hlt
      rw [hu] at hj
      cases hj
      simp [huns]
    · rw [if_neg hlt] at hj
      cases hj

/-- C11: `AcquiringLock` (under any options) does not fail the out-of-order
assertion when the lock's level is greater than or equal to the level of the
most recently acquired level-specified lock, nor when the thread already holds
the lock (an entry of the stack refers to it, recorded with the lock's
level). -/
theorem acquiringLock_ascending_or_held_not_flagged (K : LockCheckerConstants)
    (options : Nat) (self : LockChecker) (lock : Mutex)
    (hu32 : self.m_currentDepth < 4294967296)
    (h : (∀ t, specMostRecentSpecified K self = some t → lock.m_level ≥ t.m_level) ∨
      (∃ u ∈ heldLocks self, u.m_lock = some lock.address ∧ u.m_level = lock.m_level)) :
    AcquiringLock K options self lock ≠ some (.assertion .outOfOrder) := by
  unfold AcquiringLock
  cases hfind : findRecentEntry K self.m_lockStack self.m_currentDepth
      ((self.m_currentDepth + 4294967296 - 1) % 4294967296) with
  | error f =>
    have hne := findRecentEntry_error_ne K _ _ _ f hfind
    simpa using hne
  | ok br =>
    obtain ⟨b, r⟩ := br
    cases b with
    | false => simp
    | true =>
      have hpos : self.m_currentDepth ≠ 0 := by
        intro h0
        rw [h0] at hfind
        simp [findRecentEntry] at hfind
      have hstart : (self.m_currentDepth + 4294967296 - 1) % 4294967296
          = self.m_currentDepth - 1 := by omega
      rw [hstart] at hfind
      obtain ⟨hr1, _, ⟨t, ht, hns⟩, habove⟩ :=
        findRecentEntry_ok_true K _ _ _ r (by omega) (by omega) hfind
      have hrecent : specMostRecentSpecified K self = some t :=
        specMostRecentSpecified_of_index K self r t (by omega) ht hns
          (fun i h1 h2 => habove i h1 (by omega))
      simp only [ht]
      by_cases hcd : lock.m_level = K.LOCK_LEVEL_CHECKING_DISABLED
      · simp [hcd]
      · by_cases hlns : lock.m_level = K.LOCK_LEVEL_NOT_SPECIFIED
        · have hnc : ¬ K.LOCK_LEVEL_NOT_SPECIFIED = K.LOCK_LEVEL_CHECKING_DISABLED := by
            rw [← hlns]; exact hcd
          simp only [hlns, hnc, if_false, if_true]
          split_ifs <;> simp
        · by_cases hge : lock.m_level ≥ t.m_level
          · simp [hcd, hlns, hge]
          · simp only [hcd, hlns, hge, if_false]
            rcases h with h | ⟨u, hmem, hul, hulevel⟩
            · exact absurd (h t hrecent) hge
            · obtain ⟨m, hm⟩ := List.mem_iff_getElem?.mp hmem
              unfold heldLocks at hm
              rw [List.getElem?_take] at hm
              have hmlt : m < self.m_currentDepth := by
                by_contra hcon
                rw [if_neg hcon] at hm
                cases hm
              rw [if_pos hmlt] at hm
              have hmr : m < r := by
                by_contra hcon
                by_cases hmeq : m = r
                · subst hmeq
                  rw [ht] at hm
                  cases hm
                  exact hge (le_of_eq hulevel)
                · obtain ⟨v, hv, hvns⟩ := habove m (by omega) (by omega)
                  rw [hv] at hm
                  cases hm
                  exact hlns (hulevel ▸ hvns)
              have hscan := previouslyLockedBelow_of_held K self.m_lockStack lock r 0
                ⟨m, Nat.zero_le m, by omega, u, hm, hul⟩
              cases hprev : previouslyLockedBelow K self.m_lockStack lock r 0 with
              | error f =>
                have hne := previouslyLockedBelow_error_ne K _ lock _ _ f hprev
                simpa using hne
              | ok pl =>
                cases pl with
                | false => exact absurd hprev hscan
                | true => simp

end qcc.LockChecker

namespace qcc.LockChecker

/-- The search loop of `LockAcquired` passes over entries that are not the
lock. -/
theorem acquiredLoop_skip (K : LockCheckerConstants) (options : Nat) (self : LockChecker)
    (lock : Mutex) (k : Nat)
    (hskip : ∀ m, m < k → ∃ u, self.m_lockStack[m]? = some u ∧
      u.m_level ≠ K.LOCK_LEVEL_CHECKING_DISABLED ∧ u.m_lock ≠ some lock.address) :
    ∀ n i : Nat, i ≤ k → k ≤ i + n →
      acquiredLoop K options self lock n i = acquiredLoop K options self lock (n - (k - i)) k := by
  intro n
  induction n with
  | zero =>
    intro i h1 h2
    have h : i = k := by omega
    subst h
    simp
  | succ n ih =>
    intro i h1 h2
    by_cases h : i = k
    · subst h
      simp
    · obtain ⟨u, hu, hucd, hul⟩ := hskip i (by omega)
      have e : n + 1 - (k - i) = n - (k - (i + 1)) := by omega
      rw [e, ← ih (i + 1) (by omega) (by omega)]
      simp only [acquiredLoop, hu, hucd, hul, if_false]

/-- The copy loop of the stack growth copies the old stack over the start of the
new one. -/
theorem copyStack_append (todo : List LockTrace) :
    ∀ (done pad tail : List LockTrace), pad.length = todo.length →
      copyStack (done ++ todo) todo.length done.length (done ++ (pad ++ tail))
        = .ok (done ++ (todo ++ tail)) := by
  induction todo with
  | nil =>
    intro done pad tail hpad
    have : pad = [] := List.length_eq_zero.mp hpad
    subst this
    simp [copyStack]
  | cons x xs ih =>
    intro done pad tail hpad
    cases pad with
    | nil => simp at hpad
    | cons p ps =>
      have h1 : (done ++ x :: xs)[done.length]? = some x := by
        rw [List.getElem?_append_right (le_refl _)]
        simp
      have h2 : done.length < (done ++ (p :: ps ++ tail)).length := by
        simp
      have h3 : (done ++ (p :: ps ++ tail)).set done.length x
          = (done ++ [x]) ++ (ps ++ tail) := by
        rw [List.set_append_right _ _ (le_refl _)]
        simp
      have h4 : (done ++ [x]).length = done.length + 1 := by simp
      have h5 : done ++ x :: xs = (done ++ [x]) ++ xs := by simp
      simp only [List.length_cons, copyStack, h1, h2, if_true, h3]
      rw [← h4, h5, ih (done ++ [x]) ps tail (by simpa using hpad)]
      simp

/-- Writing at the depth extends the held entries by the written entry. -/
theorem take_succ_set (s : List LockTrace) (d : Nat) (x : LockTrace) (hd : d < s.length) :
    (s.set d x).take (d + 1) = s.take d ++ [x] := by
  have h := List.take_append_drop d s
  rw [List.drop_eq_getElem_cons hd] at h
  have hlen : (s.take d).length = d := by simp; omega
  conv_lhs => rw [← h]
  rw [List.set_append_right _ _ (by omega)]
  simp only [hlen, Nat.sub_self, List.set_cons_zero]
  have e : List.take d s ++ x :: List.drop (d + 1) s
      = (List.take d s ++ [x]) ++ List.drop (d + 1) s := by simp
  rw [e]
  exact List.take_left' (by simp; omega)

end qcc.LockChecker

namespace qcc.LockChecker

/-- Witness of C11: holding a lock of level 3 and above it a lock of level 5,
the thread re-acquires the lock of level 3. -/
theorem acquiringLock_ascending_or_held_not_flagged_witness :
    AcquiringLock sampleLockCheckerConstants (enabledOptions sampleLockCheckerConstants)
        ⟨2, 4, [⟨some 12, 3, 1⟩, ⟨some 11, 5, 1⟩, ⟨none, -1, 0⟩, ⟨none, -1, 0⟩]⟩ ⟨12, 3, 1⟩
      ≠ some (.assertion .outOfOrder) :=
  acquiringLock_ascending_or_held_not_flagged sampleLockCheckerConstants
    (enabledOptions sampleLockCheckerConstants)
    ⟨2, 4, [⟨some 12, 3, 1⟩, ⟨some 11, 5, 1⟩, ⟨none, -1, 0⟩, ⟨none, -1, 0⟩]⟩ ⟨12, 3, 1⟩
    (by decide) (Or.inr ⟨⟨some 12, 3, 1⟩, by decide, rfl, rfl⟩)

/-- Witness of C12: of three held locks the middle one, held once, is
released. -/
theorem releasingLock_held_witness :
    heldLocks (ReleasingLock sampleLockCheckerConstants
        ⟨3, 4, [⟨some 10, 5, 2⟩, ⟨some 11, 6, 1⟩, ⟨some 12, 7, 1⟩, ⟨none, -1, 0⟩]⟩
        ⟨11, 6, 1⟩).1
      = [⟨some 10, 5, 2⟩, ⟨some 12, 7, 1⟩] :=
  ((releasingLock_held sampleLockCheckerConstants
    ⟨3, 4, [⟨some 10, 5, 2⟩, ⟨some 11, 6, 1⟩, ⟨some 12, 7, 1⟩, ⟨none, -1, 0⟩]⟩ ⟨11, 6, 1⟩
    [⟨some 10, 5, 2⟩] [⟨some 12, 7, 1⟩] [⟨none, -1, 0⟩] ⟨some 11, 6, 1⟩
    rfl rfl (by decide) (by decide) (by decide) (by decide) rfl (by decide)).2.2.2 rfl).1

/-- Witness of C13: a lock that is not among the three held ones is
released. -/
theorem releasingLock_not_owned_iff_witness :
    (ReleasingLock sampleLockCheckerConstants
        ⟨3, 4, [⟨some 10, 5, 2⟩, ⟨some 11, 6, 1⟩, ⟨some 12, 7, 1⟩, ⟨none, -1, 0⟩]⟩
        ⟨99, 7, 0⟩).2
      = some (.assertion .lockNotOwned) :=
  (releasingLock_not_owned_iff sampleLockCheckerConstants
    ⟨3, 4, [⟨some 10, 5, 2⟩, ⟨some 11, 6, 1⟩, ⟨some 12, 7, 1⟩, ⟨none, -1, 0⟩]⟩ ⟨99, 7, 0⟩
    (by decide) (by decide) (by decide)).1.mpr (by decide)

end qcc.LockChecker

namespace ajn.AsyncTracker

open QStatus

/-- The loop of `Trigger` over a list without the context finds nothing and
changes nothing. -/
theorem triggerLoop_not_mem (context : Nat) (accept : Bool) (credentials : Option Credentials)
    (heap : Nat → AuthContext) :
    ∀ l : List Nat, context ∉ l →
      triggerLoop context accept credentials heap l = (false, l, heap) := by
  intro l
  induction l with
  | nil => intro _; rfl
  | cons it rest ih =>
    intro h
    have h1 : ¬ it = context := fun e => h (e ▸ List.mem_cons_self _ _)
    have h2 : context ∉ rest := fun e => h (List.mem_cons_of_mem _ e)
    simp only [triggerLoop, h1, if_false, ih h2]

/-- The loop of `Trigger` over a list with the context erases its first
occurrence and touches only that context object. -/
theorem triggerLoop_mem (context : Nat) (accept : Bool) (credentials : Option Credentials)
    (heap : Nat → AuthContext) :
    ∀ l : List Nat, context ∈ l →
      (triggerLoop context accept credentials heap l).1 = true ∧
      (triggerLoop context accept credentials heap l).2.1 = l.erase context ∧
      ((triggerLoop context accept credentials heap l).2.2 context).accept = accept ∧
      ((triggerLoop context accept credentials heap l).2.2 context).event = true ∧
      ((triggerLoop context accept credentials heap l).2.2 context).listener
        = (heap context).listener ∧
      ∀ c, c ≠ context → (triggerLoop context accept credentials heap l).2.2 c = heap c := by
  intro l
  induction l with
  | nil => intro h; cases h
  | cons it rest ih =>
    intro h
    by_cases h1 : it = context
    · subst h1
      simp only [triggerLoop, if_true, List.erase_cons_head, Function.update_same, true_and]
      refine ⟨?_, ?_, fun c hc => Function.update_noteq hc _ _⟩
      · split_ifs <;> rfl
      · split_ifs <;> rfl
    · have h2 : context ∈ rest := by
        rcases List.mem_cons.mp h with e | e
        · exact absurd e.symm h1
        · exact e
      obtain ⟨i1, i2, i3, i4, i5, i6⟩ := ih h2
      have hne : ¬ (it == context) = true := by simpa using h1
      simp only [triggerLoop, h1, if_false, List.erase_cons_tail hne]
      exact ⟨i1, by rw [i2], i3, i4, i5, i6⟩

end ajn.AsyncTracker

namespace ajn.AuthListener

open QStatus AsyncTracker

/-- C14: `Trigger` returns true exactly when the context is in the registry; it
then removes that context from the registry (the others stay, in order),
records `accept` in the context, sets its event and touches no other context;
for a context that is not registered it returns false and changes nothing; so
`RequestCredentialsResponse` and `VerifyCredentialsResponse` return `ER_OK` in
the first case and `ER_TIMEOUT` in the second; and in a registry without
repetition the context is no longer registered after a `Trigger`, so a second
completion returns false. -/
theorem trigger_completes_once (self : AsyncTracker) (context : Nat) (accept : Bool)
    (credentials : Option Credentials) (supplied : Credentials) :
    ((Trigger self context accept credentials).1 = true ↔ context ∈ self.contexts) ∧
    (context ∈ self.contexts →
      (Trigger self context accept credentials).2.contexts = self.contexts.erase context ∧
      ((Trigger self context accept credentials).2.heap context).accept = accept ∧
      ((Trigger self context accept credentials).2.heap context).event = true ∧
      ∀ c, c ≠ context → (Trigger self context accept credentials).2.heap c = self.heap c) ∧
    (context ∉ self.contexts →
      (Trigger self context accept credentials).1 = false ∧
      (Trigger self context accept credentials).2 = self) ∧
    (RequestCredentialsResponse self context accept supplied).1
      = (if context ∈ self.contexts then ER_OK else ER_TIMEOUT) ∧
    (VerifyCredentialsResponse self context accept).1
      = (if context ∈ self.contexts then ER_OK else ER_TIMEOUT) ∧
    (self.contexts.Nodup →
      context ∉ (Trigger self context accept credentials).2.contexts ∧
      ∀ accept2 credentials2,
        (Trigger (Trigger self context accept credentials).2 context accept2 credentials2).1
          = false) := by
  have hfound : ∀ creds : Option Credentials,
      ((Trigger self context accept creds).1 = true ↔ context ∈ self.contexts) := by
    intro creds
    by_cases hm : context ∈ self.contexts
    · simp [Trigger, (triggerLoop_mem context accept creds self.heap _ hm).1, hm]
    · simp [Trigger, triggerLoop_not_mem context accept creds self.heap _ hm, hm]
  have hnot : ∀ (s : AsyncTracker) (a : Bool) (creds : Option Credentials),
      context ∉ s.contexts → (Trigger s context a creds).1 = false ∧
        (Trigger s context a creds).2 = s := by
    intro s a creds hm
    simp [Trigger, triggerLoop_not_mem context a creds s.heap _ hm]
  refine ⟨hfound credentials, ?_, hnot self accept credentials, ?_, ?_, ?_⟩
  · intro hm
    obtain ⟨_, i2, i3, i4, _, i6⟩ := triggerLoop_mem context accept credentials self.heap _ hm
    exact ⟨i2, i3, i4, i6⟩
  · by_cases hm : context ∈ self.contexts
    · have h := (hfound (some supplied)).mpr hm
      simp [RequestCredentialsResponse, h, hm]
    · have h := (hnot self accept (some supplied) hm).1
      simp [RequestCredentialsResponse, h, hm]
  · by_cases hm : context ∈ self.contexts
    · have h := (hfound none).mpr hm
      simp [VerifyCredentialsResponse, h, hm]
    · have h := (hnot self accept none hm).1
      simp [VerifyCredentialsResponse, h, hm]
  · intro hnodup
    have hgone : context ∉ (Trigger self context accept credentials).2.contexts := by
      by_cases hm : context ∈ self.contexts
      · have h := (triggerLoop_mem context accept credentials self.heap _ hm).2.1
        simp only [Trigger, h]
        exact hnodup.not_mem_erase
      · rw [(hnot self accept credentials hm).2]
        exact hm
    exact ⟨hgone, fun a2 c2 => (hnot _ a2 c2 hgone).1⟩

end ajn.AuthListener

namespace ajn.AsyncTracker

/-- The loop of `RemoveAll`: the contexts of other listeners stay, in order; a
context object is changed exactly when it is in the list and belongs to the
listener, and then to rejected and signalled. -/
theorem removeAllLoop_spec (listener : Nat) :
    ∀ (l : List Nat) (heap : Nat → AuthContext),
      (removeAllLoop listener heap l).1
        = l.filter (fun c => decide ((heap c).listener ≠ listener)) ∧
      ∀ c, (removeAllLoop listener heap l).2 c
        = if c ∈ l ∧ (heap c).listener = listener then
            ⟨(heap c).listener, false, (heap c).credentials, true⟩
          else heap c := by
  intro l
  induction l with
  | nil =>
    intro heap
    simp [removeAllLoop]
  | cons x rest ih =>
    intro heap
    by_cases hx : (heap x).listener = listener
    · have hl : ∀ c, (Function.update heap x
          ⟨(heap x).listener, false, (heap x).credentials, true⟩ c).listener
          = (heap c).listener := by
        intro c
        by_cases hc : c = x
        · subst hc
          simp
        · simp [Function.update_noteq hc]
      obtain ⟨ih1, ih2⟩ := ih (Function.update heap x
        ⟨(heap x).listener, false, (heap x).credentials, true⟩)
      have hstep : removeAllLoop listener heap (x :: rest)
          = removeAllLoop listener (Function.update heap x
              ⟨(heap x).listener, false, (heap x).credentials, true⟩) rest := by
        simp only [removeAllLoop, hx, if_true]
      rw [hstep]
      constructor
      · have hf : (fun c => decide ((Function.update heap x
            ⟨(heap x).listener, false, (heap x).credentials, true⟩ c).listener ≠ listener))
            = fun c => decide ((heap c).listener ≠ listener) := by
          funext c
          rw [hl c]
        rw [ih1, hf]
        simp [List.filter_cons, hx]
      · intro c
        rw [ih2 c, hl c]
        by_cases hc : c = x
        · subst hc
          simp only [Function.update_same, List.mem_cons, true_or, true_and, hx, and_true]
          split_ifs <;> rfl
        · simp only [Function.update_noteq hc, List.mem_cons, hc, false_or]
    · obtain ⟨ih1, ih2⟩ := ih heap
      simp only [removeAllLoop, hx, if_false]
      constructor
      · rw [ih1]
        simp [List.filter_cons, hx]
      · intro c
        rw [ih2 c]
        by_cases hc : c = x
        · subst hc
          simp [hx]
        · simp [hc]

/-- C15: after `RemoveAll(listener)` the registry holds exactly the contexts of
the other listeners, in the same relative order; every context that was
registered for the listener has `accept = false`, its event set, and is no
longer registered; every context of another listener is untouched, and
registered if it was. -/
theorem removeAll_rejects_and_releases (self : AsyncTracker) (listener : Nat) :
    (RemoveAll self listener).contexts
      = self.contexts.filter (fun c => decide ((self.heap c).listener ≠ listener)) ∧
    (∀ c ∈ self.contexts, (self.heap c).listener = listener →
      ((RemoveAll self listener).heap c).accept = false ∧
      ((RemoveAll self listener).heap c).event = true ∧
      c ∉ (RemoveAll self listener).contexts) ∧
    (∀ c, (self.heap c).listener ≠ listener →
      (RemoveAll self listener).heap c = self.heap c ∧
      (c ∈ self.contexts → c ∈ (RemoveAll self listener).contexts)) := by
  obtain ⟨h1, h2⟩ := removeAllLoop_spec listener self.contexts self.heap
  refine ⟨h1, ?_, ?_⟩
  · intro c hc hl
    have e : (RemoveAll self listener).heap c
        = ⟨(self.heap c).listener, false, (self.heap c).credentials, true⟩ := by
      simp only [RemoveAll, h2 c, hc, hl, and_self, if_true]
    refine ⟨by rw [e], by rw [e], ?_⟩
    simp only [RemoveAll, h1, List.mem_filter, hl, ne_eq, not_true_eq_false, decide_False,
      and_false, not_false_eq_true]
    simp
  · intro c hl
    refine ⟨?_, ?_⟩
    · simp only [RemoveAll, h2 c, hl, and_false, if_false]
    · intro hc
      simp only [RemoveAll, h1, List.mem_filter, hc, true_and]
      simpa using hl

end ajn.AsyncTracker

namespace ajn.ProtectedAuthListener

open QStatus AsyncTracker

/-- C16: with an active listener whose asynchronous entry point returns `ER_OK`,
`RequestCredentials` and `VerifyCredentials` return true exactly when the wait
on the context's event returned `ER_OK` and the context's accept flag is then
true; if the wait does not return `ER_OK` they return false whatever the flag;
the one wait they make is on the context of the call with the timeout
`ASYNC_AUTH_TIMEOUT`, which is 120000 ms. -/
theorem async_request_needs_wait_and_accept (L : AuthListenerOps)
    (self : ProtectedAuthListener) (tracker : AsyncTracker) (request : CredentialsRequest)
    (authMechanism peerName : String) (credentials : Credentials) (authListener context : Nat)
    (hl : self.listener = some authListener) (hctx : context = L.newAuthContext tracker) :
    (∀ a w,
      a = L.RequestCredentialsAsync authListener request context
            (Allocate tracker context authListener (some credentials)) →
      w = L.Wait context 120000 a.2 → a.1 = ER_OK →
      ((RequestCredentials L self tracker request credentials).ok = true ↔
        w.1 = ER_OK ∧ (w.2.heap context).accept = true) ∧
      (w.1 ≠ ER_OK → (RequestCredentials L self tracker request credentials).ok = false) ∧
      (RequestCredentials L self tracker request credentials).events
        = [.asyncCall authListener context, .wait context 120000]) ∧
    (∀ a w,
      a = L.VerifyCredentialsAsync authListener authMechanism peerName credentials context
            (Allocate tracker context authListener none) →
      w = L.Wait context 120000 a.2 → a.1 = ER_OK →
      ((VerifyCredentials L self tracker authMechanism peerName credentials).ok = true ↔
        w.1 = ER_OK ∧ (w.2.heap context).accept = true) ∧
      (w.1 ≠ ER_OK →
        (VerifyCredentials L self tracker authMechanism peerName credentials).ok = false) ∧
      (VerifyCredentials L self tracker authMechanism peerName credentials).events
        = [.asyncCall authListener context, .wait context 120000]) ∧
    ASYNC_AUTH_TIMEOUT = 120000 := by
  have ht : ASYNC_AUTH_TIMEOUT = 120000 := by decide
  refine ⟨?_, ?_, ht⟩
  · intro a w ha hw hok
    subst ha hw hctx
    simp only [RequestCredentials, hl, hok, ht, ne_eq, not_true_eq_false, if_false,
      Bool.and_eq_true, beq_iff_eq, List.singleton_append, true_and]
    refine ⟨fun h => ?_, trivial⟩
    simp [h]
  · intro a w ha hw hok
    subst ha hw hctx
    simp only [VerifyCredentials, hl, hok, ht, ne_eq, not_true_eq_false, if_false,
      Bool.and_eq_true, beq_iff_eq, List.singleton_append, true_and]
    refine ⟨fun h => ?_, trivial⟩
    simp [h]

/-- Witness of C16: the sample listener, whose request is accepted during the
wait. -/
theorem async_request_needs_wait_and_accept_witness :
    (RequestCredentials sampleAuthListenerOps ⟨some 7, 0⟩ emptyTracker
        ⟨"ALLJOYN_ECDHE_NULL", "peer", 1, "", 0⟩ emptyCredentials).ok = true :=
  ((async_request_needs_wait_and_accept sampleAuthListenerOps ⟨some 7, 0⟩ emptyTracker
    ⟨"ALLJOYN_ECDHE_NULL", "peer", 1, "", 0⟩ "ALLJOYN_ECDHE_NULL" "peer" emptyCredentials
    7 1 rfl rfl).1 _ _ rfl rfl rfl).1.mpr ⟨rfl, rfl⟩

end ajn.ProtectedAuthListener

namespace ajn.ProtectedAuthListener

/-- The steps taken by `Set` have one shape at each point: nothing before the
first statement; the clearing after it; then the `RemoveAll` of the previous
listener, if there was one, followed by sleeps, each on a non-zero reference
count; and at the end the assignment, made on a reference count of zero. -/
theorem setRun_shape (authListener : Option Nat)
    (others : Nat → DispatchState → DispatchState) (s : DispatchState) :
    ∀ n : Nat,
      match (SetRun authListener others n s).1 with
      | .start => (SetRun authListener others n s).2.2 = []
      | .cleared goner => (SetRun authListener others n s).2.2 = [.clear goner]
      | .polling => ∃ goner sleeps,
          (SetRun authListener others n s).2.2
            = .clear goner :: (removeAllEvents goner ++ sleeps) ∧
          ∀ e ∈ sleeps, ∃ k, k ≠ 0 ∧ e = .sleep k
      | .done => ∃ goner sleeps,
          (SetRun authListener others n s).2.2
            = .clear goner :: (removeAllEvents goner ++ sleeps ++ [.assign 0 authListener]) ∧
          ∀ e ∈ sleeps, ∃ k, k ≠ 0 ∧ e = .sleep k := by
  intro n
  induction n with
  | zero => simp [SetRun]
  | succ n ih =>
    simp only [SetRun]
    cases hpc : (SetRun authListener others n s).1 with
    | start =>
      rw [hpc] at ih
      simp only at ih
      simp [SetStep, ih]
    | cleared goner =>
      rw [hpc] at ih
      simp only at ih
      cases goner with
      | none =>
        simp only [SetStep, ih]
        exact ⟨none, [], by simp [removeAllEvents], by simp⟩
      | some g =>
        simp only [SetStep, ih]
        exact ⟨some g, [], by simp [removeAllEvents], by simp⟩
    | polling =>
      rw [hpc] at ih
      simp only at ih
      obtain ⟨goner, sleeps, htr, hsl⟩ := ih
      by_cases hrc : (others n (SetRun authListener others n s).2.1).self.refCount = 0
      · simp only [SetStep, hrc, ne_eq, not_true_eq_false, if_false, htr]
        exact ⟨goner, sleeps, by simp, hsl⟩
      · simp only [SetStep, hrc, ne_eq, not_false_eq_true, if_true, htr]
        refine ⟨goner, sleeps ++ [.sleep (others n (SetRun authListener others n s).2.1).self.refCount],
          by simp, ?_⟩
        intro e he
        rcases List.mem_append.mp he with h | h
        · exact hsl e h
        · exact ⟨_, hrc, by simpa using h⟩
    | done =>
      rw [hpc] at ih
      simp only at ih
      obtain ⟨goner, sleeps, htr, hsl⟩ := ih
      simp only [SetStep, htr]
      exact ⟨goner, sleeps, by simp, hsl⟩

/-- Under arbitrary interference: in every run of `Set(authListener)`, whatever
is done to the reference count and the registry between its steps, the
assignment of a listener is made only on a reference count of zero, it assigns
`authListener`, and it comes last: before it stand the clearing of the previous
listener, the `RemoveAll` of that listener when there was one, and only sleeps,
each on a non-zero reference count. -/
theorem setRun_assigns_only_at_zero_refCount (authListener : Option Nat)
    (others : Nat → DispatchState → DispatchState) (s : DispatchState) (n : Nat) :
    ∀ refCount listener,
      SetEvent.assign refCount listener ∈ (SetRun authListener others n s).2.2 →
      refCount = 0 ∧ listener = authListener ∧
      ∃ goner sleeps,
        (SetRun authListener others n s).2.2
          = .clear goner :: (removeAllEvents goner ++ sleeps ++ [.assign 0 authListener]) ∧
        ∀ e ∈ sleeps, ∃ k, k ≠ 0 ∧ e = .sleep k := by
  intro refCount listener hmem
  have hshape := setRun_shape authListener others s n
  have hsleep : ∀ sleeps : List SetEvent, (∀ e ∈ sleeps, ∃ k, k ≠ 0 ∧ e = .sleep k) →
      SetEvent.assign refCount listener ∉ sleeps := by
    intro sleeps hsl h
    obtain ⟨k, _, hk⟩ := hsl _ h
    cases hk
  have hrem : ∀ goner, SetEvent.assign refCount listener ∉ removeAllEvents goner := by
    intro goner h
    cases goner with
    | none => simp [removeAllEvents] at h
    | some g => simp [removeAllEvents] at h
  cases hpc : (SetRun authListener others n s).1 with
  | start =>
    rw [hpc] at hshape
    simp only at hshape
    rw [hshape] at hmem
    cases hmem
  | cleared goner =>
    rw [hpc] at hshape
    simp only at hshape
    rw [hshape] at hmem
    simp at hmem
  | polling =>
    rw [hpc] at hshape
    simp only at hshape
    obtain ⟨goner, sleeps, htr, hsl⟩ := hshape
    rw [htr] at hmem
    rcases List.mem_cons.mp hmem with h | h
    · cases h
    · rcases List.mem_append.mp h with h | h
      · exact absurd h (hrem goner)
      · exact absurd h (hsleep sleeps hsl)
  | done =>
    rw [hpc] at hshape
    simp only at hshape
    obtain ⟨goner, sleeps, htr, hsl⟩ := hshape
    have hlast : SetEvent.assign refCount listener = SetEvent.assign 0 authListener := by
      rw [htr] at hmem
      rcases List.mem_cons.mp hmem with h | h
      · cases h
      · rcases List.mem_append.mp h with h | h
        · rcases List.mem_append.mp h with h | h
          · exact absurd h (hrem goner)
          · exact absurd h (hsleep sleeps hsl)
        · simpa using h
    cases hlast
    exact ⟨rfl, rfl, goner, sleeps, htr, hsl⟩

end ajn.ProtectedAuthListener

namespace ajn.ProtectedAuthListener

/-- With a reference count of zero and no other thread acting, `Set` reaches its
end in three steps, the assignment being the last of them. -/
theorem setRun_done_of_zero (authListener : Option Nat) (s : DispatchState)
    (h : s.self.refCount = 0) :
    (SetRun authListener (fun _ x => x) 3 s).1 = .done := by
  cases hl : s.self.listener <;> simp [SetRun, SetStep, hl, h]

end ajn.ProtectedAuthListener

namespace ajn.PermissionConfigurator

open QStatus

/-- C18: for an application whose state is CLAIMED, `SetApplicationState` to
CLAIMABLE fails with `ER_INVALID_APPLICATION_STATE` and leaves the state
CLAIMED; and whatever the requested state, from CLAIMED the state after the call
is CLAIMED or NEED_UPDATE. -/
theorem setApplicationState_claimed (newState : ApplicationState) :
    SetApplicationState .CLAIMED .CLAIMABLE = (ER_INVALID_APPLICATION_STATE, .CLAIMED) ∧
    ((SetApplicationState .CLAIMED newState).2 = .CLAIMED ∨
      (SetApplicationState .CLAIMED newState).2 = .NEED_UPDATE) ∧
    ((SetApplicationState .CLAIMED newState).1 = ER_OK →
      newState = .CLAIMED ∨ newState = .NEED_UPDATE) := by
  cases newState <;> simp [SetApplicationState]

end ajn.PermissionConfigurator

namespace ajn.securitymgr

open QStatus PermissionConfigurator

/-- C19: for an application that has already been claimed (its state is CLAIMED,
or the catalog of claimed applications holds its public key), `ClaimApplication`
returns a status other than `ER_OK` and the persisted catalog is unchanged. -/
theorem claimApplication_already_claimed (E : ClaimCollaborators)
    (catalog : List ApplicationInfo) (app : ApplicationInfo) (idInfo : IdentityInfo)
    (amcb : List Rule → Bool)
    (hclaimed : app.claimState = .CLAIMED ∨ ∃ a ∈ catalog, a.publicKey = app.publicKey) :
    (ClaimApplication E catalog app idInfo amcb).1 ≠ ER_OK ∧
    (ClaimApplication E catalog app idInfo amcb).2 = catalog := by
  have h : alreadyClaimed catalog app = true := by
    unfold alreadyClaimed
    rcases hclaimed with h | ⟨a, ha, hk⟩
    · simp [h]
    · simp only [Bool.or_eq_true, decide_eq_true_eq, List.any_eq_true]
      exact Or.inr ⟨a, ha, hk⟩
  simp [ClaimApplication, h]

/-- Witness of C19: an application is claimed, and claimed again with another
bus name. -/
theorem claimApplication_already_claimed_witness :
    (ClaimApplication sampleClaimCollaborators
        (ClaimApplication sampleClaimCollaborators [] ⟨⟨[1], [2]⟩, "bus", .CLAIMABLE⟩
          ⟨⟨[0]⟩, "id"⟩ (fun _ => true)).2
        ⟨⟨[1], [2]⟩, "other bus", .CLAIMABLE⟩ ⟨⟨[0]⟩, "id"⟩ (fun _ => true)).1 ≠ ER_OK ∧
    (ClaimApplication sampleClaimCollaborators
        (ClaimApplication sampleClaimCollaborators [] ⟨⟨[1], [2]⟩, "bus", .CLAIMABLE⟩
          ⟨⟨[0]⟩, "id"⟩ (fun _ => true)).2
        ⟨⟨[1], [2]⟩, "other bus", .CLAIMABLE⟩ ⟨⟨[0]⟩, "id"⟩ (fun _ => true)).2
      = [⟨⟨[1], [2]⟩, "bus", .CLAIMED⟩] :=
  claimApplication_already_claimed sampleClaimCollaborators
    (ClaimApplication sampleClaimCollaborators [] ⟨⟨[1], [2]⟩, "bus", .CLAIMABLE⟩
      ⟨⟨[0]⟩, "id"⟩ (fun _ => true)).2
    ⟨⟨[1], [2]⟩, "other bus", .CLAIMABLE⟩ ⟨⟨[0]⟩, "id"⟩ (fun _ => true)
    (Or.inr ⟨⟨⟨[1], [2]⟩, "bus", .CLAIMED⟩, by decide, rfl⟩)

end ajn.securitymgr

namespace ajn.PermissionMgmtProxy

open QStatus

/-- C23: `RetrieveECCPublicKeyFromMsgArg` writes the output public key only when
every decode step succeeded and every tag check passed: either the payload is
the well-formed nested structure (AllJoyn format, usage signing or encryption,
ECC key type, NIST P-256 curve, X and Y of `ECC_COORDINATE_SZ` bytes) and the
key is set from it with `ER_OK`, or the caller's public key is exactly as it was
before the call. -/
theorem retrieveECCPublicKey_writes_only_on_success (K : qcc.Constants) (arg : MsgArg)
    (pubKey : qcc.ECCPublicKey) :
    (RetrieveECCPublicKeyFromMsgArg K arg pubKey).2 = pubKey ∨
    ∃ kid keyUsageType algorithm xCoord yCoord,
      arg = publicKeyPayload K.FORMAT_ALLJOYN kid keyUsageType K.KEY_TYPE algorithm
        K.ECC_NIST_P256 xCoord yCoord ∧
      (keyUsageType = K.USAGE_SIGNING ∨ keyUsageType = K.USAGE_ENCRYPTION) ∧
      xCoord.length = K.ECC_COORDINATE_SZ ∧ yCoord.length = K.ECC_COORDINATE_SZ ∧
      RetrieveECCPublicKeyFromMsgArg K arg pubKey = (ER_OK, ⟨xCoord, yCoord⟩) := by
  unfold RetrieveECCPublicKeyFromMsgArg
  cases h1 : arg.Get_yv with
  | error e => exact Or.inl rfl
  | ok r1 =>
    obtain ⟨keyFormat, variantArg⟩ := r1
    simp only
    by_cases hf : keyFormat = K.FORMAT_ALLJOYN
    swap
    · simp [hf]
    simp only [hf, ne_eq, not_true_eq_false, if_false]
    cases h2 : variantArg.Get_ayyyv with
    | error e => exact Or.inl rfl
    | ok r2 =>
      obtain ⟨kid, keyUsageType, keyType, keyVariantArg⟩ := r2
      simp only
      by_cases hu : keyUsageType ≠ K.USAGE_SIGNING ∧ keyUsageType ≠ K.USAGE_ENCRYPTION
      · simp [hu]
      by_cases ht : keyType = K.KEY_TYPE
      swap
      · simp [hu, ht]
      simp only [hu, ht, ne_eq, not_true_eq_false, if_false]
      cases h3 : keyVariantArg.Get_yyv with
      | error e => exact Or.inl rfl
      | ok r3 =>
        obtain ⟨algorithm, curve, curveVariant⟩ := r3
        simp only
        by_cases hc : curve = K.ECC_NIST_P256
        swap
        · simp [hc]
        simp only [hc, ne_eq, not_true_eq_false, if_false]
        cases h4 : curveVariant.Get_ayay with
        | error e => exact Or.inl rfl
        | ok r4 =>
          obtain ⟨xCoord, yCoord⟩ := r4
          simp only
          by_cases hl : xCoord.length ≠ K.ECC_COORDINATE_SZ ∨
              yCoord.length ≠ K.ECC_COORDINATE_SZ
          · simp [hl]
          have hx : xCoord.length = K.ECC_COORDINATE_SZ := by
            by_contra h
            exact hl (Or.inl h)
          have hy : yCoord.length = K.ECC_COORDINATE_SZ := by
            by_contra h
            exact hl (Or.inr h)
          have husage : keyUsageType = K.USAGE_SIGNING ∨ keyUsageType = K.USAGE_ENCRYPTION := by
            by_contra h
            exact hu ⟨fun e => h (Or.inl e), fun e => h (Or.inr e)⟩
          have e1 : arg = .struct [.byte keyFormat, .variant variantArg] := by
            unfold MsgArg.Get_yv at h1
            split at h1
            · cases h1; rfl
            · cases h1
          have e2 : variantArg = .struct [.byteArray kid, .byte keyUsageType, .byte keyType,
              .variant keyVariantArg] := by
            unfold MsgArg.Get_ayyyv at h2
            split at h2
            · cases h2; rfl
            · cases h2
          have e3 : keyVariantArg = .struct [.byte algorithm, .byte curve,
              .variant curveVariant] := by
            unfold MsgArg.Get_yyv at h3
            split at h3
            · cases h3; rfl
            · cases h3
          have e4 : curveVariant = .struct [.byteArray xCoord, .byteArray yCoord] := by
            unfold MsgArg.Get_ayay at h4
            split at h4
            · cases h4; rfl
            · cases h4
          have hxt : List.take K.ECC_COORDINATE_SZ xCoord = xCoord := by
            rw [← hx]; exact List.take_length xCoord
          have hyt : List.take K.ECC_COORDINATE_SZ yCoord = yCoord := by
            rw [← hy]; exact List.take_length yCoord
          refine Or.inr ⟨kid, keyUsageType, algorithm, xCoord, yCoord, ?_, husage, hx, hy, ?_⟩
          · rw [e1, e2, e3, e4, hf, ht, hc]
            rfl
          · simp [hl, qcc.KeyInfoNISTP256.SetXCoord, qcc.KeyInfoNISTP256.SetYCoord,
              qcc.KeyInfoNISTP256.default, hxt, hyt]

end ajn.PermissionMgmtProxy

namespace ajn.AsyncTracker

/-- The loop of `Trigger` writes the caller's slot exactly when it finds the
context, the request is accepted and both the supplied credentials and the slot
are there. -/
theorem triggerLoop_credentials (context : Nat) (accept : Bool)
    (credentials : Option Credentials) (heap : Nat → AuthContext) :
    ∀ l : List Nat,
      ((triggerLoop context accept credentials heap l).2.2 context).credentials
        = if context ∈ l ∧ accept = true ∧ credentials.isSome = true ∧
              (heap context).credentials.isSome = true then credentials
          else (heap context).credentials := by
  intro l
  induction l with
  | nil => simp [triggerLoop]
  | cons it rest ih =>
    by_cases h1 : it = context
    · subst h1
      simp only [triggerLoop, if_true, Function.update_same, List.mem_cons, true_or, true_and]
      by_cases hc : accept = true ∧ credentials.isSome = true ∧
          (heap it).credentials.isSome = true
      · simp [hc]
      · simp [hc]
    · have h2 : ¬ context = it := fun e => h1 e.symm
      simp only [triggerLoop, h1, if_false, ih, List.mem_cons, h2, false_or]

/-- C28: after `Trigger` the caller's output credentials (the slot of the
context) are the supplied credentials when the context is registered, `accept`
is true and both the supplied credentials and the slot are non-null, and are
what they were in every other case: on a rejection, without supplied
credentials, on a verify request (no slot) and for an unregistered context. -/
theorem trigger_copies_credentials_only_on_accept (self : AsyncTracker) (context : Nat)
    (accept : Bool) (credentials : Option Credentials) :
    ((Trigger self context accept credentials).2.heap context).credentials
      = (if context ∈ self.contexts ∧ accept = true ∧ credentials.isSome = true ∧
            (self.heap context).credentials.isSome = true then credentials
          else (self.heap context).credentials) ∧
    (accept = false →
      ((Trigger self context accept credentials).2.heap context).credentials
        = (self.heap context).credentials) ∧
    (credentials = none →
      ((Trigger self context accept credentials).2.heap context).credentials
        = (self.heap context).credentials) ∧
    ((self.heap context).credentials = none →
      ((Trigger self context accept credentials).2.heap context).credentials = none) ∧
    (context ∉ self.contexts →
      ((Trigger self context accept credentials).2.heap context).credentials
        = (self.heap context).credentials) := by
  have h := triggerLoop_credentials context accept credentials self.heap self.contexts
  simp only [Trigger]
  rw [h]
  refine ⟨rfl, ?_, ?_, ?_, ?_⟩
  · intro ha
    simp [ha]
  · intro hc
    simp [hc]
  · intro hs
    simp [hs]
  · intro hm
    simp [hm]

end ajn.AsyncTracker

/-- `strcmp` is zero exactly on equal strings. -/
theorem strcmp_eq_zero_iff (a b : String) : strcmp a b = 0 ↔ a = b := by
  unfold strcmp
  split_ifs <;> simp_all

namespace sample.securitymgr.door.DoorAuthListener

/-- `RequestCredentials` returns true exactly for the mechanisms other than
`KEYX_ECDHE_DSA` (the two names being distinct). -/
theorem requestCredentials_true_iff (N : MechanismNames) (authMechanism : String)
    (creds : ajn.Credentials) (hne : N.KEYX_ECDHE_NULL ≠ N.KEYX_ECDHE_DSA) :
    (RequestCredentials N authMechanism creds).1 = true ↔ authMechanism ≠ N.KEYX_ECDHE_DSA := by
  unfold RequestCredentials
  by_cases h : authMechanism = N.KEYX_ECDHE_DSA
  · have h' : ¬ authMechanism = N.KEYX_ECDHE_NULL := fun e => hne (e.symm.trans h)
    have hc : ¬ (strcmp authMechanism N.KEYX_ECDHE_NULL = 0 ∨
        strcmp authMechanism N.KEYX_ECDHE_DSA ≠ 0) := by
      rw [strcmp_eq_zero_iff, Ne, strcmp_eq_zero_iff]
      rintro (e | e)
      · exact h' e
      · exact e h
    rw [if_neg hc]
    simp [h]
  · have hc : strcmp authMechanism N.KEYX_ECDHE_NULL = 0 ∨
        strcmp authMechanism N.KEYX_ECDHE_DSA ≠ 0 := by
      exact Or.inr fun e => h ((strcmp_eq_zero_iff _ _).mp e)
    rw [if_pos hc]
    simp [h]

/-- C29 (the code tests `strcmp(authMechanism, KEYX_ECDHE_DSA)` without
`== 0`): `RequestCredentials` returns false for the mechanism `KEYX_ECDHE_DSA`
and true, setting the expiration to 100, for a mechanism that is neither
`KEYX_ECDHE_NULL` nor `KEYX_ECDHE_DSA`. -/
theorem doorAuthListener_rejects_DSA_allows_others :
    RequestCredentials sampleMechanismNames "ALLJOYN_ECDHE_ECDSA" ajn.emptyCredentials
      = (false, ajn.emptyCredentials) ∧
    RequestCredentials sampleMechanismNames "ALLJOYN_ECDHE_PSK" ajn.emptyCredentials
      = (true, ⟨none, none, none, none, none, some 100⟩) ∧
    RequestCredentials sampleMechanismNames "ALLJOYN_ECDHE_NULL" ajn.emptyCredentials
      = (true, ⟨none, none, none, none, none, some 100⟩) := by
  refine ⟨?_, ?_, ?_⟩
  · have h1 : ¬ ("ALLJOYN_ECDHE_ECDSA" = "ALLJOYN_ECDHE_NULL") := by decide
    simp [RequestCredentials, strcmp_eq_zero_iff, sampleMechanismNames, h1]
  · have h1 : ¬ ("ALLJOYN_ECDHE_PSK" = "ALLJOYN_ECDHE_ECDSA") := by decide
    simp [RequestCredentials, strcmp_eq_zero_iff, sampleMechanismNames, h1,
      ajn.emptyCredentials]
  · simp [RequestCredentials, strcmp_eq_zero_iff, sampleMechanismNames, ajn.emptyCredentials]

end sample.securitymgr.door.DoorAuthListener

namespace qcc.Condition

open QStatus

/-- A result within the range of a signed type of `bits` bits is stored as it
is. -/
theorem wrapSigned_eq (bits : Nat) (x : Int) (hbits : 0 < bits)
    (hlo : -((2 ^ (bits - 1) : Nat) : Int) ≤ x) (hhi : x < ((2 ^ (bits - 1) : Nat) : Int)) :
    wrapSigned bits x = x := by
  have hpow : (2 ^ bits : Nat) = 2 * 2 ^ (bits - 1) := by
    obtain ⟨b, rfl⟩ : ∃ b, bits = b + 1 := ⟨bits - 1, by omega⟩
    simp [pow_succ, Nat.mul_comm]
  have hcast : ((2 * 2 ^ (bits - 1) : Nat) : Int) = 2 * ((2 ^ (bits - 1) : Nat) : Int) :=
    Int.natCast_mul 2 (2 ^ (bits - 1))
  unfold wrapSigned
  rw [hpow, hcast]
  generalize ((2 ^ (bits - 1) : Nat) : Int) = H at hlo hhi ⊢
  rw [Int.emod_eq_of_lt (by omega) (by omega)]
  omega

/-- Counterexample to C30 as stated: at the last second a 64-bit `time_t` can
hold, a wait of 1000 ms has a deadline one second later, which `time_t` cannot
hold: `tsTimeout.tv_sec += tsNow.tv_sec` overflows, and the timespec passed to
the wait is not the current time plus `ms` milliseconds. -/
theorem timedWait_deadline_overflows_time_t :
    (TimedWait linux64TimeTypes 110 ⟨9223372036854775807, 0⟩ (fun _ => 0) 1000).tsTimeout
      = ⟨-9223372036854775808, 0⟩ ∧
    (TimedWait linux64TimeTypes 110 ⟨9223372036854775807, 0⟩
        (fun _ => 0) 1000).tsTimeout.tv_sec * 1000000000
      + (TimedWait linux64TimeTypes 110 ⟨9223372036854775807, 0⟩
        (fun _ => 0) 1000).tsTimeout.tv_nsec
      ≠ (9223372036854775807 * 1000000000 + 0) + (1000 : Int) * 1000000 := by
  decide

/-- C30, amended: for every 32-bit `ms` and a current time with
`0 <= tv_nsec < 10^9` whose deadline falls in a second that `time_t` can hold
(`time_t` and `long` having at least 32 bits), the timespec passed to the wait
has `0 <= tv_nsec < 10^9` and is the current time plus `ms` milliseconds to the
nanosecond; the nanosecond sum before the normalisation is the exact sum and is
below 2000000000, so within a signed 32-bit `long`; and the return code of the
wait is mapped 0 to `ER_OK`, `ETIMEDOUT` to `ER_TIMEOUT` and anything else to
`ER_OS_ERROR`. -/
theorem timedWait_deadline_exact (T : TimeTypes) (ETIMEDOUT : Int) (tsNow : timespec)
    (pthread_cond_timedwait : timespec → Int) (ms : Nat)
    (htime : 32 ≤ T.TIME_T_BITS) (hlong : 32 ≤ T.LONG_BITS)
    (hms : ms < 4294967296)
    (hnsec : 0 ≤ tsNow.tv_nsec ∧ tsNow.tv_nsec < 1000000000)
    (hsec : -((2 ^ (T.TIME_T_BITS - 1) : Nat) : Int) ≤ tsNow.tv_sec)
    (hdeadline : (tsNow.tv_sec * 1000000000 + tsNow.tv_nsec + (ms : Int) * 1000000)
      / 1000000000 < ((2 ^ (T.TIME_T_BITS - 1) : Nat) : Int))
    (hE : ETIMEDOUT ≠ 0) :
    0 ≤ (TimedWait T ETIMEDOUT tsNow pthread_cond_timedwait ms).tsTimeout.tv_nsec ∧
    (TimedWait T ETIMEDOUT tsNow pthread_cond_timedwait ms).tsTimeout.tv_nsec < 1000000000 ∧
    (TimedWait T ETIMEDOUT tsNow pthread_cond_timedwait ms).tsTimeout.tv_sec * 1000000000
        + (TimedWait T ETIMEDOUT tsNow pthread_cond_timedwait ms).tsTimeout.tv_nsec
      = (tsNow.tv_sec * 1000000000 + tsNow.tv_nsec) + (ms : Int) * 1000000 ∧
    (TimedWait T ETIMEDOUT tsNow pthread_cond_timedwait ms).nsecSum
      = (((ms % 1000) * 1000000 : Nat) : Int) + tsNow.tv_nsec ∧
    0 ≤ (TimedWait T ETIMEDOUT tsNow pthread_cond_timedwait ms).nsecSum ∧
    (TimedWait T ETIMEDOUT tsNow pthread_cond_timedwait ms).nsecSum < 2000000000 ∧
    (2000000000 : Int) < 2 ^ 31 ∧
    (pthread_cond_timedwait (TimedWait T ETIMEDOUT tsNow pthread_cond_timedwait ms).tsTimeout
        = 0 →
      (TimedWait T ETIMEDOUT tsNow pthread_cond_timedwait ms).status = ER_OK) ∧
    (pthread_cond_timedwait (TimedWait T ETIMEDOUT tsNow pthread_cond_timedwait ms).tsTimeout
        = ETIMEDOUT →
      (TimedWait T ETIMEDOUT tsNow pthread_cond_timedwait ms).status = ER_TIMEOUT) ∧
    (pthread_cond_timedwait (TimedWait T ETIMEDOUT tsNow pthread_cond_timedwait ms).tsTimeout
        ≠ 0 →
      pthread_cond_timedwait (TimedWait T ETIMEDOUT tsNow pthread_cond_timedwait ms).tsTimeout
        ≠ ETIMEDOUT →
      (TimedWait T ETIMEDOUT tsNow pthread_cond_timedwait ms).status = ER_OS_ERROR) := by
  obtain ⟨h0, h1⟩ := hnsec
  have hpowT : (2 ^ 31 : Nat) ≤ 2 ^ (T.TIME_T_BITS - 1) :=
    Nat.pow_le_pow_right (by decide) (by omega)
  have hpowL : (2 ^ 31 : Nat) ≤ 2 ^ (T.LONG_BITS - 1) :=
    Nat.pow_le_pow_right (by decide) (by omega)
  have hpowT' : (2147483648 : Int) ≤ ((2 ^ (T.TIME_T_BITS - 1) : Nat) : Int) := by
    have : ((2 ^ 31 : Nat) : Int) ≤ ((2 ^ (T.TIME_T_BITS - 1) : Nat) : Int) :=
      Int.ofNat_le.mpr hpowT
    simpa using this
  have hpowL' : (2147483648 : Int) ≤ ((2 ^ (T.LONG_BITS - 1) : Nat) : Int) := by
    have : ((2 ^ 31 : Nat) : Int) ≤ ((2 ^ (T.LONG_BITS - 1) : Nat) : Int) :=
      Int.ofNat_le.mpr hpowL
    simpa using this
  have ha : (ms % 1000) * 1000000 % 4294967296 = (ms % 1000) * 1000000 :=
    Nat.mod_eq_of_lt (by omega)
  have hsum0 : (0 : Int) ≤ (((ms % 1000) * 1000000 : Nat) : Int) + tsNow.tv_nsec := by
    omega
  have hdiv := Int.tdiv_eq_ediv hsum0 (by decide : (0 : Int) ≤ 1000000000)
  have hmod := Int.tmod_eq_emod hsum0 (by decide : (0 : Int) ≤ 1000000000)
  have w1 : wrapSigned T.TIME_T_BITS ((ms / 1000 : Nat) : Int) = ((ms / 1000 : Nat) : Int) :=
    wrapSigned_eq _ _ (by omega) (by omega) (by omega)
  have w2 : wrapSigned T.LONG_BITS (((ms % 1000) * 1000000 : Nat) : Int)
      = (((ms % 1000) * 1000000 : Nat) : Int) :=
    wrapSigned_eq _ _ (by omega) (by omega) (by omega)
  have w3 : wrapSigned T.LONG_BITS ((((ms % 1000) * 1000000 : Nat) : Int) + tsNow.tv_nsec)
      = (((ms % 1000) * 1000000 : Nat) : Int) + tsNow.tv_nsec :=
    wrapSigned_eq _ _ (by omega) (by omega) (by omega)
  have w4 : wrapSigned T.TIME_T_BITS (((ms / 1000 : Nat) : Int)
        + ((((ms % 1000) * 1000000 : Nat) : Int) + tsNow.tv_nsec) / 1000000000)
      = ((ms / 1000 : Nat) : Int)
        + ((((ms % 1000) * 1000000 : Nat) : Int) + tsNow.tv_nsec) / 1000000000 :=
    wrapSigned_eq _ _ (by omega) (by omega) (by omega)
  have w5 : wrapSigned T.TIME_T_BITS (((ms / 1000 : Nat) : Int)
        + ((((ms % 1000) * 1000000 : Nat) : Int) + tsNow.tv_nsec) / 1000000000
        + tsNow.tv_sec)
      = ((ms / 1000 : Nat) : Int)
        + ((((ms % 1000) * 1000000 : Nat) : Int) + tsNow.tv_nsec) / 1000000000
        + tsNow.tv_sec :=
    wrapSigned_eq _ _ (by omega) (by omega) (by omega)
  simp only [TimedWait, ha, w2, w3, hdiv, hmod, w1, w4, w5]
  refine ⟨by omega, by omega, by omega, trivial, by omega, by omega, by norm_num, ?_, ?_, ?_⟩
  · intro h
    rw [if_pos h]
  · intro h
    have hz : ¬ pthread_cond_timedwait
        ⟨((ms / 1000 : Nat) : Int)
            + ((((ms % 1000) * 1000000 : Nat) : Int) + tsNow.tv_nsec) / 1000000000
            + tsNow.tv_sec,
          ((((ms % 1000) * 1000000 : Nat) : Int) + tsNow.tv_nsec) % 1000000000⟩ = 0 := by
      rw [h]
      exact hE
    rw [if_neg hz, if_pos h]
  · intro h hne
    rw [if_neg h, if_neg hne]

/-- Witness of the amended C30: a wait of 2500 ms started at 10 s and
600000000 ns. -/
theorem timedWait_deadline_exact_witness :
    (TimedWait linux64TimeTypes 110 ⟨10, 600000000⟩ (fun _ => 110) 2500).tsTimeout
      = ⟨13, 100000000⟩ ∧
    (TimedWait linux64TimeTypes 110 ⟨10, 600000000⟩ (fun _ => 110) 2500).status
      = ER_TIMEOUT :=
  ⟨by decide,
    (timedWait_deadline_exact linux64TimeTypes 110 ⟨10, 600000000⟩ (fun _ => 110) 2500
      (by decide) (by decide) (by decide) (by decide) (by decide) (by decide)
      (by decide)).2.2.2.2.2.2.2.2.1 rfl⟩

end qcc.Condition

namespace ajn.AsyncTracker

/-- `Release` of a context that occurs at most once in the registry leaves a
registry without it. -/
theorem release_not_mem (self : AsyncTracker) (context : Nat)
    (h : self.contexts.count context ≤ 1) : context ∉ (Release self context).contexts := by
  by_cases hm : context ∈ self.contexts
  · have he := (triggerLoop_mem context false none self.heap _ hm).2.1
    simp only [Release, Trigger, he]
    rw [← List.count_eq_zero, List.count_erase_self]
    omega
  · simp only [Release, Trigger, triggerLoop_not_mem context false none self.heap _ hm]
    exact hm

end ajn.AsyncTracker

namespace ajn.ProtectedAuthListener

open QStatus AsyncTracker

/-- C22: `RequestCredentials` with no active listener returns false and invokes
nothing; with an active listener, if the asynchronous entry point returns
`ER_NOT_IMPLEMENTED` the result is the result of the listener's synchronous
`RequestCredentials`, if it returns another error the result is false and the
synchronous entry point is not invoked, if it returns `ER_OK` the result is
(the wait returned `ER_OK` and the context is accepted); and, the listener and
the wait leaving the context at most once in the registry, the context
allocated for the call is not in the registry when the call returns. -/
theorem requestCredentials_either_path (L : AuthListenerOps) (self : ProtectedAuthListener)
    (tracker : AsyncTracker) (request : CredentialsRequest) (credentials : Credentials)
    (authListener context : Nat) (hctx : context = L.newAuthContext tracker) :
    (self.listener = none →
      (RequestCredentials L self tracker request credentials).ok = false ∧
      (RequestCredentials L self tracker request credentials).events = [] ∧
      (RequestCredentials L self tracker request credentials).context = none ∧
      (RequestCredentials L self tracker request credentials).tracker.contexts
        = tracker.contexts) ∧
    (self.listener = some authListener →
      ∀ a w,
        a = L.RequestCredentialsAsync authListener request context
              (Allocate tracker context authListener (some credentials)) →
        w = L.Wait context ASYNC_AUTH_TIMEOUT a.2 →
        (RequestCredentials L self tracker request credentials).context = some context ∧
        (a.1 = ER_NOT_IMPLEMENTED →
          (RequestCredentials L self tracker request credentials).ok
            = (L.RequestCredentials authListener request
                (((a.2.heap context).credentials).getD credentials)).1 ∧
          (RequestCredentials L self tracker request credentials).events
            = [.asyncCall authListener context, .syncCall authListener]) ∧
        (a.1 ≠ ER_OK → a.1 ≠ ER_NOT_IMPLEMENTED →
          (RequestCredentials L self tracker request credentials).ok = false ∧
          (RequestCredentials L self tracker request credentials).events
            = [.asyncCall authListener context]) ∧
        (a.1 = ER_OK →
          (RequestCredentials L self tracker request credentials).ok
            = (w.1 == ER_OK && (w.2.heap context).accept) ∧
          (RequestCredentials L self tracker request credentials).events
            = [.asyncCall authListener context, .wait context ASYNC_AUTH_TIMEOUT]) ∧
        (a.2.contexts.count context ≤ 1 → w.2.contexts.count context ≤ 1 →
          context ∉ (RequestCredentials L self tracker request credentials).tracker.contexts)) := by
  constructor
  · intro hl
    simp [RequestCredentials, hl]
  · intro hl a w ha hw
    subst ha hw hctx
    refine ⟨by simp [RequestCredentials, hl], ?_, ?_, ?_, ?_⟩
    · intro h
      simp [RequestCredentials, hl, h]
    · intro h1 h2
      simp [RequestCredentials, hl, h1, h2]
    · intro h
      simp [RequestCredentials, hl, h]
    · intro hc1 hc2
      simp only [RequestCredentials, hl]
      apply release_not_mem
      split_ifs <;> assumption

/-- Witness of C22: the sample listener, whose request is accepted during the
wait, leaves an empty registry. -/
theorem requestCredentials_either_path_witness :
    1 ∉ (RequestCredentials sampleAuthListenerOps ⟨some 7, 0⟩ emptyTracker
        ⟨"ALLJOYN_ECDHE_NULL", "peer", 1, "", 0⟩ emptyCredentials).tracker.contexts :=
  ((requestCredentials_either_path sampleAuthListenerOps ⟨some 7, 0⟩ emptyTracker
    ⟨"ALLJOYN_ECDHE_NULL", "peer", 1, "", 0⟩ emptyCredentials 7 1 rfl).2 rfl _ _ rfl
    rfl).2.2.2.2 (by decide) (by decide)

end ajn.ProtectedAuthListener

namespace qcc.LockChecker

/-- `LockAcquired` on a lock whose first entry on the stack is `t` (recorded
with the lock's level and a positive count that does not wrap), in closed form:
the entry's count is one more; the recorded maximum of the lock is raised when
the new count exceeds it, and only then, depending on the options, the count is
logged and the recursive-acquire assertion fails. -/
theorem lockAcquired_held_eq (K : LockCheckerConstants) (options : Nat) (self : LockChecker)
    (lock : Mutex) (pre post : List LockTrace) (t : LockTrace)
    (hwf : self.m_currentDepth ≤ self.m_lockStack.length)
    (henabled : lock.m_level ≠ K.LOCK_LEVEL_CHECKING_DISABLED)
    (hheld : heldLocks self = pre ++ t :: post)
    (hchecked : ∀ u ∈ pre, u.m_level ≠ K.LOCK_LEVEL_CHECKING_DISABLED)
    (hfirst : ∀ u ∈ pre, u.m_lock ≠ some lock.address)
    (hlock : t.m_lock = some lock.address) (hlevel : t.m_level = lock.m_level)
    (hcount : 0 < t.m_recursionCount) (hcount32 : t.m_recursionCount + 1 < 4294967296) :
    LockAcquired K options self lock
      = (if t.m_recursionCount + 1 > lock.m_maximumRecursionCount then
          if options &&& K.LOCKCHECKER_OPTION_RECURSIVE_ACQUIRE_LOGERROR ≠ 0 then
            if options &&& K.LOCKCHECKER_OPTION_RECURSIVE_ACQUIRE_ASSERT ≠ 0 then
              ⟨⟨self.m_currentDepth, self.m_maximumDepth,
                  self.m_lockStack.set pre.length
                    ⟨some lock.address, lock.m_level, t.m_recursionCount + 1⟩⟩,
                ⟨lock.address, lock.m_level, t.m_recursionCount + 1⟩,
                some (.assertion .recursiveAcquire), [t.m_recursionCount + 1]⟩
            else
              ⟨⟨self.m_currentDepth, self.m_maximumDepth,
                  self.m_lockStack.set pre.length
                    ⟨some lock.address, lock.m_level, t.m_recursionCount + 1⟩⟩,
                ⟨lock.address, lock.m_level, t.m_recursionCount + 1⟩,
                none, [t.m_recursionCount + 1]⟩
          else
            ⟨⟨self.m_currentDepth, self.m_maximumDepth,
                self.m_lockStack.set pre.length
                  ⟨some lock.address, lock.m_level, t.m_recursionCount + 1⟩⟩,
              ⟨lock.address, lock.m_level, t.m_recursionCount + 1⟩, none, []⟩
        else
          ⟨⟨self.m_currentDepth, self.m_maximumDepth,
              self.m_lockStack.set pre.length
                ⟨some lock.address, lock.m_level, t.m_recursionCount + 1⟩⟩,
            lock, none, []⟩) ∧
    heldLocks ⟨self.m_currentDepth, self.m_maximumDepth,
        self.m_lockStack.set pre.length
          ⟨some lock.address, lock.m_level, t.m_recursionCount + 1⟩⟩
      = pre ++ ⟨some lock.address, lock.m_level, t.m_recursionCount + 1⟩ :: post := by
  have hlen : (heldLocks self).length = self.m_currentDepth := by
    simp [heldLocks, hwf]
  have hdepth : self.m_currentDepth = pre.length + 1 + post.length := by
    rw [← hlen, hheld]
    simp
    omega
  have hidx : ∀ m, m < self.m_currentDepth →
      self.m_lockStack[m]? = (pre ++ t :: post)[m]? := by
    intro m hm
    rw [← hheld]
    unfold heldLocks
    rw [List.getElem?_take_of_lt hm]
  have hskip : ∀ m, m < pre.length → ∃ u, self.m_lockStack[m]? = some u ∧
      u.m_level ≠ K.LOCK_LEVEL_CHECKING_DISABLED ∧ u.m_lock ≠ some lock.address := by
    intro m hm
    refine ⟨pre[m], ?_, hchecked _ (List.getElem_mem hm), hfirst _ (List.getElem_mem hm)⟩
    rw [hidx m (by omega), List.getElem?_append_left hm, List.getElem?_eq_getElem hm]
  have hk : self.m_lockStack[pre.length]? = some t := by
    rw [hidx _ (by omega), List.getElem?_append_right (le_refl _)]
    simp
  have htcd : t.m_level ≠ K.LOCK_LEVEL_CHECKING_DISABLED := hlevel ▸ henabled
  have hloop := acquiredLoop_skip K options self lock pre.length hskip
    self.m_currentDepth 0 (Nat.zero_le _) (by omega)
  have hiter : self.m_currentDepth - (pre.length - 0) = post.length + 1 := by omega
  rw [hiter] at hloop
  have hmod : (t.m_recursionCount + 1) % 4294967296 = t.m_recursionCount + 1 := by omega
  have hpos : ¬ ¬ t.m_recursionCount > 0 := not_not.mpr hcount
  have hnl : ¬ lock.m_level ≠ lock.m_level := fun h => h rfl
  constructor
  · simp only [LockAcquired, henabled, if_false, hloop, acquiredLoop, hk, htcd, hlock, hlevel,
      hnl, hpos, if_true, hmod]
    split_ifs <;> rfl
  · simp only [heldLocks]
    rw [List.set_take]
    have h : List.take self.m_currentDepth self.m_lockStack = pre ++ t :: post := hheld
    rw [h, List.set_append_right _ _ (le_refl _)]
    simp

/-- Counterexample to C21 as stated: under the default options a re-entry to
count 2 of a lock whose recorded maximum is 1 exceeds the maximum, and yet
nothing is reported (nothing logged, no assertion); only the recorded maximum
becomes 2. -/
theorem lockAcquired_reentry_unreported_by_default :
    (LockAcquired sampleLockCheckerConstants (enabledOptions sampleLockCheckerConstants)
        ⟨1, 4, [⟨some 10, 5, 1⟩, ⟨none, -1, 0⟩, ⟨none, -1, 0⟩, ⟨none, -1, 0⟩]⟩
        ⟨10, 5, 1⟩).logged = [] ∧
    (LockAcquired sampleLockCheckerConstants (enabledOptions sampleLockCheckerConstants)
        ⟨1, 4, [⟨some 10, 5, 1⟩, ⟨none, -1, 0⟩, ⟨none, -1, 0⟩, ⟨none, -1, 0⟩]⟩
        ⟨10, 5, 1⟩).fault = none ∧
    (LockAcquired sampleLockCheckerConstants (enabledOptions sampleLockCheckerConstants)
        ⟨1, 4, [⟨some 10, 5, 1⟩, ⟨none, -1, 0⟩, ⟨none, -1, 0⟩, ⟨none, -1, 0⟩]⟩
        ⟨10, 5, 1⟩).lock.m_maximumRecursionCount = 2 := by
  decide

/-- C21, amended: on a re-entry of a held lock to count `n`, `LockAcquired`
reports (logs the count `n`) exactly when `n` is greater than the lock's
recorded maximum and the option `LOCKCHECKER_OPTION_RECURSIVE_ACQUIRE_LOGERROR`
is enabled, and the recursive-acquire assertion fails exactly when moreover
`LOCKCHECKER_OPTION_RECURSIVE_ACQUIRE_ASSERT` is enabled; whatever the options,
the recorded maximum afterwards is the greater of the previous maximum and `n`,
so it never decreases, and a re-entry to a count that does not exceed the
recorded maximum reports nothing and leaves the lock as it was. -/
theorem lockAcquired_reports_new_maximum_when_enabled (K : LockCheckerConstants)
    (options : Nat) (self : LockChecker) (lock : Mutex) (pre post : List LockTrace)
    (t : LockTrace)
    (hwf : self.m_currentDepth ≤ self.m_lockStack.length)
    (henabled : lock.m_level ≠ K.LOCK_LEVEL_CHECKING_DISABLED)
    (hheld : heldLocks self = pre ++ t :: post)
    (hchecked : ∀ u ∈ pre, u.m_level ≠ K.LOCK_LEVEL_CHECKING_DISABLED)
    (hfirst : ∀ u ∈ pre, u.m_lock ≠ some lock.address)
    (hlock : t.m_lock = some lock.address) (hlevel : t.m_level = lock.m_level)
    (hcount : 0 < t.m_recursionCount) (hcount32 : t.m_recursionCount + 1 < 4294967296) :
    ((LockAcquired K options self lock).logged = [t.m_recursionCount + 1] ↔
      t.m_recursionCount + 1 > lock.m_maximumRecursionCount ∧
        options &&& K.LOCKCHECKER_OPTION_RECURSIVE_ACQUIRE_LOGERROR ≠ 0) ∧
    ((LockAcquired K options self lock).logged = [] ↔
      ¬ (t.m_recursionCount + 1 > lock.m_maximumRecursionCount ∧
        options &&& K.LOCKCHECKER_OPTION_RECURSIVE_ACQUIRE_LOGERROR ≠ 0)) ∧
    ((LockAcquired K options self lock).fault = some (.assertion .recursiveAcquire) ↔
      t.m_recursionCount + 1 > lock.m_maximumRecursionCount ∧
        options &&& K.LOCKCHECKER_OPTION_RECURSIVE_ACQUIRE_LOGERROR ≠ 0 ∧
        options &&& K.LOCKCHECKER_OPTION_RECURSIVE_ACQUIRE_ASSERT ≠ 0) ∧
    (LockAcquired K options self lock).lock.m_maximumRecursionCount
      = max lock.m_maximumRecursionCount (t.m_recursionCount + 1) ∧
    lock.m_maximumRecursionCount
      ≤ (LockAcquired K options self lock).lock.m_maximumRecursionCount ∧
    (t.m_recursionCount + 1 ≤ lock.m_maximumRecursionCount →
      (LockAcquired K options self lock).logged = [] ∧
      (LockAcquired K options self lock).fault = none ∧
      (LockAcquired K options self lock).lock = lock) := by
  have h := (lockAcquired_held_eq K options self lock pre post t hwf henabled hheld hchecked
    hfirst hlock hlevel hcount hcount32).1
  rw [h]
  by_cases hgt : t.m_recursionCount + 1 > lock.m_maximumRecursionCount
  · have hmax : max lock.m_maximumRecursionCount (t.m_recursionCount + 1)
        = t.m_recursionCount + 1 := by omega
    by_cases hlog : options &&& K.LOCKCHECKER_OPTION_RECURSIVE_ACQUIRE_LOGERROR = 0
    · simp only [hgt, hlog, if_true, ne_eq, not_true_eq_false, if_false, hmax]
      refine ⟨by simp, by simp, by simp, trivial, by omega, fun h => by omega⟩
    · by_cases hass : options &&& K.LOCKCHECKER_OPTION_RECURSIVE_ACQUIRE_ASSERT = 0
      · simp only [hgt, hlog, hass, if_true, ne_eq, not_true_eq_false, not_false_eq_true,
          if_false, hmax]
        refine ⟨by simp, by simp, by simp, trivial, by omega, fun h => by omega⟩
      · simp only [hgt, hlog, hass, if_true, ne_eq, not_false_eq_true, hmax]
        refine ⟨by simp, by simp, by simp, trivial, by omega, fun h => by omega⟩
  · have hmax : max lock.m_maximumRecursionCount (t.m_recursionCount + 1)
        = lock.m_maximumRecursionCount := by omega
    simp only [hgt, if_false, hmax]
    refine ⟨by simp, by simp, by simp, trivial, le_refl _, fun _ => by simp⟩

/-- Witness of the amended C21: with the logging option enabled, the re-entry to
count 2 of a lock whose recorded maximum is 1 is logged. -/
theorem lockAcquired_reports_new_maximum_when_enabled_witness :
    (LockAcquired sampleLockCheckerConstants 8
        ⟨1, 4, [⟨some 10, 5, 1⟩, ⟨none, -1, 0⟩, ⟨none, -1, 0⟩, ⟨none, -1, 0⟩]⟩
        ⟨10, 5, 1⟩).logged = [2] :=
  (lockAcquired_reports_new_maximum_when_enabled sampleLockCheckerConstants 8
    ⟨1, 4, [⟨some 10, 5, 1⟩, ⟨none, -1, 0⟩, ⟨none, -1, 0⟩, ⟨none, -1, 0⟩]⟩ ⟨10, 5, 1⟩
    [] [] ⟨some 10, 5, 1⟩ (by decide) (by decide) rfl (by decide) (by decide) rfl rfl
    (by decide) (by decide)).1.mpr ⟨by decide, by decide⟩

end qcc.LockChecker

namespace qcc.LockChecker

/-- With the missing-level flag a real flag (non-zero), the default options
have it set. -/
theorem enabledOptions_missing_level (K : LockCheckerConstants)
    (h : K.LOCKCHECKER_OPTION_MISSING_LEVEL_ASSERT ≠ 0) :
    enabledOptions K &&& K.LOCKCHECKER_OPTION_MISSING_LEVEL_ASSERT ≠ 0 := by
  have e : enabledOptions K &&& K.LOCKCHECKER_OPTION_MISSING_LEVEL_ASSERT
      = K.LOCKCHECKER_OPTION_MISSING_LEVEL_ASSERT := by
    apply Nat.eq_of_testBit_eq
    intro i
    simp only [enabledOptions, Nat.testBit_and, Nat.testBit_or]
    cases Nat.testBit K.LOCKCHECKER_OPTION_MISSING_LEVEL_ASSERT i <;> simp
  rw [e]
  exact h

/-- The first loop of `AcquiringLock` over entries that are all of unspecified
level ends with `foundRecentEntry = false`. -/
theorem findRecentEntry_all_unspecified (K : LockCheckerConstants) (s : List LockTrace)
    (hK : K.LOCK_LEVEL_NOT_SPECIFIED ≠ K.LOCK_LEVEL_CHECKING_DISABLED) :
    ∀ n r0 : Nat, (n = 0 ∨ (n ≤ r0 + 1 ∧ r0 < 4294967296)) →
      (∀ m, m ≤ r0 → r0 < m + n → ∃ u, s[m]? = some u ∧
        u.m_level = K.LOCK_LEVEL_NOT_SPECIFIED) →
      ∃ r, findRecentEntry K s n r0 = .ok (false, r) := by
  intro n
  induction n with
  | zero =>
    intro r0 _ _
    exact ⟨r0, rfl⟩
  | succ n ih =>
    intro r0 hn hall
    have hr0 : n + 1 ≤ r0 + 1 ∧ r0 < 4294967296 := by
      rcases hn with h | h
      · omega
      · exact h
    obtain ⟨u, hu, huns⟩ := hall r0 (le_refl _) (by omega)
    simp only [findRecentEntry, hu, huns, hK, if_false, ne_eq, not_true_eq_false]
    apply ih
    · by_cases hz : n = 0
      · exact Or.inl hz
      · right
        omega
    · intro m h1 h2
      by_cases hz : n = 0
      · omega
      · have hstep : (r0 + 4294967296 - 1) % 4294967296 = r0 - 1 := by omega
        rw [hstep] at h1 h2
        exact hall m (by omega) (by omega)

/-- A list of entries either has only entries of unspecified level, or splits
at its last entry of specified level. -/
theorem exists_last_specified (K : LockCheckerConstants) (l : List LockTrace) :
    (∀ u ∈ l, u.m_level = K.LOCK_LEVEL_NOT_SPECIFIED) ∨
    ∃ pre t post, l = pre ++ t :: post ∧ t.m_level ≠ K.LOCK_LEVEL_NOT_SPECIFIED ∧
      ∀ u ∈ post, u.m_level = K.LOCK_LEVEL_NOT_SPECIFIED := by
  induction l with
  | nil => exact Or.inl (by simp)
  | cons x xs ih =>
    rcases ih with h | ⟨pre, t, post, hl, ht, hpost⟩
    · by_cases hx : x.m_level = K.LOCK_LEVEL_NOT_SPECIFIED
      · left
        intro u hu
        rcases List.mem_cons.mp hu with e | e
        · rw [e]; exact hx
        · exact h u e
      · exact Or.inr ⟨[], x, xs, rfl, hx, h⟩
    · exact Or.inr ⟨x :: pre, t, post, by rw [hl]; rfl, ht, hpost⟩

/-- When the thread holds only locks of unspecified level, or none,
`AcquiringLock` returns without any check. -/
theorem acquiringLock_all_unspecified (K : LockCheckerConstants) (options : Nat)
    (self : LockChecker) (lock : Mutex)
    (hK : K.LOCK_LEVEL_NOT_SPECIFIED ≠ K.LOCK_LEVEL_CHECKING_DISABLED)
    (hwf : self.m_currentDepth ≤ self.m_lockStack.length)
    (hu32 : self.m_currentDepth < 4294967296)
    (hall : ∀ u ∈ heldLocks self, u.m_level = K.LOCK_LEVEL_NOT_SPECIFIED) :
    AcquiringLock K options self lock = none := by
  have hfind := findRecentEntry_all_unspecified K self.m_lockStack hK self.m_currentDepth
    ((self.m_currentDepth + 4294967296 - 1) % 4294967296)
    (by
      by_cases hz : self.m_currentDepth = 0
      · exact Or.inl hz
      · right
        omega)
    (by
      intro m h1 h2
      have hm : m < self.m_currentDepth := by omega
      obtain ⟨u, hu, _, hmem⟩ := getElem?_of_lt_depth self m hwf hm
      exact ⟨u, hu, hall u hmem⟩)
  obtain ⟨r, hr⟩ := hfind
  simp only [AcquiringLock, hr]

/-- `AcquiringLock` in closed form when the held entries split at the last entry
`t` of specified level: the level compared against is that of `t`, and the second
loop scans the entries below `t`. -/
theorem acquiringLock_eq_of_split (K : LockCheckerConstants) (options : Nat)
    (self : LockChecker) (lock : Mutex) (pre post : List LockTrace) (t : LockTrace)
    (hwf : self.m_currentDepth ≤ self.m_lockStack.length)
    (hu32 : self.m_currentDepth < 4294967296)
    (hchecked : ∀ u ∈ heldLocks self, u.m_level ≠ K.LOCK_LEVEL_CHECKING_DISABLED)
    (hheld : heldLocks self = pre ++ t :: post)
    (hns : t.m_level ≠ K.LOCK_LEVEL_NOT_SPECIFIED)
    (hpost : ∀ u ∈ post, u.m_level = K.LOCK_LEVEL_NOT_SPECIFIED) :
    self.m_lockStack[pre.length]? = some t ∧
    findRecentEntry K self.m_lockStack self.m_currentDepth
      ((self.m_currentDepth + 4294967296 - 1) % 4294967296) = .ok (true, pre.length) ∧
    AcquiringLock K options self lock
      = (if lock.m_level = K.LOCK_LEVEL_CHECKING_DISABLED then
          some (.assertion .levelCheckingDisabled)
        else if lock.m_level = K.LOCK_LEVEL_NOT_SPECIFIED then
          if options &&& K.LOCKCHECKER_OPTION_MISSING_LEVEL_ASSERT ≠ 0 then
            some (.assertion .missingLevel)
          else
            none
        else if lock.m_level ≥ t.m_level then
          none
        else
          match previouslyLockedBelow K self.m_lockStack lock pre.length 0 with
          | .error fault => some fault
          | .ok previouslyLocked =>
            if !previouslyLocked ∧
                options &&& K.LOCKCHECKER_OPTION_LOCK_ORDERING_ASSERT ≠ 0 then
              some (.assertion .outOfOrder)
            else
              none) := by
  have hlen : (heldLocks self).length = self.m_currentDepth := by
    simp [heldLocks, hwf]
  have hdepth : self.m_currentDepth = pre.length + 1 + post.length := by
    rw [← hlen, hheld]
    simp
    omega
  have htmem : t ∈ heldLocks self := by
    rw [hheld]; simp
  have hk : self.m_lockStack[pre.length]? = some t := by
    obtain ⟨u, hu, hu', _⟩ := getElem?_of_lt_depth self pre.length hwf (by omega)
    rw [hheld, List.getElem?_append_right (le_refl _)] at hu'
    simp at hu'
    rw [hu, hu']
  have habove : ∀ i, pre.length < i → i ≤ pre.length + post.length →
      ∃ u, self.m_lockStack[i]? = some u ∧ u.m_level = K.LOCK_LEVEL_NOT_SPECIFIED ∧
        u.m_level ≠ K.LOCK_LEVEL_CHECKING_DISABLED := by
    intro i h1 h2
    obtain ⟨u, hu, hu', hmem⟩ := getElem?_of_lt_depth self i hwf (by omega)
    refine ⟨u, hu, ?_, hchecked u hmem⟩
    rw [hheld, List.getElem?_append_right (by omega)] at hu'
    obtain ⟨d, hd⟩ : ∃ d, i - pre.length = d + 1 := ⟨i - pre.length - 1, by omega⟩
    rw [hd, List.getElem?_cons_succ] at hu'
    exact hpost u (List.getElem?_mem hu')
  have hstart : (self.m_currentDepth + 4294967296 - 1) % 4294967296
      = pre.length + post.length := by
    rw [hdepth]
    omega
  have hfind := findRecentEntry_found K self.m_lockStack t pre.length hk
    (hchecked t htmem) hns post.length self.m_currentDepth habove (by omega) (by omega)
  refine ⟨hk, by rw [hstart]; exact hfind, ?_⟩
  simp only [AcquiringLock, hstart, hfind, hk]

/-- C27: a lock of unspecified level is not exempt from checking.  With the
default enabled options (the missing-level flag being a non-zero flag), on a
well-formed stack of checked locks, `AcquiringLock` on a lock of level
`LOCK_LEVEL_NOT_SPECIFIED` fails the missing-level assertion exactly when the
thread holds at least one lock of specified level; when the thread holds no lock
or only locks of unspecified level it returns without raising anything. -/
theorem acquiringLock_unspecified_level (K : LockCheckerConstants) (self : LockChecker)
    (lock : Mutex)
    (hflag : K.LOCKCHECKER_OPTION_MISSING_LEVEL_ASSERT ≠ 0)
    (hK : K.LOCK_LEVEL_NOT_SPECIFIED ≠ K.LOCK_LEVEL_CHECKING_DISABLED)
    (hwf : self.m_currentDepth ≤ self.m_lockStack.length)
    (hu32 : self.m_currentDepth < 4294967296)
    (hchecked : ∀ u ∈ heldLocks self, u.m_level ≠ K.LOCK_LEVEL_CHECKING_DISABLED)
    (hlevel : lock.m_level = K.LOCK_LEVEL_NOT_SPECIFIED) :
    (AcquiringLock K (enabledOptions K) self lock = some (.assertion .missingLevel) ↔
      ∃ u ∈ heldLocks self, u.m_level ≠ K.LOCK_LEVEL_NOT_SPECIFIED) ∧
    ((∀ u ∈ heldLocks self, u.m_level = K.LOCK_LEVEL_NOT_SPECIFIED) →
      AcquiringLock K (enabledOptions K) self lock = none) ∧
    (self.m_currentDepth = 0 → AcquiringLock K (enabledOptions K) self lock = none) := by
  have hnone : (∀ u ∈ heldLocks self, u.m_level = K.LOCK_LEVEL_NOT_SPECIFIED) →
      AcquiringLock K (enabledOptions K) self lock = none :=
    acquiringLock_all_unspecified K _ self lock hK hwf hu32
  refine ⟨?_, hnone, ?_⟩
  · rcases exists_last_specified K (heldLocks self) with hall | ⟨pre, t, post, hheld, hns, hpost⟩
    · rw [hnone hall]
      constructor
      · intro h
        cases h
      · rintro ⟨u, hu, hne⟩
        exact absurd (hall u hu) hne
    · have h := (acquiringLock_eq_of_split K (enabledOptions K) self lock pre post t hwf hu32
        hchecked hheld hns hpost).2.2
      have hcd : ¬ K.LOCK_LEVEL_NOT_SPECIFIED = K.LOCK_LEVEL_CHECKING_DISABLED := hK
      rw [h, hlevel]
      simp only [hcd, if_false, if_true, enabledOptions_missing_level K hflag, ne_eq,
        not_false_eq_true, true_iff]
      exact ⟨t, by rw [hheld]; simp, hns⟩
  · intro hz
    apply hnone
    intro u hu
    simp [heldLocks, hz] at hu

/-- Witness of C27: holding a lock of level 5, the thread attempts a lock of
unspecified level. -/
theorem acquiringLock_unspecified_level_witness :
    AcquiringLock sampleLockCheckerConstants (enabledOptions sampleLockCheckerConstants)
        ⟨1, 4, [⟨some 10, 5, 1⟩, ⟨none, -1, 0⟩, ⟨none, -1, 0⟩, ⟨none, -1, 0⟩]⟩ ⟨11, -1, 0⟩
      = some (.assertion .missingLevel) :=
  (acquiringLock_unspecified_level sampleLockCheckerConstants
    ⟨1, 4, [⟨some 10, 5, 1⟩, ⟨none, -1, 0⟩, ⟨none, -1, 0⟩, ⟨none, -1, 0⟩]⟩ ⟨11, -1, 0⟩
    (by decide) (by decide) (by decide) (by decide) (by decide) rfl).1.mpr
    ⟨⟨some 10, 5, 1⟩, by decide, by decide⟩

end qcc.LockChecker

namespace qcc.LockChecker

/-- A list of entries either has no entry for the lock at address `a`, or
splits at its first entry for it. -/
theorem exists_first_entry (a : Nat) (l : List LockTrace) :
    (∀ u ∈ l, u.m_lock ≠ some a) ∨
    ∃ pre t post, l = pre ++ t :: post ∧ (∀ u ∈ pre, u.m_lock ≠ some a) ∧
      t.m_lock = some a := by
  induction l with
  | nil => exact Or.inl (by simp)
  | cons x xs ih =>
    by_cases hx : x.m_lock = some a
    · exact Or.inr ⟨[], x, xs, rfl, by simp, hx⟩
    · rcases ih with h | ⟨pre, t, post, hl, hpre, ht⟩
      · left
        intro u hu
        rcases List.mem_cons.mp hu with e | e
        · rw [e]; exact hx
        · exact h u e
      · refine Or.inr ⟨x :: pre, t, post, by rw [hl]; rfl, ?_, ht⟩
        intro u hu
        rcases List.mem_cons.mp hu with e | e
        · rw [e]; exact hx
        · exact hpre u e

/-- The tail of `LockAcquired` on a full stack whose capacity can still grow:
the stack is reallocated one entry larger and the lock is written on top. -/
theorem pushLock_full (K : LockCheckerConstants) (stack : List LockTrace) (lock : Mutex)
    (hu32 : stack.length + 1 < 4294967296) :
    pushLock K ⟨stack.length, stack.length, stack⟩ lock
      = ⟨⟨stack.length + 1, stack.length + 1,
          stack ++ [⟨some lock.address, lock.m_level, 1⟩]⟩, lock, none, []⟩ := by
  have hmod : (stack.length + 1) % 4294967296 = stack.length + 1 := by omega
  have hcopy : copyStack stack stack.length 0
      (List.replicate (stack.length + 1) (LockTrace.default K))
      = .ok (stack ++ [LockTrace.default K]) := by
    have h := copyStack_append stack [] (List.replicate stack.length (LockTrace.default K))
      [LockTrace.default K] (by simp)
    simpa [List.replicate_succ'] using h
  have hset : (stack ++ [LockTrace.default K]).set stack.length
      ⟨some lock.address, lock.m_level, 1⟩
      = stack ++ [⟨some lock.address, lock.m_level, 1⟩] := by
    rw [List.set_append_right _ _ (le_refl _)]
    simp
  simp only [pushLock, le_refl, not_true_eq_false, if_false, if_true, hmod, hcopy,
    List.length_append, List.length_singleton, Nat.lt_succ_self, hset]

/-- The tail of `LockAcquired` on a stack with room: the lock is written at the
depth. -/
theorem pushLock_room (K : LockCheckerConstants) (depth maxd : Nat) (stack : List LockTrace)
    (lock : Mutex) (hlt : depth < maxd) (hlen : depth < stack.length)
    (hu32 : depth + 1 < 4294967296) :
    pushLock K ⟨depth, maxd, stack⟩ lock
      = ⟨⟨depth + 1, maxd, stack.set depth ⟨some lock.address, lock.m_level, 1⟩⟩,
          lock, none, []⟩ := by
  have hmod : (depth + 1) % 4294967296 = depth + 1 := by omega
  have hnle : ¬ ¬ depth ≤ maxd := not_not.mpr (le_of_lt hlt)
  have hne : ¬ depth = maxd := by omega
  simp only [pushLock, hnle, if_false, hne, hlen, if_true, hmod]

/-- The tail of `LockAcquired` on a full stack of the largest capacity a
`uint32_t` can hold: the new capacity wraps around to zero and the copy loop
writes outside the new array. -/
theorem pushLock_wrap (K : LockCheckerConstants) (stack : List LockTrace) (lock : Mutex)
    (hlen : stack.length + 1 = 4294967296) :
    pushLock K ⟨stack.length, stack.length, stack⟩ lock
      = ⟨⟨stack.length, stack.length, stack⟩, lock, some (.outOfBounds 0), []⟩ := by
  have hmod : (stack.length + 1) % 4294967296 = 0 := by omega
  obtain ⟨n, hn⟩ : ∃ n, stack.length = n + 1 := ⟨stack.length - 1, by omega⟩
  have h0 : stack[0]? = some (stack[0]) := List.getElem?_eq_getElem (by omega)
  have hcopy : copyStack stack stack.length 0 (List.replicate 0 (LockTrace.default K))
      = .error (.outOfBounds 0) := by
    rw [hn]
    simp [copyStack, h0]
  simp only [pushLock, le_refl, not_true_eq_false, if_false, if_true, hmod, hcopy]

/-- `LockAcquired` on a lock that no held entry refers to goes to the tail of
the function. -/
theorem lockAcquired_unheld_eq (K : LockCheckerConstants) (options : Nat) (self : LockChecker)
    (lock : Mutex)
    (hwf : self.m_currentDepth ≤ self.m_lockStack.length)
    (henabled : lock.m_level ≠ K.LOCK_LEVEL_CHECKING_DISABLED)
    (hchecked : ∀ u ∈ heldLocks self, u.m_level ≠ K.LOCK_LEVEL_CHECKING_DISABLED)
    (hnot : ∀ u ∈ heldLocks self, u.m_lock ≠ some lock.address) :
    LockAcquired K options self lock = pushLock K self lock := by
  have hskip : ∀ m, m < self.m_currentDepth → ∃ u, self.m_lockStack[m]? = some u ∧
      u.m_level ≠ K.LOCK_LEVEL_CHECKING_DISABLED ∧ u.m_lock ≠ some lock.address := by
    intro m hm
    obtain ⟨u, hu, _, hmem⟩ := getElem?_of_lt_depth self m hwf hm
    exact ⟨u, hu, hchecked u hmem, hnot u hmem⟩
  have hloop := acquiredLoop_skip K options self lock self.m_currentDepth hskip
    self.m_currentDepth 0 (Nat.zero_le _) (by omega)
  have hzero : self.m_currentDepth - (self.m_currentDepth - 0) = 0 := by omega
  rw [hzero] at hloop
  simp only [LockAcquired, henabled, if_false, hloop, acquiredLoop]

/-- `LockAcquired` on a lock whose first held entry is `t`: the search loop
reaches `t`. -/
theorem lockAcquired_at_first (K : LockCheckerConstants) (options : Nat) (self : LockChecker)
    (lock : Mutex) (pre post : List LockTrace) (t : LockTrace)
    (hwf : self.m_currentDepth ≤ self.m_lockStack.length)
    (henabled : lock.m_level ≠ K.LOCK_LEVEL_CHECKING_DISABLED)
    (hheld : heldLocks self = pre ++ t :: post)
    (hchecked : ∀ u ∈ pre, u.m_level ≠ K.LOCK_LEVEL_CHECKING_DISABLED)
    (hfirst : ∀ u ∈ pre, u.m_lock ≠ some lock.address) :
    self.m_lockStack[pre.length]? = some t ∧
    LockAcquired K options self lock
      = (acquiredLoop K options self lock (post.length + 1) pre.length).getD
          (pushLock K self lock) := by
  have hlen : (heldLocks self).length = self.m_currentDepth := by
    simp [heldLocks, hwf]
  have hdepth : self.m_currentDepth = pre.length + 1 + post.length := by
    rw [← hlen, hheld]
    simp
    omega
  have hidx : ∀ m, m < self.m_currentDepth →
      self.m_lockStack[m]? = (pre ++ t :: post)[m]? := by
    intro m hm
    rw [← hheld]
    unfold heldLocks
    rw [List.getElem?_take_of_lt hm]
  have hskip : ∀ m, m < pre.length → ∃ u, self.m_lockStack[m]? = some u ∧
      u.m_level ≠ K.LOCK_LEVEL_CHECKING_DISABLED ∧ u.m_lock ≠ some lock.address := by
    intro m hm
    refine ⟨pre[m], ?_, hchecked _ (List.getElem_mem hm), hfirst _ (List.getElem_mem hm)⟩
    rw [hidx m (by omega), List.getElem?_append_left hm, List.getElem?_eq_getElem hm]
  have hk : self.m_lockStack[pre.length]? = some t := by
    rw [hidx _ (by omega), List.getElem?_append_right (le_refl _)]
    simp
  have hloop := acquiredLoop_skip K options self lock pre.length hskip
    self.m_currentDepth 0 (Nat.zero_le _) (by omega)
  have hiter : self.m_currentDepth - (pre.length - 0) = post.length + 1 := by omega
  rw [hiter] at hloop
  refine ⟨hk, ?_⟩
  simp only [LockAcquired, henabled, if_false, hloop]
  cases acquiredLoop K options self lock (post.length + 1) pre.length <;> rfl

end qcc.LockChecker

namespace qcc.LockChecker

/-- A call of `LockAcquired` that returns, on a well-formed checker: the checker
stays well-formed, and either no held entry referred to the lock and the entry
(lock, level, 1) is appended on top, or the first held entry for the lock, which
has the lock's level and a positive count, has its count incremented as a
`uint32_t`. -/
theorem lockAcquired_ok (K : LockCheckerConstants) (options : Nat) (self : LockChecker)
    (lock : Mutex) (hinv : WellFormed K self)
    (hok : (LockAcquired K options self lock).fault = none) :
    WellFormed K (LockAcquired K options self lock).checker ∧
    lock.m_level ≠ K.LOCK_LEVEL_CHECKING_DISABLED ∧
    (((∀ u ∈ heldLocks self, u.m_lock ≠ some lock.address) ∧
        heldLocks (LockAcquired K options self lock).checker
          = heldLocks self ++ [⟨some lock.address, lock.m_level, 1⟩]) ∨
      ∃ pre t post, heldLocks self = pre ++ t :: post ∧
        (∀ u ∈ pre, u.m_lock ≠ some lock.address) ∧
        t.m_lock = some lock.address ∧ t.m_level = lock.m_level ∧
        0 < t.m_recursionCount ∧
        heldLocks (LockAcquired K options self lock).checker
          = pre ++ ⟨some lock.address, lock.m_level,
              (t.m_recursionCount + 1) % 4294967296⟩ :: post) := by
  obtain ⟨hcap, hdep, h32, hchecked⟩ := hinv
  have hwf : self.m_currentDepth ≤ self.m_lockStack.length := by omega
  have henabled : lock.m_level ≠ K.LOCK_LEVEL_CHECKING_DISABLED := by
    intro hcd
    simp [LockAcquired, hcd] at hok
  rcases exists_first_entry lock.address (heldLocks self) with
    hnot | ⟨pre, t, post, hheld, hfirst, hlock⟩
  · have hres := lockAcquired_unheld_eq K options self lock hwf henabled hchecked hnot
    rw [hres] at hok ⊢
    obtain ⟨depth, maxd, stack⟩ := self
    simp only at hcap hdep h32 hwf
    subst hcap
    by_cases hfull : depth = stack.length
    · subst hfull
      by_cases hw : stack.length + 1 < 4294967296
      · rw [pushLock_full K stack lock hw]
        have hheld' : heldLocks ⟨stack.length + 1, stack.length + 1,
            stack ++ [⟨some lock.address, lock.m_level, 1⟩]⟩
            = heldLocks ⟨stack.length, stack.length, stack⟩
              ++ [⟨some lock.address, lock.m_level, 1⟩] := by
          simp only [heldLocks]
          rw [List.take_length]
          exact List.take_of_length_le (by simp)
        refine ⟨⟨by simp, le_refl _, hw, ?_⟩, henabled, Or.inl ⟨hnot, hheld'⟩⟩
        intro u hu
        rw [hheld'] at hu
        rcases List.mem_append.mp hu with h | h
        · exact hchecked u h
        · rw [List.mem_singleton.mp h]
          exact henabled
      · rw [pushLock_wrap K stack lock (by omega)] at hok
        simp at hok
    · have hlt : depth < stack.length := by omega
      rw [pushLock_room K depth stack.length stack lock hlt hlt (by omega)]
      have hheld' : heldLocks ⟨depth + 1, stack.length,
          stack.set depth ⟨some lock.address, lock.m_level, 1⟩⟩
          = heldLocks ⟨depth, stack.length, stack⟩
            ++ [⟨some lock.address, lock.m_level, 1⟩] :=
        take_succ_set stack depth _ hlt
      refine ⟨⟨by simp, by simp only; omega, h32, ?_⟩, henabled, Or.inl ⟨hnot, hheld'⟩⟩
      intro u hu
      rw [hheld'] at hu
      rcases List.mem_append.mp hu with h | h
      · exact hchecked u h
      · rw [List.mem_singleton.mp h]
        exact henabled
  · have htmem : t ∈ heldLocks self := by
      rw [hheld]; simp
    have htcd : t.m_level ≠ K.LOCK_LEVEL_CHECKING_DISABLED := hchecked t htmem
    have hpre : ∀ u ∈ pre, u.m_level ≠ K.LOCK_LEVEL_CHECKING_DISABLED := by
      intro u hu
      apply hchecked
      rw [hheld]
      exact List.mem_append_left _ hu
    obtain ⟨hk, hres⟩ := lockAcquired_at_first K options self lock pre post t hwf henabled
      hheld hpre hfirst
    by_cases hlev : t.m_level = lock.m_level
    · by_cases hcount : 0 < t.m_recursionCount
      · have hpos : ¬ ¬ t.m_recursionCount > 0 := not_not.mpr hcount
        have hnl : ¬ lock.m_level ≠ lock.m_level := fun h => h rfl
        have hchk : (LockAcquired K options self lock).checker
            = ⟨self.m_currentDepth, self.m_maximumDepth,
                self.m_lockStack.set pre.length
                  ⟨some lock.address, lock.m_level,
                    (t.m_recursionCount + 1) % 4294967296⟩⟩ := by
          rw [hres]
          simp only [acquiredLoop, hk, htcd, henabled, hlock, hlev, hnl, hpos, if_true, if_false]
          split_ifs <;> rfl
        have htake : heldLocks ⟨self.m_currentDepth, self.m_maximumDepth,
              self.m_lockStack.set pre.length
                ⟨some lock.address, lock.m_level, (t.m_recursionCount + 1) % 4294967296⟩⟩
            = pre ++ ⟨some lock.address, lock.m_level,
                (t.m_recursionCount + 1) % 4294967296⟩ :: post := by
          simp only [heldLocks]
          rw [List.set_take]
          have h : List.take self.m_currentDepth self.m_lockStack = pre ++ t :: post := hheld
          rw [h, List.set_append_right _ _ (le_refl _)]
          simp
        rw [hchk]
        refine ⟨⟨by simpa using hcap, hdep, h32, ?_⟩, henabled,
          Or.inr ⟨pre, t, post, hheld, hfirst, hlock, hlev, hcount, htake⟩⟩
        intro u hu
        rw [htake] at hu
        rcases List.mem_append.mp hu with h | h
        · exact hpre u h
        · rcases List.mem_cons.mp h with e | e
          · rw [e]
            exact henabled
          · apply hchecked
            rw [hheld]
            exact List.mem_append_right _ (List.mem_cons_of_mem _ e)
      · rw [hres] at hok
        simp [acquiredLoop, hk, htcd, henabled, hlock, hlev, hcount] at hok
    · rw [hres] at hok
      simp [acquiredLoop, hk, htcd, henabled, hlock, hlev] at hok

end qcc.LockChecker

namespace qcc.LockChecker

/-- `ReleasingLock` on a lock whose first entry on the stack is `t`, in closed
form: a zero count fails the recursion-count assertion; a count of one removes
the entry and moves the entries above it down; a greater count is decremented. -/
theorem releasingLock_held_eq (K : LockCheckerConstants) (self : LockChecker) (lock : Mutex)
    (pre post rest : List LockTrace) (t : LockTrace)
    (hstack : self.m_lockStack = pre ++ t :: (post ++ rest))
    (hdepth : self.m_currentDepth = pre.length + 1 + post.length)
    (hu32 : self.m_currentDepth < 4294967296)
    (henabled : lock.m_level ≠ K.LOCK_LEVEL_CHECKING_DISABLED)
    (hchecked : ∀ u ∈ pre ++ [t], u.m_level ≠ K.LOCK_LEVEL_CHECKING_DISABLED)
    (hfirst : ∀ u ∈ pre, u.m_lock ≠ some lock.address)
    (hlock : t.m_lock = some lock.address) :
    (t.m_recursionCount = 0 →
      ReleasingLock K self lock = (self, some (.assertion .recursionCountZero))) ∧
    (t.m_recursionCount = 1 → ∃ y,
      ReleasingLock K self lock
        = (⟨pre.length + post.length, self.m_maximumDepth, pre ++ (post ++ y :: rest)⟩,
            none)) ∧
    (1 < t.m_recursionCount →
      ReleasingLock K self lock
        = (⟨pre.length + 1 + post.length, self.m_maximumDepth,
            pre ++ ⟨some lock.address, t.m_level, t.m_recursionCount - 1⟩ :: (post ++ rest)⟩,
            none)) := by
  obtain ⟨depth, maxd, stack⟩ := self
  simp only at hstack hdepth hu32
  subst hstack hdepth
  have hskip : ∀ m, m < pre.length → ∃ u, (pre ++ t :: (post ++ rest))[m]? = some u ∧
      u.m_level ≠ K.LOCK_LEVEL_CHECKING_DISABLED ∧ u.m_lock ≠ some lock.address := by
    intro m hm
    refine ⟨pre[m], ?_, hchecked _ ?_, hfirst _ (List.getElem_mem hm)⟩
    · rw [List.getElem?_append_left hm, List.getElem?_eq_getElem hm]
    · exact List.mem_append_left _ (List.getElem_mem hm)
  have htcd : t.m_level ≠ K.LOCK_LEVEL_CHECKING_DISABLED := hchecked t (by simp)
  have hk : (pre ++ t :: (post ++ rest))[pre.length]? = some t := by
    rw [List.getElem?_append_right (le_refl _)]
    simp
  have hset : ∀ t' : LockTrace, (pre ++ t :: (post ++ rest)).set pre.length t'
      = pre ++ t' :: (post ++ rest) := by
    intro t'
    rw [List.set_append_right _ _ (le_refl _)]
    simp
  have hiter : pre.length + 1 + post.length - (pre.length - 0) = post.length + 1 := by omega
  have hlast : (pre.length + 1 + post.length + 4294967296 - 1) % 4294967296
      = pre.length + post.length := by omega
  have hloop := releasingLoop_skip K ⟨pre.length + 1 + post.length, maxd,
    pre ++ t :: (post ++ rest)⟩ lock pre.length hskip (pre.length + 1 + post.length) 0
    (Nat.zero_le _) (by omega)
  rw [hiter] at hloop
  refine ⟨fun hzero => ?_, fun hone => ?_, fun hgt => ?_⟩
  · have hpos : ¬ t.m_recursionCount > 0 := by omega
    simp only [ReleasingLock, henabled, if_false, hloop, releasingLoop, hk, htcd, hlock,
      hpos, not_false_eq_true, if_true]
  · have hpos : ¬ ¬ t.m_recursionCount > 0 := by omega
    obtain ⟨y, hy⟩ := shiftDown_append post pre ⟨some lock.address, t.m_level, 0⟩ rest
    have hzero : t.m_recursionCount - 1 = 0 := by omega
    have hsub : pre.length + post.length - pre.length = post.length := by omega
    refine ⟨y, ?_⟩
    simp only [ReleasingLock, henabled, if_false, hloop, releasingLoop, hk, htcd, hlock,
      hpos, hzero, if_true, hlast, hsub, hset, hy]
  · have hpos : ¬ ¬ t.m_recursionCount > 0 := by omega
    have hnz : ¬ t.m_recursionCount - 1 = 0 := by omega
    simp only [ReleasingLock, henabled, if_false, hloop, releasingLoop, hk, htcd, hlock,
      hpos, hnz, if_true, hset]

/-- A call of `ReleasingLock` that returns, on a well-formed checker: the
checker stays well-formed, the lock was held, and its first held entry, of
positive count, is removed when the count was one and has its count decremented
otherwise. -/
theorem releasingLock_ok (K : LockCheckerConstants) (self : LockChecker) (lock : Mutex)
    (hinv : WellFormed K self) (hok : (ReleasingLock K self lock).2 = none) :
    WellFormed K (ReleasingLock K self lock).1 ∧
    ∃ pre t post, heldLocks self = pre ++ t :: post ∧
      (∀ u ∈ pre, u.m_lock ≠ some lock.address) ∧
      t.m_lock = some lock.address ∧ 0 < t.m_recursionCount ∧
      ((t.m_recursionCount = 1 ∧ heldLocks (ReleasingLock K self lock).1 = pre ++ post) ∨
        (1 < t.m_recursionCount ∧
          heldLocks (ReleasingLock K self lock).1
            = pre ++ ⟨some lock.address, t.m_level, t.m_recursionCount - 1⟩ :: post)) := by
  obtain ⟨hcap, hdep, h32, hchecked⟩ := hinv
  have hwf : self.m_currentDepth ≤ self.m_lockStack.length := by omega
  have henabled : lock.m_level ≠ K.LOCK_LEVEL_CHECKING_DISABLED := by
    intro hcd
    simp [ReleasingLock, hcd] at hok
  rcases exists_first_entry lock.address (heldLocks self) with
    hnot | ⟨pre, t, post, hheld, hfirst, hlock⟩
  · exfalso
    have hall : ∀ m, 0 ≤ m → m < 0 + self.m_currentDepth →
        ∃ u, self.m_lockStack[m]? = some u ∧ u.m_level ≠ K.LOCK_LEVEL_CHECKING_DISABLED := by
      intro m _ hm
      obtain ⟨u, hu, _, hmem⟩ := getElem?_of_lt_depth self m hwf (by omega)
      exact ⟨u, hu, hchecked u hmem⟩
    have hnone : releasingLoop K self lock self.m_currentDepth 0 = .ok none := by
      rw [releasingLoop_none_iff K self lock self.m_currentDepth 0 hall]
      intro m _ hm u hu
      exact (forall_heldLocks_iff self _).mp hnot m (by omega) u hu
    simp [ReleasingLock, henabled, hnone] at hok
  · have hlen : (heldLocks self).length = self.m_currentDepth := by
      simp [heldLocks, hwf]
    have hdepth : self.m_currentDepth = pre.length + 1 + post.length := by
      rw [← hlen, hheld]
      simp
      omega
    have hstack : self.m_lockStack
        = pre ++ t :: (post ++ self.m_lockStack.drop self.m_currentDepth) := by
      have h := List.take_append_drop self.m_currentDepth self.m_lockStack
      have h' : List.take self.m_currentDepth self.m_lockStack = pre ++ t :: post := hheld
      rw [h'] at h
      conv_lhs => rw [← h]
      simp
    have hpret : ∀ u ∈ pre ++ [t], u.m_level ≠ K.LOCK_LEVEL_CHECKING_DISABLED := by
      intro u hu
      apply hchecked
      rw [hheld]
      rcases List.mem_append.mp hu with h | h
      · exact List.mem_append_left _ h
      · rw [List.mem_singleton.mp h]
        simp
    obtain ⟨h0, h1, h2⟩ := releasingLock_held_eq K self lock pre post
      (self.m_lockStack.drop self.m_currentDepth) t hstack hdepth (by omega) henabled hpret
      hfirst hlock
    have hdroplen : (self.m_lockStack.drop self.m_currentDepth).length
        = self.m_maximumDepth - self.m_currentDepth := by
      simp [hcap]
    by_cases hz : t.m_recursionCount = 0
    · rw [h0 hz] at hok
      simp at hok
    · by_cases hone : t.m_recursionCount = 1
      · obtain ⟨y, hy⟩ := h1 hone
        rw [hy]
        have hheld' : heldLocks ⟨pre.length + post.length, self.m_maximumDepth,
            pre ++ (post ++ y :: self.m_lockStack.drop self.m_currentDepth)⟩
            = pre ++ post := by
          simp only [heldLocks]
          rw [← List.append_assoc, ← List.length_append]
          exact List.take_left _ _
        refine ⟨⟨?_, by simp only; omega, h32, ?_⟩, pre, t, post, hheld, hfirst, hlock,
          by omega, Or.inl ⟨hone, hheld'⟩⟩
        · simp only [List.length_append, List.length_cons, hdroplen]
          omega
        · intro u hu
          rw [hheld'] at hu
          apply hchecked
          rw [hheld]
          rcases List.mem_append.mp hu with h | h
          · exact List.mem_append_left _ h
          · exact List.mem_append_right _ (List.mem_cons_of_mem _ h)
      · rw [h2 (by omega)]
        have hheld' : heldLocks ⟨pre.length + 1 + post.length, self.m_maximumDepth,
            pre ++ ⟨some lock.address, t.m_level, t.m_recursionCount - 1⟩ ::
              (post ++ self.m_lockStack.drop self.m_currentDepth)⟩
            = pre ++ ⟨some lock.address, t.m_level, t.m_recursionCount - 1⟩ :: post := by
          simp only [heldLocks]
          have e : pre ++ ⟨some lock.address, t.m_level, t.m_recursionCount - 1⟩ ::
                (post ++ self.m_lockStack.drop self.m_currentDepth)
              = (pre ++ ⟨some lock.address, t.m_level, t.m_recursionCount - 1⟩ :: post)
                ++ self.m_lockStack.drop self.m_currentDepth := by
            simp
          rw [e]
          exact List.take_left' (by simp; omega)
        refine ⟨⟨?_, by simp only; omega, h32, ?_⟩, pre, t, post, hheld, hfirst, hlock,
          by omega, Or.inr ⟨by omega, hheld'⟩⟩
        · simp only [List.length_append, List.length_cons, hdroplen]
          omega
        · intro u hu
          rw [hheld'] at hu
          rcases List.mem_append.mp hu with h | h
          · exact hpret u (List.mem_append_left _ h)
          · rcases List.mem_cons.mp h with e | e
            · rw [e]
              exact hpret t (by simp)
            · apply hchecked
              rw [hheld]
              exact List.mem_append_right _ (List.mem_cons_of_mem _ e)

end qcc.LockChecker

namespace qcc.LockChecker

/-- A new checker is well-formed and holds nothing. -/
theorem construct_wellFormed (K : LockCheckerConstants) :
    WellFormed K (construct K) ∧ heldLocks (construct K) = [] := by
  refine ⟨⟨?_, ?_, ?_, ?_⟩, rfl⟩
  · simp [construct]
  · simp [construct]
  · simp [construct, defaultMaximumStackDepth]
  · intro u hu
    simp [construct, heldLocks] at hu

/-- One call that returns keeps the checker well-formed and the held entries
for distinct locks; recursion counts that were between 1 and `b` are between 1
and `b + 1` afterwards, as long as `b + 1` is a value of `uint32_t`. -/
theorem applyCall_invariant (K : LockCheckerConstants) (options : Nat)
    (self next : LockChecker) (call : Call)
    (hcall : applyCall K options self call = some next)
    (hinv : WellFormed K self)
    (hnodup : ((heldLocks self).map fun u => u.m_lock).Nodup) :
    WellFormed K next ∧ ((heldLocks next).map fun u => u.m_lock).Nodup ∧
    ∀ b, (∀ u ∈ heldLocks self, 1 ≤ u.m_recursionCount ∧ u.m_recursionCount ≤ b) →
      b + 1 < 4294967296 →
      ∀ u ∈ heldLocks next, 1 ≤ u.m_recursionCount ∧ u.m_recursionCount ≤ b + 1 := by
  cases call with
  | acquiringLock lock =>
    simp only [applyCall] at hcall
    split_ifs at hcall
    cases hcall
    exact ⟨hinv, hnodup, fun b hb _ u hu => ⟨(hb u hu).1, by have := (hb u hu).2; omega⟩⟩
  | lockAcquired lock =>
    simp only [applyCall] at hcall
    split_ifs at hcall with hok
    cases hcall
    obtain ⟨hwf', _, hcase⟩ := lockAcquired_ok K options self lock hinv hok
    refine ⟨hwf', ?_, ?_⟩
    · rcases hcase with ⟨hnot, hheld'⟩ | ⟨pre, t, post, hheld, _, hlock, _, _, hheld'⟩
      · rw [hheld', List.map_append, List.map_singleton]
        apply List.Nodup.append hnodup (List.nodup_singleton _)
        intro a ha ha'
        rw [List.mem_singleton] at ha'
        subst ha'
        obtain ⟨u, hu, hul⟩ := List.mem_map.mp ha
        exact hnot u hu hul
      · rw [hheld', List.map_append, List.map_cons]
        rw [hheld, List.map_append, List.map_cons, hlock] at hnodup
        exact hnodup
    · intro b hb hb32 u hu
      rcases hcase with ⟨_, hheld'⟩ | ⟨pre, t, post, hheld, _, _, _, hcount, hheld'⟩
      · rw [hheld'] at hu
        rcases List.mem_append.mp hu with h | h
        · exact ⟨(hb u h).1, by have := (hb u h).2; omega⟩
        · rw [List.mem_singleton.mp h]
          exact ⟨le_refl _, by simp⟩
      · have ht := hb t (by rw [hheld]; simp)
        rw [hheld'] at hu
        rcases List.mem_append.mp hu with h | h
        · have := hb u (by rw [hheld]; exact List.mem_append_left _ h)
          exact ⟨this.1, by omega⟩
        · rcases List.mem_cons.mp h with e | e
          · rw [e]
            simp only
            omega
          · have := hb u (by rw [hheld]; exact List.mem_append_right _ (List.mem_cons_of_mem _ e))
            exact ⟨this.1, by omega⟩
  | releasingLock lock =>
    simp only [applyCall] at hcall
    split_ifs at hcall with hok
    cases hcall
    obtain ⟨hwf', pre, t, post, hheld, _, hlock, hcount, hcase⟩ :=
      releasingLock_ok K self lock hinv hok
    refine ⟨hwf', ?_, ?_⟩
    · rw [hheld, List.map_append, List.map_cons] at hnodup
      rcases hcase with ⟨_, hheld'⟩ | ⟨_, hheld'⟩
      · rw [hheld', List.map_append]
        exact hnodup.sublist (List.Sublist.append_left (List.sublist_cons_self _ _) _)
      · rw [hheld', List.map_append, List.map_cons]
        rw [hlock] at hnodup
        exact hnodup
    · intro b hb hb32 u hu
      rcases hcase with ⟨_, hheld'⟩ | ⟨hgt, hheld'⟩
      · rw [hheld'] at hu
        have := hb u (by
          rw [hheld]
          rcases List.mem_append.mp hu with h | h
          · exact List.mem_append_left _ h
          · exact List.mem_append_right _ (List.mem_cons_of_mem _ h))
        exact ⟨this.1, by omega⟩
      · have ht := hb t (by rw [hheld]; simp)
        rw [hheld'] at hu
        rcases List.mem_append.mp hu with h | h
        · have := hb u (by rw [hheld]; exact List.mem_append_left _ h)
          exact ⟨this.1, by omega⟩
        · rcases List.mem_cons.mp h with e | e
          · rw [e]
            simp only
            omega
          · have := hb u (by rw [hheld]; exact List.mem_append_right _ (List.mem_cons_of_mem _ e))
            exact ⟨this.1, by omega⟩

/-- A sequence of calls that all return keeps the checker well-formed and the
held entries for distinct locks; the recursion counts stay between 1 and the
starting bound plus the number of calls, as long as that is a value of
`uint32_t`. -/
theorem applyCalls_invariant (K : LockCheckerConstants) (options : Nat) (calls : List Call) :
    ∀ (self final : LockChecker), applyCalls K options calls self = some final →
      WellFormed K self → ((heldLocks self).map fun u => u.m_lock).Nodup →
      WellFormed K final ∧ ((heldLocks final).map fun u => u.m_lock).Nodup ∧
      ∀ b, (∀ u ∈ heldLocks self, 1 ≤ u.m_recursionCount ∧ u.m_recursionCount ≤ b) →
        b + calls.length < 4294967296 →
        ∀ u ∈ heldLocks final, 1 ≤ u.m_recursionCount ∧
          u.m_recursionCount ≤ b + calls.length := by
  induction calls with
  | nil =>
    intro self final hrun hinv hnodup
    simp only [applyCalls, Option.some.injEq] at hrun
    subst hrun
    exact ⟨hinv, hnodup, fun b hb _ u hu => by simpa using hb u hu⟩
  | cons call calls ih =>
    intro self final hrun hinv hnodup
    simp only [applyCalls] at hrun
    cases hcall : applyCall K options self call with
    | none =>
      rw [hcall] at hrun
      cases hrun
    | some next =>
      rw [hcall] at hrun
      simp only [Option.some_bind] at hrun
      obtain ⟨hinv1, hnodup1, hcount1⟩ :=
        applyCall_invariant K options self next call hcall hinv hnodup
      obtain ⟨hinv2, hnodup2, hcount2⟩ := ih next final hrun hinv1 hnodup1
      refine ⟨hinv2, hnodup2, ?_⟩
      intro b hb hb32 u hu
      simp only [List.length_cons] at hb32 ⊢
      have := hcount2 (b + 1) (hcount1 b hb (by omega)) (by omega) u hu
      exact ⟨this.1, by omega⟩

end qcc.LockChecker

namespace qcc.LockChecker

/-- Re-entering `n` times a lock held alone with count `c`, under options that
do not log recursive acquires: the count is incremented `n` times as a
`uint32_t`, which wraps around when `c + n` reaches `2^32`. -/
theorem applyCalls_reentries (K : LockCheckerConstants) (options : Nat) (lock : Mutex)
    (d1 d2 d3 : LockTrace)
    (henabled : lock.m_level ≠ K.LOCK_LEVEL_CHECKING_DISABLED)
    (hlog : options &&& K.LOCKCHECKER_OPTION_RECURSIVE_ACQUIRE_LOGERROR = 0) :
    ∀ n c : Nat, 0 < c → c < 4294967296 → c + n ≤ 4294967296 →
      applyCalls K options (List.replicate n (.lockAcquired lock))
          ⟨1, 4, [⟨some lock.address, lock.m_level, c⟩, d1, d2, d3]⟩
        = some ⟨1, 4, [⟨some lock.address, lock.m_level, (c + n) % 4294967296⟩, d1, d2, d3]⟩ := by
  intro n
  induction n with
  | zero =>
    intro c hc hlt hle
    have hmod : (c + 0) % 4294967296 = c := by omega
    rw [hmod]
    rfl
  | succ n ih =>
    intro c hc hlt hle
    have hpos : ¬ ¬ c > 0 := not_not.mpr hc
    have hnl : ¬ lock.m_level ≠ lock.m_level := fun h => h rfl
    have hfirst := (lockAcquired_at_first K options
      ⟨1, 4, [⟨some lock.address, lock.m_level, c⟩, d1, d2, d3]⟩ lock [] []
      ⟨some lock.address, lock.m_level, c⟩ (by simp) henabled rfl (by simp) (by simp)).2
    obtain ⟨lk, hres⟩ : ∃ lk, LockAcquired K options
        ⟨1, 4, [⟨some lock.address, lock.m_level, c⟩, d1, d2, d3]⟩ lock
        = ⟨⟨1, 4, [⟨some lock.address, lock.m_level, (c + 1) % 4294967296⟩, d1, d2, d3]⟩,
            lk, none, []⟩ := by
      rw [hfirst]
      simp only [List.length_nil, acquiredLoop, List.getElem?_cons_zero, henabled, if_false,
        if_true, hnl, hpos, hlog, ne_eq, not_true_eq_false, List.set_cons_zero]
      split_ifs <;> exact ⟨_, rfl⟩
    have hstep : applyCall K options
        ⟨1, 4, [⟨some lock.address, lock.m_level, c⟩, d1, d2, d3]⟩ (.lockAcquired lock)
        = some ⟨1, 4, [⟨some lock.address, lock.m_level, (c + 1) % 4294967296⟩, d1, d2, d3]⟩ := by
      simp only [applyCall, hres, if_true]
    simp only [List.replicate_succ, applyCalls, hstep, Option.some_bind]
    by_cases hn : n = 0
    · subst hn
      rfl
    · have hmod : (c + 1) % 4294967296 = c + 1 := by omega
      rw [hmod, ih (c + 1) (by omega) (by omega) (by omega)]
      have e : c + 1 + n = c + (n + 1) := by omega
      rw [e]

/-- C25 fails on the code: starting from a new checker, `2^32` calls of
`LockAcquired` on the same lock all return (under the default options the
recorded maximum of the lock has no influence), and leave the held entry of the
lock, below the depth, with a recursion count of 0: the `uint32_t` count has
wrapped around.  The code's own assertion of a positive count then fails on the
next `ReleasingLock` and on the next `LockAcquired` of that lock, which the
thread holds. -/
theorem lockAcquired_count_wraps_to_zero :
    applyCalls sampleLockCheckerConstants (enabledOptions sampleLockCheckerConstants)
        (List.replicate 4294967296 (Call.lockAcquired ⟨10, 5, 1⟩))
        (construct sampleLockCheckerConstants)
      = some ⟨1, 4, [⟨some 10, 5, 0⟩, ⟨none, -1, 0⟩, ⟨none, -1, 0⟩, ⟨none, -1, 0⟩]⟩ ∧
    (ReleasingLock sampleLockCheckerConstants
        ⟨1, 4, [⟨some 10, 5, 0⟩, ⟨none, -1, 0⟩, ⟨none, -1, 0⟩, ⟨none, -1, 0⟩]⟩
        ⟨10, 5, 1⟩).2 = some (.assertion .recursionCountZero) ∧
    (LockAcquired sampleLockCheckerConstants (enabledOptions sampleLockCheckerConstants)
        ⟨1, 4, [⟨some 10, 5, 0⟩, ⟨none, -1, 0⟩, ⟨none, -1, 0⟩, ⟨none, -1, 0⟩]⟩
        ⟨10, 5, 1⟩).fault = some (.assertion .recursionCountZero) := by
  refine ⟨?_, by decide, by decide⟩
  have hsplit : List.replicate 4294967296 (Call.lockAcquired ⟨10, 5, 1⟩)
      = Call.lockAcquired ⟨10, 5, 1⟩
        :: List.replicate 4294967295 (Call.lockAcquired ⟨10, 5, 1⟩) :=
    List.replicate_succ _ 4294967295
  have hcons : ∀ (call : Call) (calls : List Call) (self : LockChecker),
      applyCalls sampleLockCheckerConstants (enabledOptions sampleLockCheckerConstants)
        (call :: calls) self
      = (applyCall sampleLockCheckerConstants (enabledOptions sampleLockCheckerConstants)
          self call).bind
          (applyCalls sampleLockCheckerConstants (enabledOptions sampleLockCheckerConstants)
            calls) :=
    fun _ _ _ => rfl
  have hfirst : applyCall sampleLockCheckerConstants
      (enabledOptions sampleLockCheckerConstants) (construct sampleLockCheckerConstants)
      (.lockAcquired ⟨10, 5, 1⟩)
      = some ⟨1, 4, [⟨some 10, 5, 1⟩, ⟨none, -1, 0⟩, ⟨none, -1, 0⟩, ⟨none, -1, 0⟩]⟩ := by
    decide
  have hrest := applyCalls_reentries sampleLockCheckerConstants
    (enabledOptions sampleLockCheckerConstants) ⟨10, 5, 1⟩ ⟨none, -1, 0⟩ ⟨none, -1, 0⟩
    ⟨none, -1, 0⟩ (by decide) (by decide) 4294967295 1 (by omega) (by omega) (by omega)
  have hmod : (1 + 4294967295) % 4294967296 = 0 := by norm_num
  rw [hmod] at hrest
  rw [hsplit, hcons, hfirst, Option.some_bind]
  exact hrest

/-- What every sequence of calls keeps.  Starting from the empty stack of a new
`LockChecker`, after any sequence of `AcquiringLock`, `LockAcquired` and
`ReleasingLock` calls that return, the allocated stack has `m_maximumDepth`
entries, the depth is at most that capacity, and no two entries below the depth
refer to the same lock; a sequence of fewer than `2^32` calls cannot make a
count wrap around, and then every entry below the depth has a recursion count
of at least 1; a call of `AcquiringLock` that returns leaves the checker as it
was. -/
theorem applyCalls_preserves_well_formedness (K : LockCheckerConstants) (options : Nat)
    (calls : List Call) (final : LockChecker)
    (hrun : applyCalls K options calls (construct K) = some final) :
    final.m_lockStack.length = final.m_maximumDepth ∧
    final.m_currentDepth ≤ final.m_maximumDepth ∧
    ((heldLocks final).map fun u => u.m_lock).Nodup ∧
    (calls.length < 4294967296 → ∀ u ∈ heldLocks final, 1 ≤ u.m_recursionCount) ∧
    ∀ lock next, applyCall K options final (.acquiringLock lock) = some next →
      next = final := by
  obtain ⟨hinv0, hheld0⟩ := construct_wellFormed K
  obtain ⟨hinv, hnodup, hcount⟩ := applyCalls_invariant K options calls (construct K) final
    hrun hinv0 (by rw [hheld0]; exact List.nodup_nil)
  refine ⟨hinv.1, hinv.2.1, hnodup, ?_, ?_⟩
  · intro hlen u hu
    exact (hcount 0 (by rw [hheld0]; simp) (by omega) u hu).1
  · intro lock next hnext
    simp only [applyCall] at hnext
    split_ifs at hnext
    cases hnext
    rfl

/-- An instance of the sequences above: two locks are acquired, the first one is
re-entered, and the second one is released. -/
theorem applyCalls_preserves_well_formedness_witness :
    applyCalls sampleLockCheckerConstants (enabledOptions sampleLockCheckerConstants)
        [.lockAcquired ⟨10, 5, 1⟩, .acquiringLock ⟨11, 6, 1⟩, .lockAcquired ⟨11, 6, 1⟩,
          .lockAcquired ⟨10, 5, 1⟩, .releasingLock ⟨11, 6, 1⟩]
        (construct sampleLockCheckerConstants)
      = some ⟨1, 4, [⟨some 10, 5, 2⟩, ⟨some 11, 6, 0⟩, ⟨none, -1, 0⟩, ⟨none, -1, 0⟩]⟩ ∧
    ((heldLocks ⟨1, 4, [⟨some 10, 5, 2⟩, ⟨some 11, 6, 0⟩, ⟨none, -1, 0⟩,
      ⟨none, -1, 0⟩]⟩).map fun u => u.m_lock).Nodup ∧
    ∀ u ∈ heldLocks ⟨1, 4, [⟨some 10, 5, 2⟩, ⟨some 11, 6, 0⟩, ⟨none, -1, 0⟩,
      ⟨none, -1, 0⟩]⟩, 1 ≤ u.m_recursionCount :=
  ⟨by decide,
    (applyCalls_preserves_well_formedness sampleLockCheckerConstants
      (enabledOptions sampleLockCheckerConstants)
      [.lockAcquired ⟨10, 5, 1⟩, .acquiringLock ⟨11, 6, 1⟩, .lockAcquired ⟨11, 6, 1⟩,
        .lockAcquired ⟨10, 5, 1⟩, .releasingLock ⟨11, 6, 1⟩]
      ⟨1, 4, [⟨some 10, 5, 2⟩, ⟨some 11, 6, 0⟩, ⟨none, -1, 0⟩, ⟨none, -1, 0⟩]⟩
      (by decide)).2.2.1,
    (applyCalls_preserves_well_formedness sampleLockCheckerConstants
      (enabledOptions sampleLockCheckerConstants)
      [.lockAcquired ⟨10, 5, 1⟩, .acquiringLock ⟨11, 6, 1⟩, .lockAcquired ⟨11, 6, 1⟩,
        .lockAcquired ⟨10, 5, 1⟩, .releasingLock ⟨11, 6, 1⟩]
      ⟨1, 4, [⟨some 10, 5, 2⟩, ⟨some 11, 6, 0⟩, ⟨none, -1, 0⟩, ⟨none, -1, 0⟩]⟩
      (by decide)).2.2.2.1 (by decide)⟩

end qcc.LockChecker

namespace qcc.LockChecker

/-- The order of the levels of the held entries only depends on the list of
their levels. -/
theorem specLevelsNonDecreasing_iff_map (K : LockCheckerConstants) (self : LockChecker) :
    specLevelsNonDecreasing K self ↔
      ((heldLocks self).map fun u => u.m_level).Pairwise fun x y =>
        x ≠ K.LOCK_LEVEL_NOT_SPECIFIED → y ≠ K.LOCK_LEVEL_NOT_SPECIFIED → x ≤ y := by
  unfold specLevelsNonDecreasing
  rw [List.pairwise_map]

/-- With the levels of the level-specified held entries non-decreasing, the
last held entry of specified level has the greatest level held. -/
theorem level_le_last_specified (K : LockCheckerConstants) (self : LockChecker)
    (pre post : List LockTrace) (t : LockTrace)
    (hsorted : specLevelsNonDecreasing K self)
    (hheld : heldLocks self = pre ++ t :: post)
    (hns : t.m_level ≠ K.LOCK_LEVEL_NOT_SPECIFIED)
    (hpost : ∀ u ∈ post, u.m_level = K.LOCK_LEVEL_NOT_SPECIFIED) :
    ∀ u ∈ heldLocks self, u.m_level ≠ K.LOCK_LEVEL_NOT_SPECIFIED → u.m_level ≤ t.m_level := by
  unfold specLevelsNonDecreasing at hsorted
  rw [hheld, List.pairwise_append] at hsorted
  obtain ⟨_, _, hcross⟩ := hsorted
  intro u hu huns
  rw [hheld] at hu
  rcases List.mem_append.mp hu with h | h
  · exact hcross u h t (by simp) huns hns
  · rcases List.mem_cons.mp h with e | e
    · rw [e]
    · exact absurd (hpost u e) huns

/-- A checked acquisition that returns, under options with the ordering flag
set, keeps the checker well-formed and the levels of the level-specified held
entries non-decreasing. -/
theorem acquire_keeps_order (K : LockCheckerConstants) (options : Nat) (self : LockChecker)
    (lock : Mutex)
    (hord : options &&& K.LOCKCHECKER_OPTION_LOCK_ORDERING_ASSERT ≠ 0)
    (hinv : WellFormed K self) (hsorted : specLevelsNonDecreasing K self)
    (hacquiring : AcquiringLock K options self lock = none)
    (hok : (LockAcquired K options self lock).fault = none) :
    WellFormed K (LockAcquired K options self lock).checker ∧
    specLevelsNonDecreasing K (LockAcquired K options self lock).checker := by
  obtain ⟨hinv', henabled, hcase⟩ := lockAcquired_ok K options self lock hinv hok
  obtain ⟨hcap, hdep, h32, hchecked⟩ := hinv
  have hwf : self.m_currentDepth ≤ self.m_lockStack.length := by omega
  refine ⟨hinv', ?_⟩
  rcases hcase with ⟨hnot, hheld'⟩ | ⟨pre, t, post, hheld, _, _, hlev, _, hheld'⟩
  · have hsorted0 := hsorted
    unfold specLevelsNonDecreasing at hsorted ⊢
    rw [hheld', List.pairwise_append]
    refine ⟨hsorted, List.pairwise_singleton _ _, ?_⟩
    intro a ha b hb
    rw [List.mem_singleton] at hb
    subst hb
    intro hans hbns
    simp only at hbns ⊢
    rcases exists_last_specified K (heldLocks self) with
      hall | ⟨pre, t, post, hheld, hns, hpost⟩
    · exact absurd (hall a ha) hans
    · have hle := level_le_last_specified K self pre post t hsorted0 hheld hns hpost a ha hans
      obtain ⟨_, _, hAL⟩ := acquiringLock_eq_of_split K options self lock pre post t hwf
        (by omega) hchecked hheld hns hpost
      rw [hAL] at hacquiring
      by_cases hge : lock.m_level ≥ t.m_level
      · exact le_trans hle hge
      · exfalso
        have hbelow : ∀ m, 0 ≤ m → m < 0 + pre.length →
            ∃ u, self.m_lockStack[m]? = some u ∧
              u.m_level ≠ K.LOCK_LEVEL_CHECKING_DISABLED ∧ u.m_lock ≠ some lock.address := by
          intro m _ hm
          have hlen : (heldLocks self).length = self.m_currentDepth := by
            simp [heldLocks, hwf]
          have hd : pre.length < self.m_currentDepth := by
            rw [← hlen, hheld]
            simp
          obtain ⟨u, hu, _, hmem⟩ := getElem?_of_lt_depth self m hwf (by omega)
          exact ⟨u, hu, hchecked u hmem, hnot u hmem⟩
        have hscan := previouslyLockedBelow_false K self.m_lockStack lock pre.length 0 hbelow
        rw [hscan] at hacquiring
        simp [henabled, hbns, hge, hord] at hacquiring
  · rw [specLevelsNonDecreasing_iff_map] at hsorted ⊢
    rw [hheld']
    rw [hheld] at hsorted
    simpa [hlev] using hsorted

/-- A release that returns keeps the checker well-formed and the levels of the
level-specified held entries non-decreasing. -/
theorem release_keeps_order (K : LockCheckerConstants) (self : LockChecker) (lock : Mutex)
    (hinv : WellFormed K self) (hsorted : specLevelsNonDecreasing K self)
    (hok : (ReleasingLock K self lock).2 = none) :
    WellFormed K (ReleasingLock K self lock).1 ∧
    specLevelsNonDecreasing K (ReleasingLock K self lock).1 := by
  obtain ⟨hinv', pre, t, post, hheld, _, _, _, hcase⟩ := releasingLock_ok K self lock hinv hok
  refine ⟨hinv', ?_⟩
  rcases hcase with ⟨_, hheld'⟩ | ⟨_, hheld'⟩
  · unfold specLevelsNonDecreasing at hsorted ⊢
    rw [hheld']
    rw [hheld] at hsorted
    exact hsorted.sublist (List.Sublist.append_left (List.sublist_cons_self _ _) _)
  · rw [specLevelsNonDecreasing_iff_map] at hsorted ⊢
    rw [hheld']
    rw [hheld] at hsorted
    simpa using hsorted

/-- A sequence of checked acquisitions and releases that all return, under
options with the ordering flag set, keeps the checker well-formed and the levels
of the level-specified held entries non-decreasing. -/
theorem checkedCalls_invariant (K : LockCheckerConstants) (options : Nat)
    (hord : options &&& K.LOCKCHECKER_OPTION_LOCK_ORDERING_ASSERT ≠ 0)
    (operations : List Operation) :
    ∀ (self final : LockChecker),
      applyCalls K options (checkedCalls operations) self = some final →
      WellFormed K self → specLevelsNonDecreasing K self →
      WellFormed K final ∧ specLevelsNonDecreasing K final := by
  induction operations with
  | nil =>
    intro self final hrun hinv hsorted
    simp only [checkedCalls, applyCalls, Option.some.injEq] at hrun
    subst hrun
    exact ⟨hinv, hsorted⟩
  | cons operation operations ih =>
    intro self final hrun hinv hsorted
    cases operation with
    | acquire lock =>
      simp only [checkedCalls, applyCalls, applyCall] at hrun
      by_cases h1 : AcquiringLock K options self lock = none
      · rw [if_pos h1, Option.some_bind] at hrun
        by_cases h2 : (LockAcquired K options self lock).fault = none
        · rw [if_pos h2, Option.some_bind] at hrun
          obtain ⟨hinv1, hsorted1⟩ :=
            acquire_keeps_order K options self lock hord hinv hsorted h1 h2
          exact ih _ _ hrun hinv1 hsorted1
        · rw [if_neg h2] at hrun
          cases hrun
      · rw [if_neg h1] at hrun
        cases hrun
    | release lock =>
      simp only [checkedCalls, applyCalls, applyCall] at hrun
      by_cases h1 : (ReleasingLock K self lock).2 = none
      · rw [if_pos h1, Option.some_bind] at hrun
        obtain ⟨hinv1, hsorted1⟩ := release_keeps_order K self lock hinv hsorted h1
        exact ih _ _ hrun hinv1 hsorted1
      · rw [if_neg h1] at hrun
        cases hrun

/-- C24: in every per-thread trace made of checked acquisitions
(`AcquiringLock` returning without an assertion, then `LockAcquired`) and of
`ReleasingLock` of held locks, all of which return, under the default enabled
options (the ordering flag being a non-zero flag), starting from a new checker:
the levels of the level-specified entries on the lock stack are non-decreasing
from bottom to top; hence the most recently acquired level-specified lock has
the maximum level held by the thread, and it is the entry whose level
`AcquiringLock` compares against (the entry its first loop stops at). -/
theorem checked_trace_levels_non_decreasing (K : LockCheckerConstants)
    (operations : List Operation) (final : LockChecker)
    (hflag : K.LOCKCHECKER_OPTION_LOCK_ORDERING_ASSERT ≠ 0)
    (hrun : applyCalls K (enabledOptions K) (checkedCalls operations) (construct K)
      = some final) :
    specLevelsNonDecreasing K final ∧
    (∀ t, specMostRecentSpecified K final = some t →
      ∀ u ∈ heldLocks final, u.m_level ≠ K.LOCK_LEVEL_NOT_SPECIFIED →
        u.m_level ≤ t.m_level) ∧
    (∀ r, findRecentEntry K final.m_lockStack final.m_currentDepth
        ((final.m_currentDepth + 4294967296 - 1) % 4294967296) = .ok (true, r) →
      ∃ t, final.m_lockStack[r]? = some t ∧ specMostRecentSpecified K final = some t) := by
  obtain ⟨hinv0, hheld0⟩ := construct_wellFormed K
  have hsorted0 : specLevelsNonDecreasing K (construct K) := by
    unfold specLevelsNonDecreasing
    rw [hheld0]
    exact List.Pairwise.nil
  obtain ⟨hinv, hsorted⟩ := checkedCalls_invariant K (enabledOptions K)
    (enabledOptions_ordering K hflag) operations (construct K) final hrun hinv0 hsorted0
  refine ⟨hsorted, ?_, ?_⟩
  · intro t hrecent u hu huns
    unfold specMostRecentSpecified at hrecent
    rw [List.find?_eq_some] at hrecent
    obtain ⟨hpt, as, bs, hrev, has⟩ := hrecent
    have hheld : heldLocks final = bs.reverse ++ t :: as.reverse := by
      have h := congrArg List.reverse hrev
      simpa using h
    have hns : t.m_level ≠ K.LOCK_LEVEL_NOT_SPECIFIED := by
      simpa using hpt
    refine level_le_last_specified K final bs.reverse as.reverse t hsorted hheld hns ?_
      u hu huns
    intro v hv
    simpa using has v (List.mem_reverse.mp hv)
  · intro r hfind
    obtain ⟨hcap, hdep, h32, _⟩ := hinv
    have hpos : final.m_currentDepth ≠ 0 := by
      intro h0
      rw [h0] at hfind
      simp [findRecentEntry] at hfind
    have hstart : (final.m_currentDepth + 4294967296 - 1) % 4294967296
        = final.m_currentDepth - 1 := by omega
    rw [hstart] at hfind
    obtain ⟨hr1, _, ⟨t, ht, hns⟩, habove⟩ :=
      findRecentEntry_ok_true K _ _ _ r (by omega) (by omega) hfind
    exact ⟨t, ht, specMostRecentSpecified_of_index K final r t (by omega) ht hns
      (fun i h1 h2 => habove i h1 (by omega))⟩

/-- Witness of C24: a lock of level 5 and one of level 7 are acquired, the first
is re-entered, the second is released, and a lock of level 6 is acquired. -/
theorem checked_trace_levels_non_decreasing_witness :
    applyCalls sampleLockCheckerConstants (enabledOptions sampleLockCheckerConstants)
        (checkedCalls [.acquire ⟨10, 5, 1⟩, .acquire ⟨11, 7, 1⟩, .acquire ⟨10, 5, 1⟩,
          .release ⟨11, 7, 1⟩, .acquire ⟨12, 6, 1⟩])
        (construct sampleLockCheckerConstants)
      = some ⟨2, 4, [⟨some 10, 5, 2⟩, ⟨some 12, 6, 1⟩, ⟨none, -1, 0⟩, ⟨none, -1, 0⟩]⟩ ∧
    specLevelsNonDecreasing sampleLockCheckerConstants
      ⟨2, 4, [⟨some 10, 5, 2⟩, ⟨some 12, 6, 1⟩, ⟨none, -1, 0⟩, ⟨none, -1, 0⟩]⟩ :=
  ⟨by decide,
    (checked_trace_levels_non_decreasing sampleLockCheckerConstants
      [.acquire ⟨10, 5, 1⟩, .acquire ⟨11, 7, 1⟩, .acquire ⟨10, 5, 1⟩,
        .release ⟨11, 7, 1⟩, .acquire ⟨12, 6, 1⟩]
      ⟨2, 4, [⟨some 10, 5, 2⟩, ⟨some 12, 6, 1⟩, ⟨none, -1, 0⟩, ⟨none, -1, 0⟩]⟩
      (by decide) (by decide)).1⟩

end qcc.LockChecker

namespace qcc.LockChecker

/-- The first loop of `AcquiringLock`, started at an index inside the stack with
no more iterations than entries at or below that index, reads inside the
stack. -/
theorem findRecentEntry_in_bounds (K : LockCheckerConstants) (s : List LockTrace) :
    ∀ n r0 : Nat, (n = 0 ∨ (n ≤ r0 + 1 ∧ r0 < s.length ∧ r0 < 4294967296)) →
      ∀ i, findRecentEntry K s n r0 ≠ .error (.outOfBounds i) := by
  intro n
  induction n with
  | zero =>
    intro r0 _ i h
    simp [findRecentEntry] at h
  | succ n ih =>
    intro r0 hn i
    have hr0 : n + 1 ≤ r0 + 1 ∧ r0 < s.length ∧ r0 < 4294967296 := by
      rcases hn with h | h
      · omega
      · exact h
    have hu : s[r0]? = some (s[r0]) := List.getElem?_eq_getElem hr0.2.1
    simp only [findRecentEntry, hu]
    split_ifs
    · simp
    · simp
    · apply ih
      by_cases hz : n = 0
      · exact Or.inl hz
      · right
        omega

/-- The second loop of `AcquiringLock`, over indices inside the stack, reads
inside the stack. -/
theorem previouslyLockedBelow_in_bounds (K : LockCheckerConstants) (s : List LockTrace)
    (lock : Mutex) :
    ∀ n i0 : Nat, i0 + n ≤ s.length →
      ∀ i, previouslyLockedBelow K s lock n i0 ≠ .error (.outOfBounds i) := by
  intro n
  induction n with
  | zero =>
    intro i0 _ i h
    simp [previouslyLockedBelow] at h
  | succ n ih =>
    intro i0 hn i
    have hu : s[i0]? = some (s[i0]) := List.getElem?_eq_getElem (by omega)
    simp only [previouslyLockedBelow, hu]
    split_ifs
    · simp
    · simp
    · exact ih (i0 + 1) (by omega) i

/-- `AcquiringLock` reads inside the stack when the depth is at most the number
of allocated entries. -/
theorem acquiringLock_in_bounds (K : LockCheckerConstants) (options : Nat)
    (self : LockChecker) (lock : Mutex)
    (hwf : self.m_currentDepth ≤ self.m_lockStack.length)
    (hu32 : self.m_currentDepth < 4294967296) :
    ∀ i, AcquiringLock K options self lock ≠ some (.outOfBounds i) := by
  intro i
  unfold AcquiringLock
  have hstart : self.m_currentDepth ≠ 0 →
      (self.m_currentDepth + 4294967296 - 1) % 4294967296 = self.m_currentDepth - 1 := by
    intro h
    omega
  cases hfind : findRecentEntry K self.m_lockStack self.m_currentDepth
      ((self.m_currentDepth + 4294967296 - 1) % 4294967296) with
  | error f =>
    have hne := findRecentEntry_in_bounds K self.m_lockStack self.m_currentDepth
      ((self.m_currentDepth + 4294967296 - 1) % 4294967296)
      (by
        by_cases hz : self.m_currentDepth = 0
        · exact Or.inl hz
        · right
          rw [hstart hz]
          omega) i
    rw [hfind] at hne
    intro h
    simp only [Option.some.injEq] at h
    exact hne (by rw [h])
  | ok br =>
    obtain ⟨b, r⟩ := br
    cases b with
    | false => simp
    | true =>
      have hpos : self.m_currentDepth ≠ 0 := by
        intro h0
        rw [h0] at hfind
        simp [findRecentEntry] at hfind
      rw [hstart hpos] at hfind
      obtain ⟨hr1, _, ⟨t, ht, _⟩, _⟩ :=
        findRecentEntry_ok_true K _ _ _ r (by omega) (by omega) hfind
      simp only [ht]
      split_ifs
      · simp
      · simp
      · simp
      · simp
      · cases hprev : previouslyLockedBelow K self.m_lockStack lock r 0 with
        | error f =>
          have hne := previouslyLockedBelow_in_bounds K self.m_lockStack lock r 0
            (by omega) i
          rw [hprev] at hne
          intro h
          simp only [Option.some.injEq] at h
          exact hne (by rw [h])
        | ok pl =>
          simp only
          split_ifs <;> simp

/-- The search loop of `LockAcquired`, over indices inside the stack, reads and
writes inside the stack, and keeps the depth, the capacity and the number of
allocated entries. -/
theorem acquiredLoop_in_bounds (K : LockCheckerConstants) (options : Nat) (self : LockChecker)
    (lock : Mutex) :
    ∀ n i0 : Nat, i0 + n ≤ self.m_lockStack.length →
      ∀ r, acquiredLoop K options self lock n i0 = some r →
        (∀ i, r.fault ≠ some (.outOfBounds i)) ∧
        r.checker.m_lockStack.length = self.m_lockStack.length ∧
        r.checker.m_maximumDepth = self.m_maximumDepth ∧
        r.checker.m_currentDepth = self.m_currentDepth := by
  intro n
  induction n with
  | zero =>
    intro i0 _ r h
    simp [acquiredLoop] at h
  | succ n ih =>
    intro i0 hn r h
    have hu : self.m_lockStack[i0]? = some (self.m_lockStack[i0]) :=
      List.getElem?_eq_getElem (by omega)
    simp only [acquiredLoop, hu] at h
    split_ifs at h
    all_goals first
      | exact ih (i0 + 1) (by omega) r h
      | (simp only [Option.some.injEq] at h
         subst h
         simp)

/-- The tail of `LockAcquired`, on a stack whose capacity can still grow, reads
and writes inside the stack, growing it first when it is full. -/
theorem pushLock_in_bounds (K : LockCheckerConstants) (self : LockChecker) (lock : Mutex)
    (hcap : self.m_lockStack.length = self.m_maximumDepth)
    (hdep : self.m_currentDepth ≤ self.m_maximumDepth)
    (hu32 : self.m_maximumDepth + 1 < 4294967296) :
    (pushLock K self lock).fault = none ∧
    (pushLock K self lock).checker.m_lockStack.length
      = (pushLock K self lock).checker.m_maximumDepth ∧
    (pushLock K self lock).checker.m_currentDepth
      ≤ (pushLock K self lock).checker.m_maximumDepth ∧
    (self.m_currentDepth = self.m_maximumDepth →
      (pushLock K self lock).checker.m_maximumDepth = self.m_maximumDepth + 1) := by
  obtain ⟨depth, maxd, stack⟩ := self
  simp only at hcap hdep hu32 ⊢
  subst hcap
  by_cases hfull : depth = stack.length
  · subst hfull
    rw [pushLock_full K stack lock hu32]
    simp
  · have hlt : depth < stack.length := by omega
    rw [pushLock_room K depth stack.length stack lock hlt hlt (by omega)]
    refine ⟨rfl, by simp, by simp only; omega, fun h => absurd h hfull⟩

/-- The removal loop of `ReleasingLock`, over indices inside the stack, reads
and writes inside the stack. -/
theorem shiftDown_in_bounds :
    ∀ (n j : Nat) (s : List LockTrace), j + n < s.length →
      ∃ s', shiftDown n j s = .ok s' ∧ s'.length = s.length := by
  intro n
  induction n with
  | zero =>
    intro j s _
    exact ⟨s, rfl, rfl⟩
  | succ n ih =>
    intro j s hn
    have hu : s[j + 1]? = some (s[j + 1]) := List.getElem?_eq_getElem (by omega)
    simp only [shiftDown, hu]
    obtain ⟨s', hs', hlen⟩ := ih (j + 1) (s.set j (s[j + 1])) (by simp; omega)
    exact ⟨s', hs', by rw [hlen]; simp⟩

/-- The removal loop of `ReleasingLock`, over indices inside the stack, does
not fail. -/
theorem shiftDown_ne_error (n j : Nat) (s : List LockTrace) (f : Fault)
    (h : j + n < s.length) : shiftDown n j s ≠ .error f := by
  obtain ⟨s', hs', _⟩ := shiftDown_in_bounds n j s h
  rw [hs']
  simp

/-- The search loop of `ReleasingLock`, over indices below the depth, reads and
writes inside the stack. -/
theorem releasingLoop_in_bounds (K : LockCheckerConstants) (self : LockChecker) (lock : Mutex)
    (hwf : self.m_currentDepth ≤ self.m_lockStack.length)
    (hu32 : self.m_currentDepth < 4294967296) :
    ∀ n i0 : Nat, i0 + n ≤ self.m_currentDepth →
      ∀ i, releasingLoop K self lock n i0 ≠ .error (.outOfBounds i) := by
  intro n
  induction n with
  | zero =>
    intro i0 _ i h
    simp [releasingLoop] at h
  | succ n ih =>
    intro i0 hn i
    have hu : self.m_lockStack[i0]? = some (self.m_lockStack[i0]) :=
      List.getElem?_eq_getElem (by omega)
    have hlast : (self.m_currentDepth + 4294967296 - 1) % 4294967296
        = self.m_currentDepth - 1 := by omega
    simp only [releasingLoop, hu, hlast]
    split_ifs
    · simp
    · split
      · rename_i fault heq
        exact absurd heq (shiftDown_ne_error _ _ _ _ (by simp; omega))
      · simp
    · simp
    · simp
    · exact ih (i0 + 1) (by omega) i

/-- `ReleasingLock` reads and writes inside the stack when the depth is at most
the number of allocated entries. -/
theorem releasingLock_in_bounds (K : LockCheckerConstants) (self : LockChecker) (lock : Mutex)
    (hwf : self.m_currentDepth ≤ self.m_lockStack.length)
    (hu32 : self.m_currentDepth < 4294967296) :
    ∀ i, (ReleasingLock K self lock).2 ≠ some (.outOfBounds i) := by
  intro i
  unfold ReleasingLock
  simp only
  split_ifs
  · simp
  · cases hloop : releasingLoop K self lock self.m_currentDepth 0 with
    | error f =>
      have hne := releasingLoop_in_bounds K self lock hwf hu32 self.m_currentDepth 0
        (by omega) i
      rw [hloop] at hne
      intro h
      simp only [Option.some.injEq] at h
      exact hne (by rw [h])
    | ok o =>
      cases o <;> simp

end qcc.LockChecker

namespace qcc.LockChecker

/-- `LockAcquired`, on a stack whose capacity can still grow, reads and writes
inside the stack and leaves as many allocated entries as the capacity; when it
adds an entry to a full stack, the capacity has grown by one. -/
theorem lockAcquired_in_bounds (K : LockCheckerConstants) (options : Nat)
    (self : LockChecker) (lock : Mutex)
    (hcap : self.m_lockStack.length = self.m_maximumDepth)
    (hdep : self.m_currentDepth ≤ self.m_maximumDepth)
    (hu32 : self.m_maximumDepth + 1 < 4294967296) :
    (∀ i, (LockAcquired K options self lock).fault ≠ some (.outOfBounds i)) ∧
    (LockAcquired K options self lock).checker.m_lockStack.length
      = (LockAcquired K options self lock).checker.m_maximumDepth ∧
    (self.m_currentDepth = self.m_maximumDepth →
      (LockAcquired K options self lock).checker.m_currentDepth = self.m_currentDepth + 1 →
      (LockAcquired K options self lock).checker.m_maximumDepth
        = self.m_maximumDepth + 1) := by
  unfold LockAcquired
  simp only
  split_ifs
  · refine ⟨fun i => by simp, hcap, fun _ h => ?_⟩
    simp only at h
    omega
  · cases hloop : acquiredLoop K options self lock self.m_currentDepth 0 with
    | some r =>
      obtain ⟨h1, h2, h3, h4⟩ := acquiredLoop_in_bounds K options self lock
        self.m_currentDepth 0 (by omega) r hloop
      refine ⟨h1, by simp only; rw [h2, h3, hcap], fun _ h => ?_⟩
      simp only at h
      omega
    | none =>
      obtain ⟨h1, h2, _, h4⟩ := pushLock_in_bounds K self lock hcap hdep hu32
      refine ⟨fun i => ?_, h2, fun hfull _ => h4 hfull⟩
      simp only
      rw [h1]
      simp

/-- On a full stack of `2^32 - 1` checked entries, none of them for the lock,
`LockAcquired` lets the new capacity wrap around to 0 and the copy loop writes
at index 0 of an array without entries. -/
theorem lockAcquired_wrap (K : LockCheckerConstants) (options : Nat)
    (stack : List LockTrace) (lock : Mutex)
    (hlen : stack.length + 1 = 4294967296)
    (henabled : lock.m_level ≠ K.LOCK_LEVEL_CHECKING_DISABLED)
    (hchecked : ∀ u ∈ stack, u.m_level ≠ K.LOCK_LEVEL_CHECKING_DISABLED)
    (hnot : ∀ u ∈ stack, u.m_lock ≠ some lock.address) :
    (LockAcquired K options ⟨stack.length, stack.length, stack⟩ lock).fault
      = some (.outOfBounds 0) := by
  have hheld : heldLocks ⟨stack.length, stack.length, stack⟩ = stack := by
    simp [heldLocks]
  rw [lockAcquired_unheld_eq K options ⟨stack.length, stack.length, stack⟩ lock (le_refl _)
    henabled (by rw [hheld]; exact hchecked) (by rw [hheld]; exact hnot),
    pushLock_wrap K stack lock hlen]

/-- Counterexample to C26 as stated: the invariant "depth at most capacity"
holds, the stack is full with the largest capacity a `uint32_t` can hold
(`2^32 - 1` entries, for distinct locks), and `LockAcquired` on one more lock
lets `m_maximumDepth + 1` wrap around to 0: the new array has no entry and the
copy loop writes at index 0, outside of it. -/
theorem lockAcquired_growth_wraps_out_of_bounds :
    (LockAcquired sampleLockCheckerConstants (enabledOptions sampleLockCheckerConstants)
      ⟨4294967295, 4294967295,
        (List.range 4294967295).map fun address => ⟨some address, 5, 1⟩⟩
      ⟨4294967295, 5, 1⟩).fault = some (.outOfBounds 0) := by
  have hlen : ((List.range 4294967295).map
      fun address => (⟨some address, 5, 1⟩ : LockTrace)).length = 4294967295 := by
    rw [List.length_map, List.length_range]
  have h := lockAcquired_wrap sampleLockCheckerConstants
    (enabledOptions sampleLockCheckerConstants)
    ((List.range 4294967295).map fun address => ⟨some address, 5, 1⟩) ⟨4294967295, 5, 1⟩
    (by omega) (by decide)
    (by
      intro u hu
      obtain ⟨address, _, rfl⟩ := List.mem_map.mp hu
      show (5 : Int) ≠ -2
      decide)
    (by
      intro u hu
      obtain ⟨address, ha, rfl⟩ := List.mem_map.mp hu
      rw [List.mem_range] at ha
      intro e
      simp only [Option.some.injEq] at e
      omega)
  rw [hlen] at h
  exact h

/-- C26, amended: every array access made by `AcquiringLock`, `LockAcquired` and
`ReleasingLock` is within the allocated lock stack.  Under the invariant "depth
at most capacity", with the capacity below `2^32 - 1` (so that growing it does
not wrap around) and as many allocated entries as the capacity, none of the
three functions accesses an index outside the stack; `AcquiringLock`, the search
loop of `LockAcquired` and `ReleasingLock` do not either when only the entries
below the depth are allocated, so every index they read is below the depth;
`AcquiringLock` on an empty stack returns without using the wrapped-around
`depth - 1` as an index; and `LockAcquired` leaves as many allocated entries as
the capacity, having grown the array by one when it adds an entry to a full
stack. -/
theorem lock_stack_accesses_in_bounds (K : LockCheckerConstants) (options : Nat)
    (self : LockChecker) (lock : Mutex)
    (hcap : self.m_lockStack.length = self.m_maximumDepth)
    (hdep : self.m_currentDepth ≤ self.m_maximumDepth)
    (hu32 : self.m_maximumDepth + 1 < 4294967296) :
    (∀ i, AcquiringLock K options self lock ≠ some (.outOfBounds i)) ∧
    (∀ i, (LockAcquired K options self lock).fault ≠ some (.outOfBounds i)) ∧
    (∀ i, (ReleasingLock K self lock).2 ≠ some (.outOfBounds i)) ∧
    (∀ i, AcquiringLock K options
      ⟨self.m_currentDepth, self.m_maximumDepth, heldLocks self⟩ lock
        ≠ some (.outOfBounds i)) ∧
    (∀ r i, acquiredLoop K options
      ⟨self.m_currentDepth, self.m_maximumDepth, heldLocks self⟩ lock
        self.m_currentDepth 0 = some r → r.fault ≠ some (.outOfBounds i)) ∧
    (∀ i, (ReleasingLock K
      ⟨self.m_currentDepth, self.m_maximumDepth, heldLocks self⟩ lock).2
        ≠ some (.outOfBounds i)) ∧
    (self.m_currentDepth = 0 → AcquiringLock K options self lock = none) ∧
    (LockAcquired K options self lock).checker.m_lockStack.length
      = (LockAcquired K options self lock).checker.m_maximumDepth ∧
    (self.m_currentDepth = self.m_maximumDepth →
      (LockAcquired K options self lock).checker.m_currentDepth = self.m_currentDepth + 1 →
      (LockAcquired K options self lock).checker.m_maximumDepth
        = self.m_maximumDepth + 1) := by
  have hwf : self.m_currentDepth ≤ self.m_lockStack.length := by omega
  have hcut : (heldLocks self).length = self.m_currentDepth := by
    simp [heldLocks, hwf]
  obtain ⟨h1, h2, h3⟩ := lockAcquired_in_bounds K options self lock hcap hdep hu32
  refine ⟨acquiringLock_in_bounds K options self lock hwf (by omega), h1,
    releasingLock_in_bounds K self lock hwf (by omega),
    acquiringLock_in_bounds K options _ lock (by simp only; omega) (by simp only; omega),
    ?_, releasingLock_in_bounds K _ lock (by simp only; omega) (by simp only; omega),
    ?_, h2, h3⟩
  · intro r i hloop
    exact (acquiredLoop_in_bounds K options _ lock self.m_currentDepth 0
      (by simp only; omega) r hloop).1 i
  · intro h0
    simp [AcquiringLock, h0, findRecentEntry]

/-- Witness of the amended C26: `LockAcquired` on a full stack of four entries,
for a fifth lock, grows the capacity to five. -/
theorem lock_stack_accesses_in_bounds_witness :
    (LockAcquired sampleLockCheckerConstants (enabledOptions sampleLockCheckerConstants)
      ⟨4, 4, [⟨some 10, 5, 1⟩, ⟨some 11, 6, 1⟩, ⟨some 12, 7, 1⟩, ⟨some 13, 8, 1⟩]⟩
      ⟨14, 9, 1⟩).checker.m_maximumDepth = 4 + 1 :=
  (lock_stack_accesses_in_bounds sampleLockCheckerConstants
    (enabledOptions sampleLockCheckerConstants)
    ⟨4, 4, [⟨some 10, 5, 1⟩, ⟨some 11, 6, 1⟩, ⟨some 12, 7, 1⟩, ⟨some 13, 8, 1⟩]⟩
    ⟨14, 9, 1⟩ (by decide) (by decide) (by decide)).2.2.2.2.2.2.2.2 (by decide) (by decide)

end qcc.LockChecker

namespace qcc.LockChecker

/-- `LockAcquired` on a full stack of `2^32 - 1` checked entries, none of them
for the lock, in closed form: nothing is added and the call ends with the write
at index 0 of the new array, which has no entry. -/
theorem lockAcquired_wrap_eq (K : LockCheckerConstants) (options : Nat)
    (stack : List LockTrace) (lock : Mutex)
    (hlen : stack.length + 1 = 4294967296)
    (henabled : lock.m_level ≠ K.LOCK_LEVEL_CHECKING_DISABLED)
    (hchecked : ∀ u ∈ stack, u.m_level ≠ K.LOCK_LEVEL_CHECKING_DISABLED)
    (hnot : ∀ u ∈ stack, u.m_lock ≠ some lock.address) :
    LockAcquired K options ⟨stack.length, stack.length, stack⟩ lock
      = ⟨⟨stack.length, stack.length, stack⟩, lock, some (.outOfBounds 0), []⟩ := by
  have hheld : heldLocks ⟨stack.length, stack.length, stack⟩ = stack := by
    simp [heldLocks]
  rw [lockAcquired_unheld_eq K options ⟨stack.length, stack.length, stack⟩ lock (le_refl _)
    henabled (by rw [hheld]; exact hchecked) (by rw [hheld]; exact hnot),
    pushLock_wrap K stack lock hlen]

/-- Counterexample to C20 as stated, at the two limits of `uint32_t`.  A
re-entry of a lock held with recursion count `2^32 - 1` returns and leaves the
entry with count 0, not one more.  On a full stack of capacity `2^32 - 1` (one
entry per lock), `LockAcquired` on a lock that is not on the stack adds no
entry: the depth and the capacity stay `2^32 - 1`, and the call ends in an
access outside the new array. -/
theorem lockAcquired_wraps_at_uint32_limits :
    ((LockAcquired sampleLockCheckerConstants (enabledOptions sampleLockCheckerConstants)
        ⟨1, 4, [⟨some 10, 5, 4294967295⟩, ⟨none, -1, 0⟩, ⟨none, -1, 0⟩, ⟨none, -1, 0⟩]⟩
        ⟨10, 5, 4294967295⟩).fault = none ∧
      heldLocks (LockAcquired sampleLockCheckerConstants
        (enabledOptions sampleLockCheckerConstants)
        ⟨1, 4, [⟨some 10, 5, 4294967295⟩, ⟨none, -1, 0⟩, ⟨none, -1, 0⟩, ⟨none, -1, 0⟩]⟩
        ⟨10, 5, 4294967295⟩).checker = [⟨some 10, 5, 0⟩]) ∧
    ((LockAcquired sampleLockCheckerConstants (enabledOptions sampleLockCheckerConstants)
        ⟨4294967295, 4294967295,
          (List.range 4294967295).map fun address => ⟨some address, 5, 1⟩⟩
        ⟨4294967295, 5, 1⟩).fault = some (.outOfBounds 0) ∧
      (LockAcquired sampleLockCheckerConstants (enabledOptions sampleLockCheckerConstants)
        ⟨4294967295, 4294967295,
          (List.range 4294967295).map fun address => ⟨some address, 5, 1⟩⟩
        ⟨4294967295, 5, 1⟩).checker.m_currentDepth = 4294967295 ∧
      (LockAcquired sampleLockCheckerConstants (enabledOptions sampleLockCheckerConstants)
        ⟨4294967295, 4294967295,
          (List.range 4294967295).map fun address => ⟨some address, 5, 1⟩⟩
        ⟨4294967295, 5, 1⟩).checker.m_maximumDepth = 4294967295) := by
  refine ⟨⟨by decide, by decide⟩, ?_⟩
  have hlen : ((List.range 4294967295).map
      fun address => (⟨some address, 5, 1⟩ : LockTrace)).length = 4294967295 := by
    rw [List.length_map, List.length_range]
  have h := lockAcquired_wrap_eq sampleLockCheckerConstants
    (enabledOptions sampleLockCheckerConstants)
    ((List.range 4294967295).map fun address => ⟨some address, 5, 1⟩) ⟨4294967295, 5, 1⟩
    (by omega) (by decide)
    (by
      intro u hu
      obtain ⟨address, _, rfl⟩ := List.mem_map.mp hu
      show (5 : Int) ≠ -2
      decide)
    (by
      intro u hu
      obtain ⟨address, ha, rfl⟩ := List.mem_map.mp hu
      rw [List.mem_range] at ha
      intro e
      simp only [Option.some.injEq] at e
      omega)
  rw [hlen] at h
  rw [h]
  exact ⟨rfl, rfl, rfl⟩

/-- C20, amended: `LockAcquired` pushes or increments.  For a lock not on the
stack, unless the stack is full with the capacity `2^32 - 1`, it returns
normally, appends the triple (lock, the lock's level, 1) on top, increases the
depth by exactly one and leaves every existing entry and the lock unchanged; the
capacity grows by exactly one when the stack was full and stays otherwise.  For
a lock already on the stack (first entry `t`, recorded with the lock's level and
a positive count) whose count is below `2^32 - 1`, it increases that entry's
count by exactly one and changes neither the depth, the capacity nor any other
entry. -/
theorem lockAcquired_push_or_increment (K : LockCheckerConstants) (options : Nat)
    (self : LockChecker) (lock : Mutex)
    (hcap : self.m_lockStack.length = self.m_maximumDepth)
    (hwf : self.m_currentDepth ≤ self.m_maximumDepth)
    (h32 : self.m_maximumDepth < 4294967296)
    (henabled : lock.m_level ≠ K.LOCK_LEVEL_CHECKING_DISABLED)
    (hchecked : ∀ u ∈ heldLocks self, u.m_level ≠ K.LOCK_LEVEL_CHECKING_DISABLED) :
    ((∀ u ∈ heldLocks self, u.m_lock ≠ some lock.address) →
      (self.m_currentDepth = self.m_maximumDepth → self.m_maximumDepth + 1 < 4294967296) →
      (LockAcquired K options self lock).fault = none ∧
      (LockAcquired K options self lock).lock = lock ∧
      heldLocks (LockAcquired K options self lock).checker
        = heldLocks self ++ [⟨some lock.address, lock.m_level, 1⟩] ∧
      (LockAcquired K options self lock).checker.m_currentDepth = self.m_currentDepth + 1 ∧
      (LockAcquired K options self lock).checker.m_lockStack.length
        = (LockAcquired K options self lock).checker.m_maximumDepth ∧
      (self.m_currentDepth = self.m_maximumDepth →
        (LockAcquired K options self lock).checker.m_maximumDepth
          = self.m_maximumDepth + 1) ∧
      (self.m_currentDepth < self.m_maximumDepth →
        (LockAcquired K options self lock).checker.m_maximumDepth = self.m_maximumDepth)) ∧
    (∀ (pre post : List LockTrace) (t : LockTrace),
      heldLocks self = pre ++ t :: post →
      (∀ u ∈ pre, u.m_lock ≠ some lock.address) →
      t.m_lock = some lock.address → t.m_level = lock.m_level →
      0 < t.m_recursionCount → t.m_recursionCount + 1 < 4294967296 →
      heldLocks (LockAcquired K options self lock).checker
        = pre ++ ⟨t.m_lock, t.m_level, t.m_recursionCount + 1⟩ :: post ∧
      (LockAcquired K options self lock).checker.m_currentDepth = self.m_currentDepth ∧
      (LockAcquired K options self lock).checker.m_maximumDepth = self.m_maximumDepth ∧
      ((LockAcquired K options self lock).fault = none ∨
        (LockAcquired K options self lock).fault = some (.assertion .recursiveAcquire))) := by
  have hwf' : self.m_currentDepth ≤ self.m_lockStack.length := by omega
  constructor
  · intro hnot hgrow
    rw [lockAcquired_unheld_eq K options self lock hwf' henabled hchecked hnot]
    obtain ⟨depth, maxd, stack⟩ := self
    simp only at hcap hwf h32 hwf' hgrow ⊢
    subst hcap
    by_cases hfull : depth = stack.length
    · subst hfull
      rw [pushLock_full K stack lock (hgrow rfl)]
      refine ⟨rfl, rfl, ?_, rfl, by simp, fun _ => rfl, fun h => absurd h (lt_irrefl _)⟩
      simp only [heldLocks]
      rw [List.take_length]
      exact List.take_of_length_le (by simp)
    · have hlt : depth < stack.length := by omega
      rw [pushLock_room K depth stack.length stack lock hlt hlt (by omega)]
      refine ⟨rfl, rfl, take_succ_set stack depth _ hlt, rfl, by simp,
        fun h => absurd h hfull, fun _ => rfl⟩
  · intro pre post t hheld hfirst hlock hlevel hcount hcount32
    have hpre : ∀ u ∈ pre, u.m_level ≠ K.LOCK_LEVEL_CHECKING_DISABLED := by
      intro u hu
      apply hchecked
      rw [hheld]
      exact List.mem_append_left _ hu
    obtain ⟨hres, htake⟩ := lockAcquired_held_eq K options self lock pre post t hwf' henabled
      hheld hpre hfirst hlock hlevel hcount hcount32
    rw [hres, hlock, hlevel]
    split_ifs <;> exact ⟨htake, rfl, rfl, by simp⟩

/-- Witness of the amended C20: a fifth lock is acquired on a full stack of
capacity 4. -/
theorem lockAcquired_push_or_increment_witness :
    heldLocks (LockAcquired sampleLockCheckerConstants
        (enabledOptions sampleLockCheckerConstants)
        ⟨4, 4, [⟨some 10, 5, 2⟩, ⟨some 11, 6, 1⟩, ⟨some 12, 7, 1⟩, ⟨some 13, 7, 1⟩]⟩
        ⟨14, 7, 0⟩).checker
      = [⟨some 10, 5, 2⟩, ⟨some 11, 6, 1⟩, ⟨some 12, 7, 1⟩, ⟨some 13, 7, 1⟩,
          ⟨some 14, 7, 1⟩] :=
  ((lockAcquired_push_or_increment sampleLockCheckerConstants
    (enabledOptions sampleLockCheckerConstants)
    ⟨4, 4, [⟨some 10, 5, 2⟩, ⟨some 11, 6, 1⟩, ⟨some 12, 7, 1⟩, ⟨some 13, 7, 1⟩]⟩ ⟨14, 7, 0⟩
    rfl (by decide) (by decide) (by decide) (by decide)).1 (by decide) (by decide)).2.2.1

end qcc.LockChecker

namespace ajn.ProtectedAuthListener

open AsyncTracker

/-- Replacing the thread at an index changes the number of calls in flight by
what the old and the new thread contribute. -/
theorem inFlightCount_set (threads : List RequestThread) :
    ∀ (index : Nat) (old new : RequestThread), threads[index]? = some old →
      inFlightCount (threads.set index new) + (if old.inFlight then 1 else 0)
        = inFlightCount threads + (if new.inFlight then 1 else 0) := by
  induction threads with
  | nil =>
    intro index old new h
    simp at h
  | cons x xs ih =>
    intro index old new h
    cases index with
    | zero =>
      simp only [List.getElem?_cons_zero, Option.some.injEq] at h
      subst h
      simp only [inFlightCount, List.set_cons_zero, List.countP_cons]
      omega
    | succ i =>
      simp only [List.getElem?_cons_succ] at h
      have := ih i old new h
      simp only [inFlightCount, List.set_cons_succ, List.countP_cons] at this ⊢
      omega

/-- A thread in flight is counted. -/
theorem inFlightCount_pos (threads : List RequestThread) (index : Nat) (thread : RequestThread)
    (h : threads[index]? = some thread) (hin : thread.inFlight = true) :
    0 < inFlightCount threads := by
  unfold inFlightCount
  rw [List.countP_pos_iff]
  exact ⟨thread, List.getElem?_mem h, hin⟩

/-- A step of a dispatched call leaves the listener as it is, and changes the
reference count by what the thread contributes to the calls in flight before and
after the step. -/
theorem requestStep_effect (context : Nat) (thread : RequestThread) (s : DispatchState) :
    (RequestStep context thread s).2.self.listener = s.self.listener ∧
    ((thread.inFlight = true → 0 < s.self.refCount) →
      (RequestStep context thread s).2.self.refCount + (if thread.inFlight then 1 else 0)
        = s.self.refCount
          + (if (RequestStep context thread s).1.inFlight then 1 else 0)) := by
  obtain ⟨call, pc⟩ := thread
  cases pc with
  | idle => exact ⟨rfl, fun _ => by simp [RequestStep, RequestThread.inFlight, lockedIncrement]⟩
  | entered authListener =>
    cases authListener with
    | none =>
      refine ⟨rfl, fun h => ?_⟩
      have := h rfl
      simp only [RequestStep, RequestLeave, RequestThread.inFlight, lockedDecrement]
      simp
      omega
    | some a =>
      cases call with
      | requestCredentials credentials =>
        exact ⟨rfl, fun _ => by simp [RequestStep, RequestThread.inFlight, lockedIncrement]⟩
      | verifyCredentials =>
        exact ⟨rfl, fun _ => by simp [RequestStep, RequestThread.inFlight, lockedIncrement]⟩
      | securityViolation =>
        refine ⟨rfl, fun h => ?_⟩
        have := h rfl
        simp only [RequestStep, RequestLeave, RequestThread.inFlight, lockedDecrement]
        simp
        omega
      | authenticationComplete =>
        refine ⟨rfl, fun h => ?_⟩
        have := h rfl
        simp only [RequestStep, RequestLeave, RequestThread.inFlight, lockedDecrement]
        simp
        omega
  | allocated a c => exact ⟨rfl, fun _ => by simp [RequestStep, RequestThread.inFlight, lockedIncrement]⟩
  | released =>
    refine ⟨rfl, fun h => ?_⟩
    have := h rfl
    simp only [RequestStep, RequestLeave, RequestThread.inFlight, lockedDecrement]
    simp
    omega
  | returned => exact ⟨rfl, fun _ => by simp [RequestStep, RequestThread.inFlight, lockedIncrement]⟩

/-- Every step of the dispatch component keeps the invariant. -/
theorem systemStep_invariant (authListener : Option Nat) (system : DispatchSystem)
    (action : SystemAction) (hinv : SystemInvariant authListener system) :
    SystemInvariant authListener (SystemStep authListener system action) := by
  obtain ⟨hcount, hshape, hnull⟩ := hinv
  cases action with
  | set =>
    refine ⟨?_, ?_, ?_⟩
    · have hrc : (SetStep authListener system.setPc system.shared).2.1.self.refCount
          = system.shared.self.refCount := by
        cases hpc : system.setPc with
        | start => rfl
        | cleared goner => cases goner <;> rfl
        | polling =>
          simp only [SetStep]
          split_ifs <;> rfl
        | done => rfl
      simp only [SystemStep, hrc, hcount]
    · simp only [SystemStep]
      cases hpc : system.setPc with
      | start =>
        rw [hpc] at hshape
        simp only at hshape
        simp [SetStep, hshape]
      | cleared goner =>
        rw [hpc] at hshape
        simp only at hshape
        cases goner with
        | none =>
          simp only [SetStep, hshape]
          exact ⟨none, [], by simp [removeAllEvents], by simp⟩
        | some g =>
          simp only [SetStep, hshape]
          exact ⟨some g, [], by simp [removeAllEvents], by simp⟩
      | polling =>
        rw [hpc] at hshape
        simp only at hshape
        obtain ⟨goner, sleeps, htr, hsl⟩ := hshape
        by_cases hrc : system.shared.self.refCount = 0
        · simp only [SetStep, hrc, ne_eq, not_true_eq_false, if_false, htr]
          exact ⟨goner, sleeps, by simp, hsl⟩
        · simp only [SetStep, hrc, ne_eq, not_false_eq_true, if_true, htr]
          refine ⟨goner, sleeps ++ [.sleep system.shared.self.refCount], by simp, ?_⟩
          intro e he
          rcases List.mem_append.mp he with h | h
          · exact hsl e h
          · exact ⟨_, hrc, by simpa using h⟩
      | done =>
        rw [hpc] at hshape
        simp only at hshape
        obtain ⟨goner, sleeps, htr, hsl⟩ := hshape
        simp only [SetStep, htr]
        exact ⟨goner, sleeps, by simp, hsl⟩
    · simp only [SystemStep]
      cases hpc : system.setPc with
      | start => intro _; rfl
      | cleared goner =>
        have hn := hnull (Or.inr ⟨goner, hpc⟩)
        cases goner <;> intro _ <;> exact hn
      | polling =>
        have hn := hnull (Or.inl hpc)
        by_cases hrc : system.shared.self.refCount = 0
        · simp [SetStep, hrc]
        · simp only [SetStep, hrc, ne_eq, not_false_eq_true, if_true]
          intro _
          exact hn
      | done => simp [SetStep]
  | request index context =>
    simp only [SystemStep]
    cases hthread : system.threads[index]? with
    | none => exact ⟨hcount, hshape, hnull⟩
    | some thread =>
      obtain ⟨hlistener, hrc⟩ := requestStep_effect context thread system.shared
      have hpos : thread.inFlight = true → 0 < system.shared.self.refCount := by
        intro hin
        rw [hcount]
        exact inFlightCount_pos system.threads index thread hthread hin
      have h1 := hrc hpos
      have h2 := inFlightCount_set system.threads index thread
        (RequestStep context thread system.shared).1 hthread
      refine ⟨?_, hshape, ?_⟩
      · simp only
        omega
      · simp only [hlistener]
        exact hnull
  | respond context accept credentials => exact ⟨hcount, hshape, hnull⟩

/-- Every run of the dispatch component keeps the invariant. -/
theorem systemRun_invariant (authListener : Option Nat) (actions : List SystemAction) :
    ∀ system : DispatchSystem, SystemInvariant authListener system →
      SystemInvariant authListener (SystemRun authListener actions system) := by
  induction actions with
  | nil =>
    intro system hinv
    exact hinv
  | cons action actions ih =>
    intro system hinv
    exact ih _ (systemStep_invariant authListener system action hinv)

end ajn.ProtectedAuthListener

namespace ajn.ProtectedAuthListener

open AsyncTracker

/-- C17: `Set` never installs the next listener while a request is still in
flight.  In every state the dispatch component reaches from a state in which
`Set(authListener)` is about to start and the reference count is the number of
dispatched calls in flight, whatever the order in which `Set`, the dispatched
calls and the responses of the application take their steps:
the reference count is the number of calls in flight; an assignment among the
steps of `Set` is made on a reference count of zero, assigns `authListener` and
comes last, after the clearing of the previous listener, the `RemoveAll` of that
listener when there was one, and only sleeps on a non-zero count; the step that
assigns is taken only in a state where no call is in flight and the listener is
still cleared, and while a call is in flight a step of `Set` at its loop
installs nothing; and the `RemoveAll` step removes from the registry every
context of the previous listener, each of them rejected (`accept = false`) with
its event set, and leaves no context of that listener registered. -/
theorem set_installs_only_with_no_request_in_flight (authListener : Option Nat)
    (actions : List SystemAction) (initial : DispatchSystem)
    (hstart : initial.setPc = .start) (hevents : initial.events = [])
    (hcount : initial.shared.self.refCount = inFlightCount initial.threads) :
    (SystemRun authListener actions initial).shared.self.refCount
      = inFlightCount (SystemRun authListener actions initial).threads ∧
    (∀ refCount listener,
      SetEvent.assign refCount listener ∈ (SystemRun authListener actions initial).events →
      refCount = 0 ∧ listener = authListener ∧
      ∃ goner sleeps,
        (SystemRun authListener actions initial).events
          = .clear goner :: (removeAllEvents goner ++ sleeps ++ [.assign 0 authListener]) ∧
        ∀ e ∈ sleeps, ∃ k, k ≠ 0 ∧ e = .sleep k) ∧
    ((SystemRun authListener actions initial).setPc = .polling →
      (SystemStep authListener (SystemRun authListener actions initial) .set).setPc = .done →
      (SystemRun authListener actions initial).shared.self.refCount = 0 ∧
      inFlightCount (SystemRun authListener actions initial).threads = 0 ∧
      (∀ thread ∈ (SystemRun authListener actions initial).threads,
        thread.inFlight = false) ∧
      (SystemRun authListener actions initial).shared.self.listener = none ∧
      (SystemStep authListener (SystemRun authListener actions initial)
        .set).shared.self.listener = authListener) ∧
    ((SystemRun authListener actions initial).setPc ≠ .done →
      inFlightCount (SystemRun authListener actions initial).threads ≠ 0 →
      (SystemStep authListener (SystemRun authListener actions initial) .set).setPc ≠ .done ∧
      (SystemStep authListener (SystemRun authListener actions initial)
        .set).shared.self.listener = none) ∧
    (∀ goner, (SystemRun authListener actions initial).setPc = .cleared (some goner) →
      (∀ context ∈ (SystemRun authListener actions initial).shared.tracker.contexts,
        ((SystemRun authListener actions initial).shared.tracker.heap context).listener
          = goner →
        context ∉ (SystemStep authListener (SystemRun authListener actions initial)
          .set).shared.tracker.contexts ∧
        ((SystemStep authListener (SystemRun authListener actions initial)
          .set).shared.tracker.heap context).accept = false ∧
        ((SystemStep authListener (SystemRun authListener actions initial)
          .set).shared.tracker.heap context).event = true) ∧
      (∀ context ∈ (SystemStep authListener (SystemRun authListener actions initial)
          .set).shared.tracker.contexts,
        ((SystemStep authListener (SystemRun authListener actions initial)
          .set).shared.tracker.heap context).listener ≠ goner)) := by
  have hinv0 : SystemInvariant authListener initial := by
    refine ⟨hcount, ?_, ?_⟩
    · rw [hstart]
      exact hevents
    · rintro (h | ⟨goner, h⟩) <;> rw [hstart] at h <;> cases h
  obtain ⟨hrc, hshape, hnull⟩ := systemRun_invariant authListener actions initial hinv0
  generalize SystemRun authListener actions initial = system at hrc hshape hnull ⊢
  refine ⟨hrc, ?_, ?_, ?_, ?_⟩
  · intro refCount listener hmem
    have hsleep : ∀ sleeps : List SetEvent, (∀ e ∈ sleeps, ∃ k, k ≠ 0 ∧ e = .sleep k) →
        SetEvent.assign refCount listener ∉ sleeps := by
      intro sleeps hsl h
      obtain ⟨k, _, hk⟩ := hsl _ h
      cases hk
    have hrem : ∀ goner, SetEvent.assign refCount listener ∉ removeAllEvents goner := by
      intro goner h
      cases goner with
      | none => simp [removeAllEvents] at h
      | some g => simp [removeAllEvents] at h
    cases hpc : system.setPc with
    | start =>
      rw [hpc] at hshape
      simp only at hshape
      rw [hshape] at hmem
      cases hmem
    | cleared goner =>
      rw [hpc] at hshape
      simp only at hshape
      rw [hshape] at hmem
      simp at hmem
    | polling =>
      rw [hpc] at hshape
      simp only at hshape
      obtain ⟨goner, sleeps, htr, hsl⟩ := hshape
      rw [htr] at hmem
      rcases List.mem_cons.mp hmem with h | h
      · cases h
      · rcases List.mem_append.mp h with h | h
        · exact absurd h (hrem goner)
        · exact absurd h (hsleep sleeps hsl)
    | done =>
      rw [hpc] at hshape
      simp only at hshape
      obtain ⟨goner, sleeps, htr, hsl⟩ := hshape
      have hlast : SetEvent.assign refCount listener = SetEvent.assign 0 authListener := by
        rw [htr] at hmem
        rcases List.mem_cons.mp hmem with h | h
        · cases h
        · rcases List.mem_append.mp h with h | h
          · rcases List.mem_append.mp h with h | h
            · exact absurd h (hrem goner)
            · exact absurd h (hsleep sleeps hsl)
          · simpa using h
      cases hlast
      exact ⟨rfl, rfl, goner, sleeps, htr, hsl⟩
  · intro hpc hdone
    have hzero : system.shared.self.refCount = 0 := by
      by_contra hne
      simp [SystemStep, SetStep, hpc, hne] at hdone
    have hnone : inFlightCount system.threads = 0 := by rw [← hrc]; exact hzero
    refine ⟨hzero, hnone, ?_, hnull (Or.inl hpc), ?_⟩
    · intro thread hthread
      unfold inFlightCount at hnone
      rw [List.countP_eq_zero] at hnone
      simpa using hnone thread hthread
    · simp [SystemStep, SetStep, hpc, hzero]
  · intro hpc hin
    have hne : system.shared.self.refCount ≠ 0 := by rw [hrc]; exact hin
    cases hpc' : system.setPc with
    | start => simp [SystemStep, SetStep, hpc']
    | cleared goner =>
      have hn := hnull (Or.inr ⟨goner, hpc'⟩)
      cases goner <;> simp [SystemStep, SetStep, hpc', hn]
    | polling =>
      have hn := hnull (Or.inl hpc')
      simp [SystemStep, SetStep, hpc', hne, hn]
    | done => exact absurd hpc' hpc
  · intro goner hpc
    obtain ⟨h1, h2⟩ := removeAllLoop_spec goner system.shared.tracker.contexts
      system.shared.tracker.heap
    have hcontexts : (SystemStep authListener system .set).shared.tracker.contexts
        = system.shared.tracker.contexts.filter
            (fun c => decide ((system.shared.tracker.heap c).listener ≠ goner)) := by
      simp only [SystemStep, SetStep, hpc, RemoveAll, h1]
    have hheap : ∀ c, (SystemStep authListener system .set).shared.tracker.heap c
        = if c ∈ system.shared.tracker.contexts ∧ (system.shared.tracker.heap c).listener = goner
          then ⟨(system.shared.tracker.heap c).listener, false,
            (system.shared.tracker.heap c).credentials, true⟩
          else system.shared.tracker.heap c := by
      intro c
      simp only [SystemStep, SetStep, hpc, RemoveAll, h2 c]
    constructor
    · intro context hmem hl
      refine ⟨?_, ?_, ?_⟩
      · rw [hcontexts, List.mem_filter]
        simp [hl]
      · rw [hheap context, if_pos ⟨hmem, hl⟩]
      · rw [hheap context, if_pos ⟨hmem, hl⟩]
    · intro context hmem
      rw [hcontexts, List.mem_filter] at hmem
      have hl : (system.shared.tracker.heap context).listener ≠ goner := by
        simpa using hmem.2
      rw [hheap context, if_neg (fun h => hl h.2)]
      exact hl

/-- Witness of C17: `Set(9)` replaces the listener 7 while a `RequestCredentials`
call that read the listener 7 is in flight with its context 100 registered; the
call has entered and allocated, `Set` has cleared the listener and removed the
context, and its next step at the loop installs nothing. -/
theorem set_installs_only_with_no_request_in_flight_witness :
    (SystemStep (some 9)
      (SystemRun (some 9)
        [.request 0 100, .request 0 100, .set, .set]
        ⟨⟨⟨some 7, 0⟩, emptyTracker⟩, .start,
          [⟨.requestCredentials emptyCredentials, .idle⟩, ⟨.verifyCredentials, .idle⟩], []⟩)
      .set).setPc ≠ .done ∧
    (SystemStep (some 9)
      (SystemRun (some 9)
        [.request 0 100, .request 0 100, .set, .set]
        ⟨⟨⟨some 7, 0⟩, emptyTracker⟩, .start,
          [⟨.requestCredentials emptyCredentials, .idle⟩, ⟨.verifyCredentials, .idle⟩], []⟩)
      .set).shared.self.listener = none :=
  (set_installs_only_with_no_request_in_flight (some 9)
    [.request 0 100, .request 0 100, .set, .set]
    ⟨⟨⟨some 7, 0⟩, emptyTracker⟩, .start,
      [⟨.requestCredentials emptyCredentials, .idle⟩, ⟨.verifyCredentials, .idle⟩], []⟩
    rfl rfl (by decide)).2.2.2.1 (by decide) (by decide)

end ajn.ProtectedAuthListener
